import Mathlib

/-!
# datablocks: response builder and coalescing data fetcher

A shallow embedding of `pkg/datablocks` (builder.go, fetcher.go, storage.go,
node.go) and the properties proved about it.

Conventions of the embedding

* A Go `interface{}` value is an element of a type `V`; `default : V` is the
  nil interface value.
* A Go `error` is `Option String`; `none` is the nil error.
* A Go `map[string]T` is a `GoMap T`: an association list with at most one
  binding per key, read with `GoMap.get` and written with `GoMap.set`.
* Go `int` counters are `Int`; they count slice elements and never get
  near the 64 bit limits.
* Goroutines are made explicit: the order in which the gather loop of
  `build` receives completions is an input (a list of `GatherEvent`).
-/

namespace Datablocks

/-! ## Go maps -/

/-- Go `map[string]T`. -/
abbrev GoMap (T : Type) := List (String × T)

namespace GoMap

/-- The lookup `v, ok := m[k]`. -/
def get {T : Type} : GoMap T → String → Option T
  | [], _ => none
  | (a, b) :: m, k => if k = a then some b else get m k

/-- The assignment `m[k] = v`: an existing binding of `k` is replaced. -/
def set {T : Type} (m : GoMap T) (k : String) (v : T) : GoMap T :=
  (k, v) :: m.filter (fun p => !decide (p.1 = k))

/-- The keys bound in the map. -/
def keys {T : Type} (m : GoMap T) : List String :=
  m.map Prod.fst

end GoMap

/-! ## Basic types -/

/-- Go `error`; `none` is nil. -/
abbrev GoError := Option String

/-- Go `[]byte`. -/
abbrev Bytes := List Nat

/-- The part of `context.Context` the package looks at: the deadline, in
milliseconds from the start of the composition, when there is one. Cancellation
by the caller is an event of the schedule (`GatherEvent.ctxDone`). -/
structure Context where
  deadlineMs : Option Int
deriving DecidableEq, Repr

/-- The call `context.WithTimeout(ctx, ms * time.Millisecond)`: the earlier of
the two deadlines. -/
def Context.WithTimeout (ctx : Context) (ms : Int) : Context :=
  match ctx.deadlineMs with
  | none => { deadlineMs := some ms }
  | some d => { deadlineMs := some (min d ms) }

/-- The type `NodeBuilderFn` of node.go: what the builder returns when run with
the given context. The data fetcher argument is not part of the model. -/
abbrev NodeBuilderFn (V : Type) := Context → V × GoError

/-- The struct `NodeConf` of node.go. -/
structure NodeConf (V : Type) where
  Key : String
  Static : Bool
  Required : Bool
  Builder : NodeBuilderFn V

/-- The struct `NodeBuilderResult` of builder.go: one slot. -/
structure NodeBuilderResult (V : Type) where
  nodeConf : NodeConf V
  res : V
  err : GoError
  fetched : Bool

/-- A buffered `chan bool` with no receiver running: capacity and the values
waiting in the buffer. -/
structure BoolChan where
  cap : Nat
  buf : List Bool
deriving DecidableEq, Repr

/-- The struct `ResponseBuilder` of builder.go. `S` is the state of the storage
behind the `KeyValStorage` interface value. The fields `dataFetcher` and `lock`
are left out: the builders are modelled by their return values, and every
function below is one atomic step. A channel field holds the reference of the
channel (`none` is the nil channel); the channels themselves live in the
`chans` of a `Run`. `buildStartTime` is in nanoseconds, zero being the zero
`time.Time`. -/
structure ResponseBuilder (V S : Type) where
  storageKey : String
  storage : S
  result : List (NodeBuilderResult V)
  numRequired : Int
  numReqPending : Int
  numReqErr : Int
  numOptPending : Int
  numOptErr : Int
  requiredReady : Option Nat
  fullReady : Option Nat
  buildNodeTimeoutMillis : Int
  buildStartTime : Int

/-- The constant `DefaultBuildNodeTimeoutMillis`. -/
def DefaultBuildNodeTimeoutMillis : Int := 2000

/-! ## Storage (storage.go) -/

/-- The interface `KeyValStorage` over a storage state `S`. -/
structure KeyValStorage (S : Type) where
  Get : S → Context → String → Bytes × GoError
  Set : S → Context → String → Bytes → S × GoError

/-- The methods of `NopKeyValStorage`. -/
def NopKeyValStorage : KeyValStorage Unit where
  Get := fun _ _ _ => ([], none)
  Set := fun _ _ _ _ => ((), none)

/-- The methods of `RedisKeyValStorage`. -/
def RedisKeyValStorage : KeyValStorage Unit where
  Get := fun _ _ _ => ([], some "not implemented")
  Set := fun _ _ _ _ => ((), some "not implemented")

/-- The methods of `InMemStorage`; the state is the content of its `sync.Map`,
which only ever holds `[]byte` values. -/
def InMemStorage : KeyValStorage (GoMap Bytes) where
  Get := fun s _ key =>
    match s.get key with
    | some bval => (bval, none)
    | none => ([], none)
  Set := fun s _ key val => (s.set key val, none)

/-- The two functions of `encoding/json` the builder calls, at the type
`map[string]interface{}`. -/
structure Codec (V : Type) where
  Marshal : GoMap V → Except String Bytes
  Unmarshal : Bytes → Except String (GoMap V)

/-- One entry of the length-prefixed encoding of `natCodec`: the length of the
key, its characters, the value. -/
def natCodec.encodeEntry (p : String × Nat) : Bytes :=
  p.1.length :: (p.1.toList.map Char.toNat ++ [p.2])

/-- Decoder of `natCodec`; the first argument bounds the number of entries. -/
def natCodec.decode : Nat → Bytes → Except String (GoMap Nat)
  | _, [] => .ok []
  | 0, _ :: _ => .error "unexpected end of input"
  | fuel + 1, n :: rest =>
    match rest.drop n with
    | [] => .error "unexpected end of input"
    | v :: rest2 =>
      match natCodec.decode fuel rest2 with
      | .error e => .error e
      | .ok m => .ok ((String.mk ((rest.take n).map Char.ofNat), v) :: m)

/-- A small stand-in for `encoding/json` on maps with values in `Nat`, used to
run the builder on concrete inputs: a length-prefixed encoding that decodes what
it encodes. -/
def natCodec : Codec Nat where
  Marshal := fun m => .ok (m.flatMap natCodec.encodeEntry)
  Unmarshal := fun b => natCodec.decode b.length b

/-! ## NewResponseBuilder and Result (builder.go) -/

/-- The loop body of `NewResponseBuilder`: `acc` is the pair of the local map
`exists` and the builder under construction. -/
def NewResponseBuilder.step {V S : Type} [Inhabited V]
    (acc : GoMap Bool × ResponseBuilder V S) (n : NodeConf V) :
    GoMap Bool × ResponseBuilder V S :=
  match acc.1.get n.Key with
  | some _ => acc
  | none =>
    let rb := acc.2
    let rb := { rb with
      result := rb.result ++ [{
        nodeConf := { Key := n.Key, Static := n.Static, Required := n.Required,
                      Builder := n.Builder }
        res := default, err := none, fetched := false }] }
    let rb := if n.Required then { rb with numRequired := rb.numRequired + 1 } else rb
    (acc.1.set n.Key true, rb)

/-- The struct literal `NewResponseBuilder` starts from. -/
def NewResponseBuilder.init {V S : Type} (storageKey : String) (storage : S)
    (buildNodeTimeoutMillis : Int) : ResponseBuilder V S :=
  { storageKey := storageKey
    storage := storage
    result := []
    numRequired := 0
    numReqPending := 0
    numReqErr := 0
    numOptPending := 0
    numOptErr := 0
    requiredReady := none
    fullReady := none
    buildNodeTimeoutMillis := buildNodeTimeoutMillis
    buildStartTime := 0 }

/-- The function `NewResponseBuilder`. -/
def NewResponseBuilder {V S : Type} [Inhabited V] (storageKey : String) (storage : S)
    (nodesConf : List (NodeConf V)) (buildNodeTimeoutMillis : Int) :
    ResponseBuilder V S :=
  let buildNodeTimeoutMillis :=
    if buildNodeTimeoutMillis < 0 then DefaultBuildNodeTimeoutMillis
    else buildNodeTimeoutMillis
  let rb : ResponseBuilder V S :=
    NewResponseBuilder.init storageKey storage buildNodeTimeoutMillis
  let rb := (nodesConf.foldl NewResponseBuilder.step (([] : GoMap Bool), rb)).2
  let rb := { rb with numReqPending := rb.numRequired }
  { rb with numOptPending := (rb.result.length : Int) - rb.numRequired }

/-- The method `Result`: the map of the slots fetched without error, and the
builder, which the method only reads. -/
def ResponseBuilder.Result {V S : Type} (rb : ResponseBuilder V S) :
    GoMap V × ResponseBuilder V S :=
  (rb.result.foldl
    (fun m r => if r.fetched && r.err.isNone then m.set r.nodeConf.Key r.res else m)
    ([] : GoMap V), rb)

/-! ## The orchestrator (builder.go) -/

/-- What the orchestrator does to the outside, in the order it does it. -/
inductive Event where
  /-- The call `noBlockChanBoolRes(rb.requiredReady, value)`. -/
  | requiredReady (value : Bool)
  /-- The call `noBlockChanBoolRes(rb.fullReady, value)`. -/
  | fullReady (value : Bool)
  /-- The statement `go rb.buildNode(fetchCtx, &rb.result[idx], finishedChan)`. -/
  | launch (idx : Nat)
  /-- The call `rb.storage.Set(ctx, key, val)`. -/
  | storageSet (key : String) (val : Bytes)
deriving DecidableEq, Repr

/-- What one iteration of the gather loop selects: the pointer to slot `idx`
received from `finishedChan`, or `ctx.Done()`. -/
inductive GatherEvent where
  | finished (idx : Nat)
  | ctxDone
deriving DecidableEq, Repr

/-- Why a goroutine did not return. -/
inductive Fault where
  /-- It waits forever at a channel operation. -/
  | blocked
  /-- It panicked. -/
  | panic
deriving DecidableEq, Repr

/-- The state of one run of `build`: the builder, the `chan bool` heap, the
events so far, and the locals of `build` (`finishedChan` by its capacity and by
the builder goroutines that were launched and whose completion has not been
received, `cancelled`). -/
structure Run (V S : Type) where
  rb : ResponseBuilder V S
  chans : Nat → BoolChan
  trace : List Event
  finishedCap : Int
  running : List Nat
  cancelled : Bool

/-- The function `noBlockChanBoolRes` on the channel heap: nothing for the nil
channel, a send when the buffer has room, the `default` case otherwise. -/
def noBlockChanBoolRes (chans : Nat → BoolChan) (notifyChan : Option Nat) (value : Bool) :
    Nat → BoolChan :=
  match notifyChan with
  | none => chans
  | some c =>
    if (chans c).buf.length < (chans c).cap then
      Function.update chans c { chans c with buf := (chans c).buf ++ [value] }
    else chans

/-- The call `noBlockChanBoolRes(rb.requiredReady, value)` in a run. -/
def Run.signalRequired {V S : Type} (r : Run V S) (value : Bool) : Run V S :=
  { r with chans := noBlockChanBoolRes r.chans r.rb.requiredReady value
           trace := r.trace ++ [Event.requiredReady value] }

/-- The call `noBlockChanBoolRes(rb.fullReady, value)` in a run. -/
def Run.signalFull {V S : Type} (r : Run V S) (value : Bool) : Run V S :=
  { r with chans := noBlockChanBoolRes r.chans r.rb.fullReady value
           trace := r.trace ++ [Event.fullReady value] }

/-- The loop body of `fromStorage`: `r` is the loop variable of
`for _, r := range rb.result`, a copy of the slot. Returns the builder and the
copy after the body. -/
def fromStorage.body {V S : Type} (resp : GoMap V) (rb : ResponseBuilder V S)
    (r : NodeBuilderResult V) : ResponseBuilder V S × NodeBuilderResult V :=
  match resp.get r.nodeConf.Key with
  | some val =>
    let r := { r with res := val }
    let r := { r with fetched := true }
    if r.nodeConf.Required then
      ({ rb with numReqPending := rb.numReqPending - 1 }, r)
    else
      ({ rb with numOptPending := rb.numOptPending - 1 }, r)
  | none => (rb, r)

/-- The method `fromStorage`. The loop ranges over `rb.result` by value, so what
the body assigns to its loop variable is dropped at the end of each iteration
and `rb.result` keeps its elements. -/
def fromStorage {V S : Type} (kv : KeyValStorage S) (cd : Codec V) (ctx : Context)
    (rb : ResponseBuilder V S) : ResponseBuilder V S :=
  match kv.Get rb.storage ctx rb.storageKey with
  | (_, some _) => rb
  | (res, none) =>
    if res.length = 0 then rb
    else
      match cd.Unmarshal res with
      | .error _ => rb
      | .ok resp => rb.result.foldl (fun rb r => (fromStorage.body resp rb r).1) rb

/-- The map `staticNodes` that `toStorage` builds. -/
def toStorage.staticNodes {V S : Type} (rb : ResponseBuilder V S) : GoMap V :=
  rb.result.foldl
    (fun m n => if n.nodeConf.Static && n.fetched then m.set n.nodeConf.Key n.res else m)
    ([] : GoMap V)

/-- The method `toStorage`: the builder afterwards and the storage call made. -/
def toStorage {V S : Type} (kv : KeyValStorage S) (cd : Codec V) (ctx : Context)
    (rb : ResponseBuilder V S) : ResponseBuilder V S × List Event :=
  match cd.Marshal (toStorage.staticNodes rb) with
  | .error _ => (rb, [])
  | .ok b =>
    ({ rb with storage := (kv.Set rb.storage ctx rb.storageKey b).1 },
     [Event.storageSet rb.storageKey b])

/-- The method `buildNode` on slot `idx`, up to its send on `readyChan`: the
builder runs and the slot is written. -/
def buildNode {V S : Type} (ctx : Context) (rb : ResponseBuilder V S) (idx : Nat) :
    ResponseBuilder V S :=
  match rb.result[idx]? with
  | none => rb
  | some node =>
    let out := node.nodeConf.Builder ctx
    let node := { node with err := out.2 }
    let node := { node with res := out.1 }
    let node := { node with fetched := true }
    { rb with result := rb.result.set idx node }

/-- The `case n := <-finishedChan` branch of the gather loop, `n` being the
slot `idx` as `buildNode` left it. -/
def gatherFinished {V S : Type} (r : Run V S) (n : NodeBuilderResult V) : Run V S :=
  let r : Run V S :=
    if n.nodeConf.Required then
      { r with rb := { r.rb with numReqPending := r.rb.numReqPending - 1 } }
    else
      { r with rb := { r.rb with numOptPending := r.rb.numOptPending - 1 } }
  if n.err.isSome then
    if n.nodeConf.Required then
      let r : Run V S := { r with rb := { r.rb with numReqErr := r.rb.numReqErr + 1 } }
      if r.rb.numReqErr = 1 then r.signalRequired false else r
    else
      { r with rb := { r.rb with numOptErr := r.rb.numOptErr + 1 } }
  else if n.nodeConf.Required && r.rb.numReqPending = 0 && r.rb.numReqErr = 0 then
    r.signalRequired true
  else r

/-- One iteration of the gather loop with the selected case given. A completion
is received only from a builder goroutine that was launched and has not been
received yet; that goroutine has run `buildNode` to its send. -/
def gatherStep {V S : Type} (fetchCtx : Context) (r : Run V S) :
    GatherEvent → Except Fault (Run V S)
  | .ctxDone => .ok { r with cancelled := true }
  | .finished idx =>
    if idx ∈ r.running then
      let r : Run V S :=
        { r with rb := buildNode fetchCtx r.rb idx, running := r.running.erase idx }
      match r.rb.result[idx]? with
      | none => .error Fault.blocked
      | some n => .ok (gatherFinished r n)
    else .error Fault.blocked

/-- The condition of the gather loop. -/
def gatherCond {V S : Type} (r : Run V S) : Bool :=
  decide (r.rb.numReqPending + r.rb.numOptPending > 0) && !r.cancelled

/-- The gather loop of `build` along a schedule. When the schedule ends while
the loop still waits, the loop waits forever. -/
def gather {V S : Type} (fetchCtx : Context) :
    List GatherEvent → Run V S → Except Fault (Run V S)
  | [], r => if gatherCond r then .error Fault.blocked else .ok r
  | ev :: rest, r =>
    if gatherCond r then
      match gatherStep fetchCtx r ev with
      | .error f => .error f
      | .ok r => gather fetchCtx rest r
    else .ok r

/-- The context `build` hands to the node builders. -/
def fetchCtxOf {V S : Type} (ctx : Context) (rb : ResponseBuilder V S) : Context :=
  if rb.buildNodeTimeoutMillis > 0 then ctx.WithTimeout rb.buildNodeTimeoutMillis else ctx

/-- The part of `build` between the early exit and the gather loop:
`finishedChan` is made and one `buildNode` goroutine is launched per slot. -/
def build.fanOut {V S : Type} (r : Run V S) : Run V S :=
  let idxs := List.range r.rb.result.length
  { r with finishedCap := r.rb.numReqPending + r.rb.numOptPending
           trace := r.trace ++ idxs.map Event.launch
           running := idxs }

/-- The part of `build` after the gather loop: `toStorage`, then the fullReady
signal when both pending counters are zero. -/
def build.finish {V S : Type} (kv : KeyValStorage S) (cd : Codec V) (ctx : Context)
    (r : Run V S) : Run V S :=
  let st := toStorage kv cd ctx r.rb
  let r := { r with rb := st.1, trace := r.trace ++ st.2 }
  if r.rb.numReqPending = 0 ∧ r.rb.numOptPending = 0 then
    r.signalFull (decide (r.rb.numOptErr = 0) && decide (r.rb.numReqErr = 0))
  else r

/-- The method `build`, the orchestrator goroutine, along a schedule. -/
def build {V S : Type} (kv : KeyValStorage S) (cd : Codec V) (ctx : Context)
    (sched : List GatherEvent) (rb : ResponseBuilder V S) (chans : Nat → BoolChan) :
    Except Fault (Run V S) :=
  let rb := fromStorage kv cd ctx rb
  let r : Run V S :=
    { rb := rb, chans := chans, trace := [], finishedCap := 0, running := [],
      cancelled := false }
  let r := if rb.numReqPending = 0 then r.signalRequired true else r
  if rb.numReqPending = 0 ∧ rb.numOptPending = 0 then
    .ok (r.signalFull true)
  else if rb.numReqPending + rb.numOptPending < 0 then
    -- make(chan, n) with a negative size
    .error Fault.panic
  else
    match gather (fetchCtxOf ctx rb) sched (build.fanOut r) with
    | .error f => .error f
    | .ok r => .ok (build.finish kv cd ctx r)

/-- The method `Build` at time `now`: the builder afterwards and whether the
orchestrator goroutine `rb.build(ctx)` was started. -/
def Build {V S : Type} (now : Int) (requiredReady fullReady : Option Nat)
    (rb : ResponseBuilder V S) : ResponseBuilder V S × Bool :=
  if rb.buildStartTime ≠ 0 then (rb, false)
  else
    let rb := { rb with buildStartTime := now }
    let rb := { rb with requiredReady := requiredReady }
    let rb := { rb with fullReady := fullReady }
    (rb, true)

/-! ## Specification-side definitions -/

/-- The node list with later entries of an already seen `Key` dropped: the head
is kept, and from the rest every entry with the head's key is removed before
going on. Written after the specification of `NewResponseBuilder`. -/
def firstOccurrences {V : Type} : List (NodeConf V) → List (NodeConf V)
  | [] => []
  | n :: rest => n :: firstOccurrences (rest.filter (fun m => !decide (m.Key = n.Key)))
termination_by l => l.length
decreasing_by
  simp only [List.length_cons]
  exact Nat.lt_succ_of_le (List.length_filter_le _ _)

/-- The slot `NewResponseBuilder` creates for a node: unsettled, nil value, nil
error. -/
def newSlot {V : Type} [Inhabited V] (n : NodeConf V) : NodeBuilderResult V :=
  { nodeConf := n, res := default, err := none, fetched := false }

/-- The requiredReady values in a trace, in order. -/
def requiredSignals (t : List Event) : List Bool :=
  t.filterMap (fun e => match e with
    | Event.requiredReady v => some v
    | _ => none)

/-- The fullReady values in a trace, in order. -/
def fullSignals (t : List Event) : List Bool :=
  t.filterMap (fun e => match e with
    | Event.fullReady v => some v
    | _ => none)

/-- The slot indices launched in a trace, in order. -/
def launches (t : List Event) : List Nat :=
  t.filterMap (fun e => match e with
    | Event.launch i => some i
    | _ => none)

/-- The state of the gather loop in a run without pre-loaded slots and without
cancellation: the slots not yet received are the unfetched ones, the four
counters count what their names say, and requiredReady was signalled as the
counters tell. -/
structure GatherInv {V S : Type} (fetchCtx : Context) (confs : List (NodeConf V))
    (r : Run V S) : Prop where
  confs_eq : r.rb.result.map (fun n => n.nodeConf) = confs
  nodup : r.running.Nodup
  running_iff : ∀ i n, r.rb.result[i]? = some n → (n.fetched = false ↔ i ∈ r.running)
  running_lt : ∀ i ∈ r.running, i < r.rb.result.length
  reqPending : r.rb.numReqPending =
    ((r.rb.result.countP (fun n => !n.fetched && n.nodeConf.Required) : Nat) : Int)
  optPending : r.rb.numOptPending =
    ((r.rb.result.countP (fun n => !n.fetched && !n.nodeConf.Required) : Nat) : Int)
  reqErr : r.rb.numReqErr =
    ((r.rb.result.countP (fun n => n.fetched && (n.nodeConf.Required && n.err.isSome)) : Nat) : Int)
  optErr : r.rb.numOptErr =
    ((r.rb.result.countP (fun n => n.fetched && (!n.nodeConf.Required && n.err.isSome)) : Nat) : Int)
  err_eq : ∀ n ∈ r.rb.result, n.fetched = true → n.err = (n.nodeConf.Builder fetchCtx).2
  reqSig : requiredSignals r.trace =
    if 0 < r.rb.numReqErr then [false] else if r.rb.numReqPending = 0 then [true] else []
  fullSig : fullSignals r.trace = []
  notCancelled : r.cancelled = false

/-- A builder as `NewResponseBuilder` returns it, possibly with the fields that
`Build` sets: every slot unfetched, the pending counters at the numbers of
required and of optional slots, the error counters at zero. -/
def Fresh {V S : Type} (rb : ResponseBuilder V S) : Prop :=
  (∀ n ∈ rb.result, n.fetched = false) ∧
  rb.numReqPending = ((rb.result.countP (fun n => n.nodeConf.Required) : Nat) : Int) ∧
  rb.numOptPending = ((rb.result.countP (fun n => !n.nodeConf.Required) : Nat) : Int) ∧
  rb.numReqErr = 0 ∧ rb.numOptErr = 0

/-! ## Concrete inputs -/

/-- A builder that succeeds with the value `v`. -/
def okBuilder (v : Nat) : NodeBuilderFn Nat := fun _ => (v, none)

/-- A builder that fails. -/
def errBuilder : NodeBuilderFn Nat := fun _ => (0, some "boom")

/-- Three slots: `a` fetched, `b` fetched with an error, `c` not fetched. -/
def sampleSlots : List (NodeBuilderResult Nat) :=
  [ { nodeConf := ⟨"a", true, true, okBuilder 7⟩, res := 7, err := none, fetched := true },
    { nodeConf := ⟨"b", true, false, errBuilder⟩, res := 0, err := some "boom",
      fetched := true },
    { nodeConf := ⟨"c", false, false, okBuilder 9⟩, res := 0, err := none,
      fetched := false } ]

/-- A builder state over `sampleSlots` in the middle of a composition. -/
def sampleBuilder : ResponseBuilder Nat Unit :=
  { storageKey := "k", storage := (), result := sampleSlots, numRequired := 1,
    numReqPending := 0, numReqErr := 0, numOptPending := 1, numOptErr := 1,
    requiredReady := none, fullReady := none, buildNodeTimeoutMillis := 800,
    buildStartTime := 5 }

/-- Two builder states that differ at most in the two pending counters. -/
def SameButPending {V S : Type} (a b : ResponseBuilder V S) : Prop :=
  a.storageKey = b.storageKey ∧ a.storage = b.storage ∧ a.result = b.result ∧
  a.numRequired = b.numRequired ∧ a.numReqErr = b.numReqErr ∧ a.numOptErr = b.numOptErr ∧
  a.requiredReady = b.requiredReady ∧ a.fullReady = b.fullReady ∧
  a.buildNodeTimeoutMillis = b.buildNodeTimeoutMillis ∧ a.buildStartTime = b.buildStartTime

/-- The builder as the orchestrator finds it: made by `NewResponseBuilder`, then
`Build` called once at time `now` with the two channels. -/
def started {V S : Type} [Inhabited V] (now : Int) (requiredReady fullReady : Option Nat)
    (storageKey : String) (storage : S) (nodesConf : List (NodeConf V))
    (buildNodeTimeoutMillis : Int) : ResponseBuilder V S :=
  (Build now requiredReady fullReady
    (NewResponseBuilder storageKey storage nodesConf buildNodeTimeoutMillis)).1

/-- Two empty channels of capacity one, as the tests of the package make them. -/
def sampleChans : Nat → BoolChan := fun _ => { cap := 1, buf := [] }

/-- Two required nodes and a failing optional one. -/
def sampleNodes : List (NodeConf Nat) :=
  [⟨"n0", false, true, okBuilder 3⟩, ⟨"n1", true, true, okBuilder 5⟩,
   ⟨"n2", false, false, errBuilder⟩]

/-- The content of an `InMemStorage` after an earlier composition persisted the
static node `a` with value 7 under the storage key `k`. -/
def preloadStorage : GoMap Bytes := [("k", [1, 97, 7])]

/-- A required static node `a` whose builder fails this time, and an optional
node `c`. -/
def preloadNodes : List (NodeConf Nat) :=
  [⟨"a", true, true, errBuilder⟩, ⟨"c", false, false, okBuilder 9⟩]

/-- A required static node `a` whose builder succeeds, and a required node `b`
whose builder fails. -/
def preloadNodes2 : List (NodeConf Nat) :=
  [⟨"a", true, true, okBuilder 7⟩, ⟨"b", false, true, errBuilder⟩]

/-- One required static node. -/
def roundTripNodes : List (NodeConf Nat) := [⟨"a", true, true, okBuilder 7⟩]

/-- Composition A of the round trip: `roundTripNodes` over an empty
`InMemStorage`. -/
def roundTripA : Except Fault (Run Nat (GoMap Bytes)) :=
  build InMemStorage natCodec ⟨none⟩ [GatherEvent.finished 0]
    (started 5 (some 0) (some 1) "k" [] roundTripNodes 800) sampleChans

/-- Composition B of the round trip: the same nodes and storage key over the
storage as composition A left it. -/
def roundTripB : Except Fault (Run Nat (GoMap Bytes)) :=
  match roundTripA with
  | .error f => .error f
  | .ok a =>
    build InMemStorage natCodec ⟨none⟩ [GatherEvent.finished 0]
      (started 9 (some 2) (some 3) "k" a.rb.storage roundTripNodes 800) sampleChans

/-! ## The data fetcher (fetcher.go) -/

/-- The type `DataFetcherFn`: what the function returns when run with the given
context. -/
abbrev DataFetcherFn (V : Type) := Context → V × GoError

/-- The struct `AsyncFetchData`. -/
structure AsyncFetchData (V : Type) where
  Hash : String
  Result : V
  Err : GoError

/-- The struct `AsyncFetchReq`. `Fetcher` is `none` for the nil function; `addr`
is the address of the request, which `Fetch` prints into the hash of a request
that has none. -/
structure AsyncFetchReq (V : Type) where
  Fetcher : Option (DataFetcherFn V)
  Hash : String
  addr : Nat

/-- The struct `cachedAsyncData`. `notifyChan` is the reference of the channel,
`fetchedData` is `none` for the nil pointer. -/
structure cachedAsyncData (V : Type) where
  notifyChan : Nat
  fetchedData : Option (AsyncFetchData V)
  numPendingNotifications : Int

/-- The struct `DataFetcherImpl`, without its mutex: `Fetch` and the locked
part of `backgroundFetch` are atomic steps. The map holds the entries
themselves; an entry is only ever reached through the map key it was stored
under. -/
structure DataFetcherImpl (V : Type) where
  data : GoMap (cachedAsyncData V)
  dataChanCap : Int

/-- The function `NewDataFetcherImpl`. -/
def NewDataFetcherImpl {V : Type} (dataChanCap : Int) : DataFetcherImpl V :=
  let dataChanCap := if dataChanCap ≤ 1 then 16 else dataChanCap
  { data := [], dataChanCap := dataChanCap }

/-- A `chan *AsyncFetchData`: its capacity and the values sent and not yet
received, those of senders that wait for room included. -/
structure DataChan (V : Type) where
  cap : Int
  queued : List (Option (AsyncFetchData V))

/-- Which statement sent a value on a `notifyChan`. -/
inductive Sender where
  /-- The `case cad.notifyChan <- cad.fetchedData` of the select in `Fetch`. -/
  | fetch
  /-- The goroutine started in the `default` case of that select. -/
  | fetchSpawned
  /-- The notification loop of `backgroundFetch`. -/
  | background
deriving DecidableEq, Repr

/-- What the fetcher does, in the order it does it. -/
inductive FetchEvent (V : Type) where
  /-- A call of `Fetch` for the hash returned the channel and a nil error. -/
  | call (hash : String) (chan : Nat)
  /-- The statement `go df.backgroundFetch(ctx, cad, req)`, `req.Hash` being the hash. -/
  | spawn (hash : String)
  /-- The call `req.Fetcher(ctx)` in `backgroundFetch`. -/
  | invoke (hash : String)
  /-- A send of `data` on the channel. -/
  | deliver (chan : Nat) (data : Option (AsyncFetchData V)) (sender : Sender)

/-- A fetcher with what is around it: the channels it made, the
`backgroundFetch` goroutines started and not yet run (context and request), and
the events so far. -/
structure FetcherWorld (V : Type) where
  df : DataFetcherImpl V
  chans : Nat → DataChan V
  nextChan : Nat
  background : List (Context × AsyncFetchReq V)
  trace : List (FetchEvent V)

/-- A new fetcher and nothing around it yet. -/
def FetcherWorld.new {V : Type} (dataChanCap : Int) : FetcherWorld V :=
  { df := NewDataFetcherImpl dataChanCap
    chans := fun _ => { cap := 0, queued := [] }
    nextChan := 0
    background := []
    trace := [] }

/-- The string `fmt.Sprintf("AnonymousData_%v", &req.Fetcher)`. -/
def anonymousHash {V : Type} (req : AsyncFetchReq V) : String :=
  "AnonymousData_0x" ++ String.mk (Nat.toDigits 16 req.addr)

/-- The request after the first lines of `Fetch`: a request without hash gets
one. -/
def effectiveReq {V : Type} (req : AsyncFetchReq V) : AsyncFetchReq V :=
  if req.Hash.length = 0 then { req with Hash := anonymousHash req } else req

/-- A send of `v` on channel `c` by `sender`. -/
def FetcherWorld.send {V : Type} (w : FetcherWorld V) (c : Nat)
    (v : Option (AsyncFetchData V)) (sender : Sender) : FetcherWorld V :=
  { w with chans := Function.update w.chans c
             { w.chans c with queued := (w.chans c).queued ++ [v] }
           trace := w.trace ++ [FetchEvent.deliver c v sender] }

/-- The method `Fetch`: the world afterwards, the channel returned (`none` for
nil) and the error returned. -/
def DataFetcherImpl.Fetch {V : Type} (w : FetcherWorld V) (ctx : Context)
    (req : AsyncFetchReq V) : Except Fault (FetcherWorld V × Option Nat × GoError) :=
  match req.Fetcher with
  | none => .ok (w, none, some "null datafetcher")
  | some _ =>
    let req := effectiveReq req
    match w.df.data.get req.Hash with
    | some cad =>
      if cad.numPendingNotifications > 0 then
        -- fetching on flight
        let cad := { cad with numPendingNotifications := cad.numPendingNotifications + 1 }
        let w := { w with df := { w.df with data := w.df.data.set req.Hash cad }
                          trace := w.trace ++ [FetchEvent.call req.Hash cad.notifyChan] }
        .ok (w, some cad.notifyChan, none)
      else
        let sender :=
          if ((w.chans cad.notifyChan).queued.length : Int) < (w.chans cad.notifyChan).cap
          then Sender.fetch else Sender.fetchSpawned
        let w := w.send cad.notifyChan cad.fetchedData sender
        let w := { w with trace := w.trace ++ [FetchEvent.call req.Hash cad.notifyChan] }
        .ok (w, some cad.notifyChan, none)
    | none =>
      if w.df.dataChanCap < 0 then
        -- make(chan, n) with a negative size
        .error Fault.panic
      else
        let cad : cachedAsyncData V :=
          { notifyChan := w.nextChan, fetchedData := none, numPendingNotifications := 1 }
        let w : FetcherWorld V :=
          { df := { w.df with data := w.df.data.set req.Hash cad }
            chans := Function.update w.chans w.nextChan
              { cap := w.df.dataChanCap, queued := [] }
            nextChan := w.nextChan + 1
            background := w.background ++ [(ctx, req)]
            trace := w.trace ++
              [FetchEvent.spawn req.Hash, FetchEvent.call req.Hash cad.notifyChan] }
        .ok (w, some cad.notifyChan, none)

/-- The notification loop of `backgroundFetch`. -/
def FetcherWorld.notify {V : Type} (w : FetcherWorld V) (c : Nat) (res : AsyncFetchData V) :
    Nat → FetcherWorld V
  | 0 => w
  | n + 1 => FetcherWorld.notify (w.send c (some res) Sender.background) c res n

/-- The method `backgroundFetch`, run in one step: the fetcher function, the
locked update of the entry stored under `req.Hash`, the notifications. -/
def DataFetcherImpl.backgroundFetch {V : Type} (w : FetcherWorld V) (ctx : Context)
    (req : AsyncFetchReq V) : Except Fault (FetcherWorld V) :=
  match req.Fetcher with
  | none => .error Fault.panic
  | some fetcher =>
    let out := fetcher ctx
    let res : AsyncFetchData V := { Hash := req.Hash, Result := out.1, Err := out.2 }
    let w := { w with trace := w.trace ++ [FetchEvent.invoke req.Hash] }
    match w.df.data.get req.Hash with
    | none => .ok w
    | some cad =>
      let numNotifications := cad.numPendingNotifications
      let cad := { cad with numPendingNotifications := 0 }
      let cad := { cad with fetchedData := some res }
      let w := { w with df := { w.df with data := w.df.data.set res.Hash cad } }
      .ok (w.notify cad.notifyChan res numNotifications.toNat)

/-- What can happen next around a fetcher. -/
inductive FetchAction (V : Type) where
  /-- Some goroutine calls `Fetch(ctx, req)`. -/
  | fetch (ctx : Context) (req : AsyncFetchReq V)
  /-- The `backgroundFetch` goroutine at position `i` of the started ones runs. -/
  | settle (i : Nat)
  /-- Some goroutine receives from the channel. -/
  | recv (chan : Nat)

/-- One action; `Fault.blocked` when the action cannot happen in this state. -/
def FetcherWorld.step {V : Type} (w : FetcherWorld V) :
    FetchAction V → Except Fault (FetcherWorld V)
  | .fetch ctx req =>
    match DataFetcherImpl.Fetch w ctx req with
    | .error f => .error f
    | .ok out => .ok out.1
  | .settle i =>
    match w.background[i]? with
    | none => .error Fault.blocked
    | some task =>
      DataFetcherImpl.backgroundFetch { w with background := w.background.eraseIdx i }
        task.1 task.2
  | .recv c =>
    match (w.chans c).queued with
    | [] => .error Fault.blocked
    | _ :: rest =>
      .ok { w with chans := Function.update w.chans c { w.chans c with queued := rest } }

/-- A sequence of actions. -/
def FetcherWorld.run {V : Type} : List (FetchAction V) → FetcherWorld V →
    Except Fault (FetcherWorld V)
  | [], w => .ok w
  | a :: rest, w =>
    match w.step a with
    | .error f => .error f
    | .ok w => FetcherWorld.run rest w

/-- The hashes of the `spawn` events of a trace. -/
def spawns {V : Type} (t : List (FetchEvent V)) : List String :=
  t.filterMap (fun e => match e with
    | FetchEvent.spawn h => some h
    | _ => none)

/-- The hashes of the `invoke` events of a trace. -/
def invokes {V : Type} (t : List (FetchEvent V)) : List String :=
  t.filterMap (fun e => match e with
    | FetchEvent.invoke h => some h
    | _ => none)

/-- The hashes of the `call` events of a trace. -/
def calls {V : Type} (t : List (FetchEvent V)) : List String :=
  t.filterMap (fun e => match e with
    | FetchEvent.call h _ => some h
    | _ => none)

/-- The hashes of the started `backgroundFetch` goroutines that have not run. -/
def FetcherWorld.pending {V : Type} (w : FetcherWorld V) : List String :=
  w.background.map (fun task => task.2.Hash)

/-- What holds of a fetcher in every state it can reach: every cache entry is
either in flight (no data, its goroutine started and not yet run, as many
pending notifications as calls of `Fetch` for the hash) or settled (data, no
pending notification, its goroutine has run); channels belong to one entry;
calls and deliveries went through the channel of the entry; one spawn per
entry. -/
structure FetcherInv {V : Type} (w : FetcherWorld V) : Prop where
  cap_nonneg : 0 ≤ w.df.dataChanCap
  entry : ∀ H cad, w.df.data.get H = some cad →
    (cad.fetchedData = none ∧ H ∈ w.pending ∧
      cad.numPendingNotifications = (((calls w.trace).count H : Nat) : Int) ∧
      1 ≤ cad.numPendingNotifications) ∨
    (cad.fetchedData.isSome = true ∧ H ∉ w.pending ∧ cad.numPendingNotifications = 0)
  task_fetcher : ∀ task ∈ w.background, task.2.Fetcher.isSome = true
  chan_lt : ∀ H cad, w.df.data.get H = some cad → cad.notifyChan < w.nextChan
  chan_inj : ∀ H1 H2 c1 c2, w.df.data.get H1 = some c1 → w.df.data.get H2 = some c2 →
    c1.notifyChan = c2.notifyChan → H1 = H2
  call_chan : ∀ H c, FetchEvent.call H c ∈ w.trace →
    ∃ cad, w.df.data.get H = some cad ∧ cad.notifyChan = c
  deliver_data : ∀ c v s, FetchEvent.deliver c v s ∈ w.trace →
    ∃ H cad, w.df.data.get H = some cad ∧ cad.notifyChan = c ∧ cad.fetchedData = v ∧
      v.isSome = true
  spawn_nodup : (spawns w.trace).Nodup
  spawn_iff : ∀ H, H ∈ spawns w.trace ↔ (w.df.data.get H).isSome = true
  started_nodup : (invokes w.trace ++ w.pending).Nodup
  started_sub : ∀ H, H ∈ invokes w.trace ++ w.pending → (w.df.data.get H).isSome = true

/-- A request with the hash `h` whose fetcher returns `v`. -/
def sampleReq (v : Nat) : AsyncFetchReq Nat :=
  { Fetcher := some (fun _ => (v, none)), Hash := "h", addr := 4096 }

/-- Three calls of `Fetch` for the hash `h` before the fetch settles. -/
def sampleCalls : List (FetchAction Nat) :=
  [FetchAction.fetch ⟨none⟩ (sampleReq 3), FetchAction.fetch ⟨none⟩ (sampleReq 4),
   FetchAction.fetch ⟨none⟩ (sampleReq 5)]

/-- Two calls of `Fetch` for the hash `h`, then the fetch settles. -/
def sampleSettled : List (FetchAction Nat) :=
  [FetchAction.fetch ⟨none⟩ (sampleReq 3), FetchAction.fetch ⟨none⟩ (sampleReq 4),
   FetchAction.settle 0]

/-- The run of `build` after the pre-load and the early requiredReady signal,
before the test for the early return. -/
def build.start {V S : Type} (kv : KeyValStorage S) (cd : Codec V) (ctx : Context)
    (rb : ResponseBuilder V S) (chans : Nat → BoolChan) : Run V S :=
  if (fromStorage kv cd ctx rb).numReqPending = 0 then
    (Run.mk (fromStorage kv cd ctx rb) chans [] 0 [] false).signalRequired true
  else Run.mk (fromStorage kv cd ctx rb) chans [] 0 [] false

/-- The content of an `InMemStorage` after an earlier composition persisted the
static nodes `a` and `b` under the storage key `k`. -/
def preloadStorage2 : GoMap Bytes := [("k", [1, 97, 7, 1, 98, 8])]

/-- Two required static nodes and an optional node. -/
def preloadNodes3 : List (NodeConf Nat) :=
  [⟨"a", true, true, okBuilder 7⟩, ⟨"b", true, true, okBuilder 8⟩,
   ⟨"c", false, false, okBuilder 9⟩]

/-- A request with a nil fetcher function. -/
def nilReq : AsyncFetchReq Nat := { Fetcher := none, Hash := "h", addr := 8192 }

/-- A request with the hash `e` whose fetcher function returns an error. -/
def failingReq : AsyncFetchReq Nat :=
  { Fetcher := some (fun _ => (0, some "boom")), Hash := "e", addr := 12288 }

/-- The `AsyncFetchData` that the `backgroundFetch` goroutine at position `i`
makes when it runs: the hash of its request with what the fetcher function
returns for its context. -/
def FetcherWorld.execution {V : Type} (w : FetcherWorld V) (i : Nat) :
    Option (AsyncFetchData V) :=
  match w.background[i]? with
  | none => none
  | some task =>
    task.2.Fetcher.map
      (fun f => { Hash := task.2.Hash, Result := (f task.1).1, Err := (f task.1).2 })

/-- The `AsyncFetchData` made by the executions of fetcher functions along a
sequence of actions, in order: one for each settlement. -/
def executions {V : Type} : List (FetchAction V) → FetcherWorld V → List (AsyncFetchData V)
  | [], _ => []
  | a :: rest, w =>
    (match a with
      | FetchAction.settle i => (w.execution i).toList
      | _ => []) ++
    (match w.step a with
      | .ok w2 => executions rest w2
      | .error _ => [])

/-- Every value waiting in a channel was sent on it. -/
def QueueInv {V : Type} (w : FetcherWorld V) : Prop :=
  ∀ c v, v ∈ (w.chans c).queued → ∃ s, FetchEvent.deliver c v s ∈ w.trace

/-- The state of one call of `WaitForFetches`: the fetcher and what is around
it, the channels `cs` obtained so far, the `data` received so far, and the
values returned once the call has returned (the slice, with `none` for a nil
pointer, and the error). -/
structure WaitRun (V : Type) where
  w : FetcherWorld V
  cs : List (Option Nat)
  data : List (Option (AsyncFetchData V))
  result : Option (List (Option (AsyncFetchData V)) × GoError)

/-- The state at the call of `WaitForFetches`. -/
def WaitRun.init {V : Type} (w : FetcherWorld V) : WaitRun V :=
  { w := w, cs := [], data := [], result := none }

/-- What happens next during a call of `WaitForFetches`: an action of another
goroutine, the next statement of the call itself, or the `ctx.Done()` case of
the select the call waits in. -/
inductive WaitEvent (V : Type) where
  | env (a : FetchAction V)
  | own
  | ctxDone

/-- The next statement of `WaitForFetches`: the `Fetch` of the first loop for
the next request, then the receive of the second loop from the next channel,
then the return. A receive needs a value in the channel. After the return
nothing happens. -/
def WaitForFetches.own {V : Type} (ctx : Context) (reqs : List (AsyncFetchReq V))
    (st : WaitRun V) : Except Fault (WaitRun V) :=
  match st.result with
  | some _ => .ok st
  | none =>
    match reqs[st.cs.length]? with
    | some req =>
      match DataFetcherImpl.Fetch st.w ctx req with
      | .error f => .error f
      | .ok out =>
        match out.2.2 with
        | some e => .ok { st with w := out.1, result := some ([], some e) }
        | none => .ok { st with w := out.1, cs := st.cs ++ [out.2.1] }
    | none =>
      match st.cs[st.data.length]? with
      | some (some c) =>
        match (st.w.chans c).queued with
        | [] => .error Fault.blocked
        | v :: rest =>
          .ok { st with
            w := { st.w with
              chans := Function.update st.w.chans c { st.w.chans c with queued := rest } }
            data := st.data ++ [v] }
      | some none => .error Fault.blocked
      | none => .ok { st with result := some (st.data, none) }

/-- The `case <-ctx.Done()` of the select in the second loop of
`WaitForFetches`. -/
def WaitForFetches.ctxDone {V : Type} (reqs : List (AsyncFetchReq V)) (st : WaitRun V) :
    Except Fault (WaitRun V) :=
  match st.result with
  | some _ => .ok st
  | none =>
    if st.cs.length = reqs.length ∧ st.data.length < reqs.length then
      .ok { st with result := some ([], some "ctx cancelled") }
    else .error Fault.blocked

/-- One event during a call of `WaitForFetches`. -/
def WaitForFetches.step {V : Type} (ctx : Context) (reqs : List (AsyncFetchReq V))
    (st : WaitRun V) : WaitEvent V → Except Fault (WaitRun V)
  | .env a =>
    match st.w.step a with
    | .error f => .error f
    | .ok w2 => .ok { st with w := w2 }
  | .own => WaitForFetches.own ctx reqs st
  | .ctxDone => WaitForFetches.ctxDone reqs st

/-- The method `WaitForFetches` along a schedule. -/
def DataFetcherImpl.WaitForFetches {V : Type} (ctx : Context)
    (reqs : List (AsyncFetchReq V)) : List (WaitEvent V) → WaitRun V →
    Except Fault (WaitRun V)
  | [], st => .ok st
  | e :: rest, st =>
    match WaitForFetches.step ctx reqs st e with
    | .error f => .error f
    | .ok st2 => DataFetcherImpl.WaitForFetches ctx reqs rest st2

/-- The number of statements of the call itself in a schedule. -/
def ownCount {V : Type} : List (WaitEvent V) → Nat
  | [] => 0
  | WaitEvent.own :: rest => ownCount rest + 1
  | _ :: rest => ownCount rest

/-- Two requests with different hashes and fetcher functions that succeed. -/
def sampleReqs : List (AsyncFetchReq Nat) :=
  [{ Fetcher := some (fun _ => (11, none)), Hash := "x", addr := 4096 },
   { Fetcher := some (fun _ => (22, none)), Hash := "y", addr := 8192 }]

/-- A call of `WaitForFetches` for `sampleReqs`: both fetches are started, the
second one settles first, then both values are received and the call returns. -/
def sampleWait : List (WaitEvent Nat) :=
  [WaitEvent.own, WaitEvent.own, WaitEvent.env (FetchAction.settle 1),
   WaitEvent.env (FetchAction.settle 0), WaitEvent.own, WaitEvent.own, WaitEvent.own]

/-- What holds during a call of `WaitForFetches` on a fetcher made by
`NewDataFetcherImpl n`: the fetcher is in a state it can reach; the channels
obtained so far are those `Fetch` returned for the first requests, whose fetcher
functions are not nil; every value received so far was delivered on the channel
of its position; and a returned value is either the received data for all
requests, or the empty slice with the error of `Fetch` or of the cancelled
context. -/
structure WaitInv {V : Type} (n : Int) (reqs : List (AsyncFetchReq V)) (st : WaitRun V) :
    Prop where
  reach : ∃ actions, FetcherWorld.run actions (FetcherWorld.new n) = .ok st.w
  cs_le : st.cs.length ≤ reqs.length
  cs_ok : ∀ (i : Nat) req, reqs[i]? = some req → i < st.cs.length →
    req.Fetcher.isSome = true ∧
    ∃ c, st.cs[i]? = some (some c) ∧ FetchEvent.call (effectiveReq req).Hash c ∈ st.w.trace
  data_le : st.data.length ≤ st.cs.length
  data_phase : st.data ≠ [] → st.cs.length = reqs.length
  data_ok : ∀ (i : Nat) v, st.data[i]? = some v →
    ∃ c s, st.cs[i]? = some (some c) ∧ FetchEvent.deliver c v s ∈ st.w.trace
  res_ok : ∀ data, st.result = some (data, none) →
    data = st.data ∧ st.data.length = reqs.length ∧ st.cs.length = reqs.length
  res_err : ∀ data e, st.result = some (data, some e) →
    data = [] ∧
    ((e = "null datafetcher" ∧ ∃ req, reqs[st.cs.length]? = some req ∧ req.Fetcher = none) ∨
     (e = "ctx cancelled" ∧ st.cs.length = reqs.length))

/-- The values written to channel `c` in a trace, in order, `rr` being the
requiredReady channel of the run and `fr` its fullReady channel. -/
def written (rr fr : Option Nat) (c : Nat) (t : List Event) : List Bool :=
  t.filterMap (fun e => match e with
    | Event.requiredReady v => if rr = some c then some v else none
    | Event.fullReady v => if fr = some c then some v else none
    | _ => none)

/-- The channel `ch` after the values `vs` were written to it one after the
other without blocking and with no receiver: the values that fit the buffer are
in it, in order, and the others are dropped. -/
def BoolChan.offer (ch : BoolChan) (vs : List Bool) : BoolChan :=
  { ch with buf := ch.buf ++ vs.take (ch.cap - ch.buf.length) }

/-- The channels of a run that started with the channels `chans0`: the
builder still holds the two channel references, and every channel holds what it
held at the start and, after that, the values written to it that fitted. -/
def ChanInv {V S : Type} (chans0 : Nat → BoolChan) (rr fr : Option Nat) (r : Run V S) : Prop :=
  r.rb.requiredReady = rr ∧ r.rb.fullReady = fr ∧
  ∀ c, r.chans c = (chans0 c).offer (written rr fr c r.trace)

/-- The capacities around a fetcher made by `NewDataFetcherImpl n`: the fetcher
keeps the capacity it was made with, and the channel of every cache entry has
that capacity. -/
def CapInv {V : Type} (n : Int) (w : FetcherWorld V) : Prop :=
  w.df.dataChanCap = (if n ≤ 1 then 16 else n) ∧
  ∀ H cad, w.df.data.get H = some cad → (w.chans cad.notifyChan).cap = w.df.dataChanCap

/-! # Properties -/

namespace GoMap

theorem get_filter_ne {T : Type} (m : GoMap T) (k k2 : String) :
    GoMap.get (m.filter (fun p => !decide (p.1 = k))) k2 =
      if k2 = k then none else GoMap.get m k2 := by
  induction m with
  | nil => simp [GoMap.get]
  | cons p m ih =>
    obtain ⟨a, b⟩ := p
    by_cases h : a = k
    · subst h
      by_cases h2 : k2 = a
      · simpa [List.filter_cons, h2, GoMap.get] using ih
      · simpa [List.filter_cons, h2, GoMap.get] using ih
    · by_cases h2 : k2 = k
      · subst h2
        have h3 : ¬ k2 = a := fun h3 => h h3.symm
        simpa [List.filter_cons, h, GoMap.get, h3] using ih
      · by_cases h3 : k2 = a
        · simp [List.filter_cons, h, GoMap.get, h3, h2]
        · simpa [List.filter_cons, h, GoMap.get, h3, h2] using ih

theorem get_set {T : Type} (m : GoMap T) (k k2 : String) (v : T) :
    (m.set k v).get k2 = if k2 = k then some v else m.get k2 := by
  by_cases h : k2 = k
  · simp [GoMap.set, GoMap.get, h]
  · simp [GoMap.set, GoMap.get, h, get_filter_ne]

theorem mem_keys_iff {T : Type} (m : GoMap T) (k : String) :
    k ∈ m.keys ↔ (m.get k).isSome = true := by
  induction m with
  | nil => simp [GoMap.keys, GoMap.get]
  | cons p m ih =>
    obtain ⟨a, b⟩ := p
    simp only [GoMap.keys] at ih
    by_cases h : k = a
    · simp [GoMap.keys, GoMap.get, h]
    · simp [GoMap.keys, GoMap.get, h, ih]

end GoMap

/-- Reading a map built by a loop of conditional assignments `m[key r] = val r`:
the last element of the slice that passes the test and has the key decides. -/
theorem get_foldl_set {A T : Type} (p : A → Bool) (key : A → String) (val : A → T)
    (l : List A) (m : GoMap T) (k : String) :
    (l.foldl (fun m r => if p r then m.set (key r) (val r) else m) m).get k =
      match l.reverse.find? (fun r => p r && decide (key r = k)) with
      | some r => some (val r)
      | none => m.get k := by
  induction l generalizing m with
  | nil => simp
  | cons r l ih =>
    rw [List.foldl_cons, ih, List.reverse_cons, List.find?_append]
    cases hf : l.reverse.find? (fun r => p r && decide (key r = k)) with
    | some r2 => simp
    | none =>
      by_cases hp : p r = true
      · by_cases hk : key r = k
        · simp [hp, hk, GoMap.get_set]
        · have hk2 : ¬ k = key r := fun h => hk h.symm
          simp [hp, hk, hk2, GoMap.get_set]
      · simp [hp]




theorem mem_keys_foldl_set {A T : Type} (p : A → Bool) (key : A → String) (val : A → T)
    (l : List A) (k : String) :
    k ∈ GoMap.keys (l.foldl (fun m r => if p r then m.set (key r) (val r) else m)
        ([] : GoMap T)) ↔ ∃ r ∈ l, p r = true ∧ key r = k := by
  rw [GoMap.mem_keys_iff, get_foldl_set]
  cases hf : l.reverse.find? (fun r => p r && decide (key r = k)) with
  | some r2 =>
    have h1 := List.find?_some hf
    have h2 := List.mem_of_find?_eq_some hf
    simp only [Bool.and_eq_true, decide_eq_true_eq] at h1
    simp only [Option.isSome_some, true_iff]
    exact ⟨r2, List.mem_reverse.mp h2, h1.1, h1.2⟩
  | none =>
    rw [List.find?_eq_none] at hf
    simp only [GoMap.get, Option.isSome_none, Bool.false_eq_true, false_iff, not_exists, not_and]
    intro r hr hp hk
    exact hf r (List.mem_reverse.mpr hr) (by simp [hp, hk])

theorem get_foldl_set_of_nodup {A T : Type} (p : A → Bool) (key : A → String) (val : A → T)
    (l : List A) (hk : (l.map key).Nodup) (r : A) (hr : r ∈ l) :
    GoMap.get (l.foldl (fun m r => if p r then m.set (key r) (val r) else m)
        ([] : GoMap T)) (key r) = if p r = true then some (val r) else none := by
  rw [get_foldl_set]
  cases hf : l.reverse.find? (fun r2 => p r2 && decide (key r2 = key r)) with
  | some r2 =>
    have h1 := List.find?_some hf
    have h2 := List.mem_reverse.mp (List.mem_of_find?_eq_some hf)
    simp only [Bool.and_eq_true, decide_eq_true_eq] at h1
    have h3 : r2 = r := List.inj_on_of_nodup_map hk h2 hr h1.2
    subst h3
    simp [h1.1]
  | none =>
    rw [List.find?_eq_none] at hf
    have h1 := hf r (List.mem_reverse.mpr hr)
    simp only [Bool.and_eq_true, decide_eq_true_eq, and_true] at h1
    simp [h1, GoMap.get]

/-- C5. `Result()` returns a map whose keys are exactly the keys of the slots
that are fetched with a nil error; when the slot keys are distinct (as
`NewResponseBuilder` makes them) each such slot's key is mapped to that slot's
value and the key of every other slot is absent; the builder is unchanged. -/
theorem Result_spec {V S : Type} (rb : ResponseBuilder V S) :
    (∀ k, k ∈ rb.Result.1.keys ↔
      ∃ r ∈ rb.result, r.fetched = true ∧ r.err = none ∧ r.nodeConf.Key = k) ∧
    ((rb.result.map (fun r => r.nodeConf.Key)).Nodup →
      ∀ r ∈ rb.result,
        (r.fetched = true ∧ r.err = none → rb.Result.1.get r.nodeConf.Key = some r.res) ∧
        (¬ (r.fetched = true ∧ r.err = none) → rb.Result.1.get r.nodeConf.Key = none)) ∧
    rb.Result.2 = rb := by
  refine ⟨fun k => ?_, fun hk r hr => ?_, rfl⟩
  · have h := mem_keys_foldl_set (fun r : NodeBuilderResult V => r.fetched && r.err.isNone)
      (fun r => r.nodeConf.Key) (fun r => r.res) rb.result k
    unfold ResponseBuilder.Result
    rw [h]
    simp [and_assoc]
  · have h := get_foldl_set_of_nodup (fun r : NodeBuilderResult V => r.fetched && r.err.isNone)
      (fun r => r.nodeConf.Key) (fun r => r.res) rb.result hk r hr
    unfold ResponseBuilder.Result
    constructor
    · rintro ⟨h1, h2⟩
      simpa [h1, h2] using h
    · intro h1
      rw [h, if_neg]
      simpa using h1



/-- Witness of `Result_spec` on `sampleBuilder`: the keys are distinct, `a` is
mapped to its value, `b` (error) and `c` (not fetched) are absent. -/
theorem Result_spec_witness :
    (sampleBuilder.result.map (fun r => r.nodeConf.Key)).Nodup ∧
    sampleBuilder.Result.1.get "a" = some 7 ∧
    sampleBuilder.Result.1.get "b" = none ∧
    sampleBuilder.Result.1.get "c" = none :=
  ⟨by decide,
   (((Result_spec sampleBuilder).2.1 (by decide) _ (List.mem_cons_self _ _)).1 ⟨rfl, rfl⟩),
   (((Result_spec sampleBuilder).2.1 (by decide) _
      (List.mem_cons_of_mem _ (List.mem_cons_self _ _))).2 (by decide)),
   (((Result_spec sampleBuilder).2.1 (by decide) _
      (List.mem_cons_of_mem _ (List.mem_cons_of_mem _ (List.mem_cons_self _ _)))).2
      (by decide))⟩

theorem buildNode_getElem {V S : Type} (ctx : Context) (rb : ResponseBuilder V S) (idx : Nat)
    (n : NodeBuilderResult V) (h : rb.result[idx]? = some n) :
    (buildNode ctx rb idx).result[idx]? =
      some { nodeConf := n.nodeConf, res := (n.nodeConf.Builder ctx).1,
             err := (n.nodeConf.Builder ctx).2, fetched := true } := by
  have hlt : idx < rb.result.length := by
    rcases Nat.lt_or_ge idx rb.result.length with h1 | h1
    · exact h1
    · rw [List.getElem?_eq_none h1] at h; cases h
  simp [buildNode, h, List.getElem?_set, hlt]

/-- C9. The map `toStorage` serializes has as keys exactly the keys of the slots
that are Static and fetched; when the slot keys are distinct each such slot's key
is mapped to the slot's value and the key of every other slot is absent; when
the map serializes to `b`, the one storage call is `Set(storageKey, b)`; and the
value of a slot written by `buildNode` is the value its builder returned. -/
theorem toStorage_spec {V S : Type} (kv : KeyValStorage S) (cd : Codec V) (ctx : Context)
    (rb : ResponseBuilder V S) :
    (∀ k, k ∈ (toStorage.staticNodes rb).keys ↔
      ∃ n ∈ rb.result, n.nodeConf.Static = true ∧ n.fetched = true ∧ n.nodeConf.Key = k) ∧
    ((rb.result.map (fun r => r.nodeConf.Key)).Nodup →
      ∀ n ∈ rb.result,
        (n.nodeConf.Static = true ∧ n.fetched = true →
          (toStorage.staticNodes rb).get n.nodeConf.Key = some n.res) ∧
        (¬ (n.nodeConf.Static = true ∧ n.fetched = true) →
          (toStorage.staticNodes rb).get n.nodeConf.Key = none)) ∧
    (∀ b, cd.Marshal (toStorage.staticNodes rb) = .ok b →
      toStorage kv cd ctx rb =
        ({ rb with storage := (kv.Set rb.storage ctx rb.storageKey b).1 },
         [Event.storageSet rb.storageKey b])) ∧
    (∀ fetchCtx idx n, rb.result[idx]? = some n →
      ((buildNode fetchCtx rb idx).result[idx]?).map (fun r => (r.res, r.fetched)) =
        some ((n.nodeConf.Builder fetchCtx).1, true)) := by
  refine ⟨fun k => ?_, fun hk n hn => ?_, fun b hb => ?_, fun fetchCtx idx n h => ?_⟩
  · have h := mem_keys_foldl_set
      (fun n : NodeBuilderResult V => n.nodeConf.Static && n.fetched)
      (fun r => r.nodeConf.Key) (fun r => r.res) rb.result k
    unfold toStorage.staticNodes
    rw [h]
    simp [and_assoc]
  · have h := get_foldl_set_of_nodup
      (fun n : NodeBuilderResult V => n.nodeConf.Static && n.fetched)
      (fun r => r.nodeConf.Key) (fun r => r.res) rb.result hk n hn
    unfold toStorage.staticNodes
    constructor
    · rintro ⟨h1, h2⟩
      simpa [h1, h2] using h
    · intro h1
      rw [h, if_neg]
      simpa using h1
  · simp [toStorage, hb]
  · rw [buildNode_getElem fetchCtx rb idx n h]
    rfl

/-- Witness of `toStorage_spec` on `sampleBuilder`: the keys are distinct, the
static fetched slots `a` and `b` are in the map, `c` is not. -/
theorem toStorage_spec_witness :
    (sampleBuilder.result.map (fun r => r.nodeConf.Key)).Nodup ∧
    (toStorage.staticNodes sampleBuilder).get "a" = some 7 ∧
    (toStorage.staticNodes sampleBuilder).get "c" = none ∧
    toStorage NopKeyValStorage natCodec ⟨none⟩ sampleBuilder =
      (sampleBuilder, [Event.storageSet "k" [1, 98, 0, 1, 97, 7]]) :=
  ⟨by decide,
   (((toStorage_spec NopKeyValStorage natCodec ⟨none⟩ sampleBuilder).2.1 (by decide) _
      (List.mem_cons_self _ _)).1 ⟨rfl, rfl⟩),
   (((toStorage_spec NopKeyValStorage natCodec ⟨none⟩ sampleBuilder).2.1 (by decide) _
      (List.mem_cons_of_mem _ (List.mem_cons_of_mem _ (List.mem_cons_self _ _)))).2
      (by decide)),
   (toStorage_spec NopKeyValStorage natCodec ⟨none⟩ sampleBuilder).2.2.1 _ rfl⟩

theorem firstOccurrences_keys {V : Type} (l : List (NodeConf V)) (k : String) :
    k ∈ (firstOccurrences l).map (fun n => n.Key) ↔ k ∈ l.map (fun n => n.Key) := by
  induction l using firstOccurrences.induct with
  | case1 => simp [firstOccurrences]
  | case2 n rest ih =>
    rw [firstOccurrences]
    simp only [List.map_cons, List.mem_cons, ih]
    by_cases h : k = n.Key
    · simp [h]
    · simp only [h, false_or, List.mem_map, List.mem_filter]
      constructor
      · rintro ⟨a, ⟨ha, _⟩, hk⟩
        exact ⟨a, ha, hk⟩
      · rintro ⟨a, ha, hk⟩
        refine ⟨a, ⟨ha, ?_⟩, hk⟩
        simpa [hk] using fun h2 : k = n.Key => h h2

theorem firstOccurrences_nodup {V : Type} (l : List (NodeConf V)) :
    ((firstOccurrences l).map (fun n => n.Key)).Nodup := by
  induction l using firstOccurrences.induct with
  | case1 => simp [firstOccurrences]
  | case2 n rest ih =>
    rw [firstOccurrences]
    simp only [List.map_cons, List.nodup_cons]
    refine ⟨?_, ih⟩
    rw [firstOccurrences_keys]
    simp

theorem firstOccurrences_find {V : Type} (l : List (NodeConf V)) (n : NodeConf V)
    (hn : n ∈ firstOccurrences l) :
    l.find? (fun m => decide (m.Key = n.Key)) = some n := by
  induction l using firstOccurrences.induct with
  | case1 => simp [firstOccurrences] at hn
  | case2 a rest ih =>
    rw [firstOccurrences, List.mem_cons] at hn
    rcases hn with rfl | hn
    · simp
    · have hk : n.Key ∈ (firstOccurrences (rest.filter
          (fun m => !decide (m.Key = a.Key)))).map (fun n => n.Key) :=
        List.mem_map_of_mem _ hn
      rw [firstOccurrences_keys] at hk
      have hne : ¬ a.Key = n.Key := by
        intro h
        simp only [List.mem_map, List.mem_filter] at hk
        obtain ⟨m, ⟨_, hm⟩, hmk⟩ := hk
        simp [h, hmk] at hm
      have := ih hn
      rw [List.find?_cons]
      simp only [hne, decide_False]
      rw [← this, List.find?_filter]
      congr 1
      funext m
      by_cases h1 : m.Key = n.Key
      · have h2 : ¬ n.Key = a.Key := fun h => hne h.symm
        simp [h1, h2]
      · simp [h1]

theorem NewResponseBuilder_fold {V S : Type} [Inhabited V] (l : List (NodeConf V))
    (ex : GoMap Bool) (rb : ResponseBuilder V S) :
    (l.foldl NewResponseBuilder.step (ex, rb)).2.result =
      rb.result ++ (firstOccurrences
        (l.filter (fun n => !decide (n.Key ∈ ex.keys)))).map newSlot := by
  induction l generalizing ex rb with
  | nil => simp [firstOccurrences]
  | cons n rest ih =>
    rw [List.foldl_cons]
    by_cases h : n.Key ∈ ex.keys
    · have h2 := (GoMap.mem_keys_iff ex n.Key).mp h
      obtain ⟨b, hb⟩ := Option.isSome_iff_exists.mp h2
      have hs : NewResponseBuilder.step (ex, rb) n = (ex, rb) := by
        simp [NewResponseBuilder.step, hb]
      rw [hs, ih, List.filter_cons]
      simp [h]
    · have h2 : ex.get n.Key = none := by
        have := (GoMap.mem_keys_iff ex n.Key).not.mp h
        simpa using this
      have hs : (NewResponseBuilder.step (ex, rb) n).1 = ex.set n.Key true ∧
          (NewResponseBuilder.step (ex, rb) n).2.result = rb.result ++ [newSlot n] := by
        simp only [NewResponseBuilder.step, h2, newSlot]
        refine ⟨trivial, ?_⟩
        split <;> rfl
      rw [show NewResponseBuilder.step (ex, rb) n =
        ((NewResponseBuilder.step (ex, rb) n).1, (NewResponseBuilder.step (ex, rb) n).2) from rfl,
        ih, hs.1, hs.2, List.filter_cons]
      simp only [h, decide_False, Bool.not_false, if_true]
      rw [firstOccurrences, List.filter_filter, List.append_assoc]
      simp only [List.singleton_append, List.map_cons]
      congr 4
      apply List.filter_congr
      intro m _
      have hkeys : m.Key ∈ (ex.set n.Key true).keys ↔ m.Key = n.Key ∨ m.Key ∈ ex.keys := by
        rw [GoMap.mem_keys_iff, GoMap.mem_keys_iff, GoMap.get_set]
        by_cases h3 : m.Key = n.Key <;> simp [h3]
      simp only [hkeys, Bool.decide_or, Bool.not_or, Bool.and_comm]

/-- C6. `NewResponseBuilder` creates one unsettled slot per distinct `Key`, in
the order of first occurrence: the slots are the unsettled slots of the node
list with later entries of an already seen key dropped. The slot keys are
distinct, every key of the node list has a slot, and each slot carries the first
`NodeConf` of the list that has its key. -/
theorem NewResponseBuilder_slots {V S : Type} [Inhabited V] (storageKey : String)
    (storage : S) (nodesConf : List (NodeConf V)) (t : Int) :
    (NewResponseBuilder storageKey storage nodesConf t).result =
      (firstOccurrences nodesConf).map newSlot ∧
    ((NewResponseBuilder storageKey storage nodesConf t).result.map
      (fun r => r.nodeConf.Key)).Nodup ∧
    (∀ k, k ∈ (NewResponseBuilder storageKey storage nodesConf t).result.map
        (fun r => r.nodeConf.Key) ↔ k ∈ nodesConf.map (fun n => n.Key)) ∧
    (∀ r ∈ (NewResponseBuilder storageKey storage nodesConf t).result,
      nodesConf.find? (fun m => decide (m.Key = r.nodeConf.Key)) = some r.nodeConf ∧
      r.fetched = false ∧ r.err = none ∧ r.res = default) := by
  have h : (NewResponseBuilder storageKey storage nodesConf t).result =
      (firstOccurrences nodesConf).map newSlot := by
    simp only [NewResponseBuilder]
    rw [NewResponseBuilder_fold]
    simp [GoMap.keys, NewResponseBuilder.init]
  have hk : (NewResponseBuilder storageKey storage nodesConf t).result.map
      (fun r => r.nodeConf.Key) = (firstOccurrences nodesConf).map (fun n => n.Key) := by
    rw [h, List.map_map]
    rfl
  refine ⟨h, ?_, ?_, ?_⟩
  · rw [hk]
    exact firstOccurrences_nodup nodesConf
  · intro k
    rw [hk]
    exact firstOccurrences_keys nodesConf k
  · intro r hr
    rw [h, List.mem_map] at hr
    obtain ⟨n, hn, rfl⟩ := hr
    exact ⟨firstOccurrences_find nodesConf n hn, rfl, rfl, rfl⟩

/-! ## The gather loop -/

theorem gatherFinished_fields {V S : Type} (r : Run V S) (n : NodeBuilderResult V) :
    (gatherFinished r n).rb.result = r.rb.result ∧
    (gatherFinished r n).running = r.running ∧
    (gatherFinished r n).cancelled = r.cancelled ∧
    (gatherFinished r n).rb.storage = r.rb.storage ∧
    (gatherFinished r n).rb.storageKey = r.rb.storageKey ∧
    fullSignals (gatherFinished r n).trace = fullSignals r.trace ∧
    launches (gatherFinished r n).trace = launches r.trace := by
  unfold gatherFinished
  simp only [Run.signalRequired]
  split_ifs <;> simp [fullSignals, launches, List.filterMap_append]

theorem gatherFinished_counters {V S : Type} (r : Run V S) (n : NodeBuilderResult V) :
    (gatherFinished r n).rb.numReqPending =
      r.rb.numReqPending - (if n.nodeConf.Required = true then 1 else 0) ∧
    (gatherFinished r n).rb.numOptPending =
      r.rb.numOptPending - (if n.nodeConf.Required = true then 0 else 1) ∧
    (gatherFinished r n).rb.numReqErr =
      r.rb.numReqErr + (if n.nodeConf.Required = true ∧ n.err.isSome = true then 1 else 0) ∧
    (gatherFinished r n).rb.numOptErr =
      r.rb.numOptErr + (if n.nodeConf.Required = false ∧ n.err.isSome = true then 1 else 0) := by
  unfold gatherFinished
  simp only [Run.signalRequired]
  split_ifs <;> simp_all

theorem gatherFinished_required {V S : Type} (r : Run V S) (n : NodeBuilderResult V) :
    requiredSignals (gatherFinished r n).trace = requiredSignals r.trace ++
      (if n.nodeConf.Required = true ∧ n.err.isSome = true ∧ r.rb.numReqErr = 0 then [false]
       else if n.nodeConf.Required = true ∧ n.err.isSome = false ∧
          r.rb.numReqPending = 1 ∧ r.rb.numReqErr = 0 then [true]
       else []) := by
  have hx : (r.rb.numReqPending - 1 = 0) ↔ (r.rb.numReqPending = 1) := by omega
  have hy : (r.rb.numReqErr + 1 = 1) ↔ (r.rb.numReqErr = 0) := by omega
  unfold gatherFinished
  simp only [Run.signalRequired, hx, hy]
  by_cases hr : n.nodeConf.Required = true <;> by_cases he : n.err.isSome = true <;>
    by_cases h0 : r.rb.numReqErr = 0 <;> by_cases h1 : r.rb.numReqPending = 1 <;>
    simp [hr, he, h0, h1, hx, hy, requiredSignals, List.filterMap_append]

theorem countP_set_int {α : Type} (q : α → Bool) (l : List α) (i : Nat) (a : α)
    (h : i < l.length) :
    (((l.set i a).countP q : Nat) : Int) =
      ((l.countP q : Nat) : Int) - (if q l[i] = true then 1 else 0) +
        (if q a = true then 1 else 0) := by
  have h1 := List.countP_set q l i a h
  have h2 := List.boole_getElem_le_countP q l i h
  rw [h1]
  split_ifs at h2 ⊢ <;> omega

theorem buildNode_eq {V S : Type} (ctx : Context) (rb : ResponseBuilder V S) (idx : Nat)
    (n : NodeBuilderResult V) (h : rb.result[idx]? = some n) :
    buildNode ctx rb idx = { rb with result := (rb.result.set idx
      (NodeBuilderResult.mk n.nodeConf (n.nodeConf.Builder ctx).1
        (n.nodeConf.Builder ctx).2 true)) } := by
  simp [buildNode, h]

theorem gatherStep_inv {V S : Type} (fetchCtx : Context) (confs : List (NodeConf V))
    (r : Run V S) (i : Nat) (hinv : GatherInv fetchCtx confs r) (hi : i ∈ r.running) :
    ∃ r2, gatherStep fetchCtx r (GatherEvent.finished i) = .ok r2 ∧
      GatherInv fetchCtx confs r2 ∧ r2.running = r.running.erase i ∧
      launches r2.trace = launches r.trace := by
  have hlt := hinv.running_lt i hi
  have h0 : r.rb.result[i]? = some r.rb.result[i] := List.getElem?_eq_getElem hlt
  have hf0 : r.rb.result[i].fetched = false := (hinv.running_iff i _ h0).mpr hi
  have hb := buildNode_eq fetchCtx r.rb i _ h0
  generalize hn1 : NodeBuilderResult.mk r.rb.result[i].nodeConf
      (r.rb.result[i].nodeConf.Builder fetchCtx).1
      (r.rb.result[i].nodeConf.Builder fetchCtx).2 true = n1 at hb
  have hn1c : n1.nodeConf = r.rb.result[i].nodeConf := by rw [← hn1]
  have hn1f : n1.fetched = true := by rw [← hn1]
  have hn1e : n1.err = (n1.nodeConf.Builder fetchCtx).2 := by rw [← hn1]
  generalize hr1 : Run.mk (buildNode fetchCtx r.rb i) r.chans r.trace r.finishedCap
      (r.running.erase i) r.cancelled = r1
  have hres : r1.rb.result = r.rb.result.set i n1 := by rw [← hr1, hb]
  have hget : r1.rb.result[i]? = some n1 := by
    rw [hres]; simp [List.getElem?_set, hlt]
  have hstep : gatherStep fetchCtx r (GatherEvent.finished i) = .ok (gatherFinished r1 n1) := by
    have hget2 : (buildNode fetchCtx r.rb i).result[i]? = some n1 := by
      rw [← hr1] at hget; exact hget
    simp only [gatherStep, hi, if_true, hr1, hget2]
  obtain ⟨f1, f2, f3, _, _, f6, f7⟩ := gatherFinished_fields r1 n1
  obtain ⟨c1, c2, c3, c4⟩ := gatherFinished_counters r1 n1
  have s1 := gatherFinished_required r1 n1
  have e1 : r1.rb.numReqPending = r.rb.numReqPending := by rw [← hr1, hb]
  have e2 : r1.rb.numOptPending = r.rb.numOptPending := by rw [← hr1, hb]
  have e3 : r1.rb.numReqErr = r.rb.numReqErr := by rw [← hr1, hb]
  have e4 : r1.rb.numOptErr = r.rb.numOptErr := by rw [← hr1, hb]
  have e5 : r1.running = r.running.erase i := by rw [← hr1]
  have e6 : r1.trace = r.trace := by rw [← hr1]
  have e7 : r1.cancelled = r.cancelled := by rw [← hr1]
  have k1 := countP_set_int (fun n : NodeBuilderResult V => !n.fetched && n.nodeConf.Required)
    r.rb.result i n1 hlt
  have k2 := countP_set_int (fun n : NodeBuilderResult V => !n.fetched && !n.nodeConf.Required)
    r.rb.result i n1 hlt
  have k3 := countP_set_int
    (fun n : NodeBuilderResult V => n.fetched && (n.nodeConf.Required && n.err.isSome))
    r.rb.result i n1 hlt
  have k4 := countP_set_int
    (fun n : NodeBuilderResult V => n.fetched && (!n.nodeConf.Required && n.err.isSome))
    r.rb.result i n1 hlt
  simp only [hf0, hn1f, hn1c, Bool.not_false, Bool.not_true, Bool.true_and, Bool.false_and,
    Bool.false_eq_true, if_false] at k1 k2 k3 k4
  have p1 := hinv.reqPending
  have p2 := hinv.optPending
  have p3 := hinv.reqErr
  have p4 := hinv.optErr
  refine ⟨gatherFinished r1 n1, hstep, ?_, by rw [f2, e5], by rw [f7, e6]⟩
  constructor
  · rw [f1, hres, ← hinv.confs_eq]
    apply List.ext_getElem?
    intro j
    by_cases hj : i = j
    · subst hj; simp [List.getElem?_set, hlt, hn1c]
    · simp [List.getElem?_set, hj]
  · rw [f2, e5]; exact hinv.nodup.erase i
  · intro j n hj
    rw [f1, hres, List.getElem?_set] at hj
    rw [f2, e5, hinv.nodup.mem_erase_iff]
    by_cases hij : i = j
    · subst hij
      simp only [if_true, hlt] at hj
      cases hj
      simp [hn1f]
    · simp only [hij, if_false] at hj
      rw [hinv.running_iff j n hj]
      constructor
      · intro h; exact ⟨fun h2 => hij h2.symm, h⟩
      · intro h; exact h.2
  · intro j hj
    rw [f2, e5] at hj
    rw [f1, hres, List.length_set]
    exact hinv.running_lt j (List.mem_of_mem_erase hj)
  · rw [c1, f1, hres, e1, k1, hn1c, p1]
    cases r.rb.result[i].nodeConf.Required <;> simp
  · rw [c2, f1, hres, e2, k2, hn1c, p2]
    cases r.rb.result[i].nodeConf.Required <;> simp
  · rw [c3, f1, hres, e3, k3, hn1c, p3]
    cases r.rb.result[i].nodeConf.Required <;> cases n1.err.isSome <;> simp
  · rw [c4, f1, hres, e4, k4, hn1c, p4]
    cases r.rb.result[i].nodeConf.Required <;> cases n1.err.isSome <;> simp
  · intro n hn hf
    rw [f1, hres] at hn
    rcases List.mem_or_eq_of_mem_set hn with h | h
    · exact hinv.err_eq n h hf
    · rw [h]; exact hn1e
  · have q := hinv.reqSig
    rw [s1, c1, c3, e1, e3, e6, q, hn1c]
    have hp : r.rb.result[i].nodeConf.Required = true → 1 ≤ r.rb.numReqPending := by
      intro hreq
      simp only [hreq, Bool.and_true, if_true] at k1
      omega
    have he : 0 ≤ r.rb.numReqErr := by omega
    by_cases hreq : r.rb.result[i].nodeConf.Required = true
    · have hp2 := hp hreq
      by_cases herr : n1.err.isSome = true
      · by_cases h00 : r.rb.numReqErr = 0
        · have : ¬ r.rb.numReqPending = 0 := by omega
          simp [hreq, herr, h00, this]
        · have h01 : 0 < r.rb.numReqErr := by omega
          have h02 : 0 < r.rb.numReqErr + 1 := by omega
          simp [hreq, herr, h00, h01, h02]
      · by_cases h00 : r.rb.numReqErr = 0
        · have h03 : ¬ r.rb.numReqPending = 0 := by omega
          by_cases h04 : r.rb.numReqPending = 1
          · simp [hreq, herr, h00, h03, h04]
          · have h05 : ¬ r.rb.numReqPending - 1 = 0 := by omega
            simp [hreq, herr, h00, h03, h04, h05]
        · have h01 : 0 < r.rb.numReqErr := by omega
          simp [hreq, herr, h00, h01]
    · simp [hreq]
  · rw [f6, e6]; exact hinv.fullSig
  · rw [f3, e7]; exact hinv.notCancelled

theorem gather_inv {V S : Type} (fetchCtx : Context) (confs : List (NodeConf V))
    (L : List Nat) :
    ∀ r : Run V S, GatherInv fetchCtx confs r → L.Perm r.running →
      ∃ r2, gather fetchCtx (L.map GatherEvent.finished) r = .ok r2 ∧
        GatherInv fetchCtx confs r2 ∧ r2.running = [] ∧
        launches r2.trace = launches r.trace := by
  induction L with
  | nil =>
    intro r hinv hperm
    have hrun : r.running = [] := List.Perm.eq_nil hperm.symm
    have hall : ∀ n ∈ r.rb.result, n.fetched = true := by
      intro n hn
      obtain ⟨j, hj, rfl⟩ := List.getElem_of_mem hn
      have := hinv.running_iff j _ (List.getElem?_eq_getElem hj)
      rw [hrun] at this
      cases hf : r.rb.result[j].fetched
      · exact absurd (this.mp hf) (List.not_mem_nil j)
      · rfl
    have h1 : r.rb.numReqPending = 0 := by
      rw [hinv.reqPending, Int.natCast_eq_zero, List.countP_eq_zero]
      intro n hn; simp [hall n hn]
    have h2 : r.rb.numOptPending = 0 := by
      rw [hinv.optPending, Int.natCast_eq_zero, List.countP_eq_zero]
      intro n hn; simp [hall n hn]
    refine ⟨r, ?_, hinv, hrun, rfl⟩
    simp [gather, gatherCond, h1, h2]
  | cons i L ih =>
    intro r hinv hperm
    have hi : i ∈ r.running := hperm.subset (List.mem_cons_self i L)
    have hlt := hinv.running_lt i hi
    have hf0 : r.rb.result[i].fetched = false :=
      (hinv.running_iff i _ (List.getElem?_eq_getElem hlt)).mpr hi
    have hmem : r.rb.result[i] ∈ r.rb.result := List.getElem_mem hlt
    have hpos : 0 < r.rb.numReqPending + r.rb.numOptPending := by
      rw [hinv.reqPending, hinv.optPending]
      cases hreq : r.rb.result[i].nodeConf.Required
      · have : 0 < r.rb.result.countP (fun n => !n.fetched && !n.nodeConf.Required) :=
          List.countP_pos_iff.mpr ⟨_, hmem, by simp [hf0, hreq]⟩
        omega
      · have : 0 < r.rb.result.countP (fun n => !n.fetched && n.nodeConf.Required) :=
          List.countP_pos_iff.mpr ⟨_, hmem, by simp [hf0, hreq]⟩
        omega
    have hcond : gatherCond r = true := by
      simp [gatherCond, hpos, hinv.notCancelled]
    obtain ⟨r1, hstep, hinv1, hrun1, hl1⟩ := gatherStep_inv fetchCtx confs r i hinv hi
    have hperm1 : L.Perm r1.running := by
      rw [hrun1]
      have := hperm.erase i
      rwa [List.erase_cons_head] at this
    obtain ⟨r2, hg, hinv2, hrun2, hl2⟩ := ih r1 hinv1 hperm1
    refine ⟨r2, ?_, hinv2, hrun2, by rw [hl2, hl1]⟩
    simp only [List.map_cons, gather, hcond, if_true, hstep]
    exact hg

/-! ## The orchestrator on a fresh builder -/

theorem GatherInv.done {V S : Type} {fetchCtx : Context} {confs : List (NodeConf V)}
    {r : Run V S} (hinv : GatherInv fetchCtx confs r) (hrun : r.running = []) :
    (∀ n ∈ r.rb.result, n.fetched = true) ∧ r.rb.numReqPending = 0 ∧
      r.rb.numOptPending = 0 := by
  have hall : ∀ n ∈ r.rb.result, n.fetched = true := by
    intro n hn
    obtain ⟨j, hj, rfl⟩ := List.getElem_of_mem hn
    have := hinv.running_iff j _ (List.getElem?_eq_getElem hj)
    rw [hrun] at this
    cases hf : r.rb.result[j].fetched
    · exact absurd (this.mp hf) (List.not_mem_nil j)
    · rfl
  refine ⟨hall, ?_, ?_⟩
  · rw [hinv.reqPending, Int.natCast_eq_zero, List.countP_eq_zero]
    intro n hn; simp [hall n hn]
  · rw [hinv.optPending, Int.natCast_eq_zero, List.countP_eq_zero]
    intro n hn; simp [hall n hn]

theorem toStorage_fields {V S : Type} (kv : KeyValStorage S) (cd : Codec V) (ctx : Context)
    (rb : ResponseBuilder V S) :
    (toStorage kv cd ctx rb).1.result = rb.result ∧
    (toStorage kv cd ctx rb).1.numReqPending = rb.numReqPending ∧
    (toStorage kv cd ctx rb).1.numOptPending = rb.numOptPending ∧
    (toStorage kv cd ctx rb).1.numReqErr = rb.numReqErr ∧
    (toStorage kv cd ctx rb).1.numOptErr = rb.numOptErr ∧
    requiredSignals (toStorage kv cd ctx rb).2 = [] ∧
    fullSignals (toStorage kv cd ctx rb).2 = [] ∧
    launches (toStorage kv cd ctx rb).2 = [] := by
  unfold toStorage
  split <;> simp [requiredSignals, fullSignals, launches]

theorem signals_map_launch (l : List Nat) :
    requiredSignals (l.map Event.launch) = [] ∧ fullSignals (l.map Event.launch) = [] ∧
      launches (l.map Event.launch) = l := by
  induction l with
  | nil => simp [requiredSignals, fullSignals, launches]
  | cons a l ih =>
    simp only [requiredSignals, fullSignals, launches] at ih ⊢
    simp [List.filterMap_cons, ih]

theorem fresh_fanOut_inv {V S : Type} (fetchCtx : Context) (rb : ResponseBuilder V S)
    (chans : Nat → BoolChan) (hfresh : Fresh rb) :
    GatherInv fetchCtx (rb.result.map (fun n => n.nodeConf))
      (build.fanOut
        (if rb.numReqPending = 0 then
          (Run.mk rb chans [] 0 [] false).signalRequired true
         else Run.mk rb chans [] 0 [] false)) := by
  obtain ⟨hf, hrp, hop, hre, hoe⟩ := hfresh
  have hrb : (build.fanOut
        (if rb.numReqPending = 0 then
          (Run.mk rb chans [] 0 [] false).signalRequired true
         else Run.mk rb chans [] 0 [] false)).rb = rb := by
    split_ifs <;> rfl
  have hrun : (build.fanOut
        (if rb.numReqPending = 0 then
          (Run.mk rb chans [] 0 [] false).signalRequired true
         else Run.mk rb chans [] 0 [] false)).running = List.range rb.result.length := by
    split_ifs <;> rfl
  constructor
  · rw [hrb]
  · rw [hrun]; exact List.nodup_range _
  · intro i n hi
    rw [hrb] at hi
    rw [hrun, List.mem_range]
    have hlt : i < rb.result.length := by
      rcases Nat.lt_or_ge i rb.result.length with h | h
      · exact h
      · rw [List.getElem?_eq_none h] at hi; cases hi
    have hmem : n ∈ rb.result := by
      obtain ⟨h1, h2⟩ := List.getElem?_eq_some.mp hi
      rw [← h2]; exact List.getElem_mem h1
    simp [hf n hmem, hlt]
  · intro i hi
    rw [hrun, List.mem_range] at hi
    rw [hrb]; exact hi
  · rw [hrb, hrp]
    congr 1
    apply List.countP_congr
    intro n hn; simp [hf n hn]
  · rw [hrb, hop]
    congr 1
    apply List.countP_congr
    intro n hn; simp [hf n hn]
  · rw [hrb, hre]
    symm
    rw [Int.natCast_eq_zero, List.countP_eq_zero]
    intro n hn; simp [hf n hn]
  · rw [hrb, hoe]
    symm
    rw [Int.natCast_eq_zero, List.countP_eq_zero]
    intro n hn; simp [hf n hn]
  · intro n hn hfn
    rw [hrb] at hn
    rw [hf n hn] at hfn; cases hfn
  · rw [hrb, hre]
    have h00 : ¬ (0 : Int) < 0 := by omega
    have hl := (signals_map_launch (List.range rb.result.length)).1
    simp only [h00, if_false]
    by_cases hz : rb.numReqPending = 0
    · simp only [hz, if_true, build.fanOut, Run.signalRequired, requiredSignals,
        List.filterMap_append] at hl ⊢
      rw [hl]; rfl
    · simp only [hz, if_false, build.fanOut, requiredSignals, List.filterMap_append] at hl ⊢
      rw [hl]; rfl
  · have hl := (signals_map_launch (List.range rb.result.length)).2.1
    by_cases hz : rb.numReqPending = 0
    · simp only [hz, if_true, build.fanOut, Run.signalRequired, fullSignals,
        List.filterMap_append] at hl ⊢
      rw [hl]; rfl
    · simp only [hz, if_false, build.fanOut, fullSignals, List.filterMap_append] at hl ⊢
      rw [hl]; rfl
  · split_ifs <;> rfl

theorem forall_conf_congr {V : Type} (l2 l : List (NodeBuilderResult V))
    (h : l2.map (fun n => n.nodeConf) = l.map (fun n => n.nodeConf))
    (Q : NodeConf V → Prop) :
    (∀ n ∈ l2, Q n.nodeConf) ↔ (∀ n ∈ l, Q n.nodeConf) := by
  have h1 : (∀ n ∈ l2, Q n.nodeConf) ↔ ∀ c ∈ l2.map (fun n => n.nodeConf), Q c := by
    simp [List.forall_mem_map]
  have h2 : (∀ n ∈ l, Q n.nodeConf) ↔ ∀ c ∈ l.map (fun n => n.nodeConf), Q c := by
    simp [List.forall_mem_map]
  rw [h1, h2, h]

theorem build_finish_done {V S : Type} (kv : KeyValStorage S) (cd : Codec V) (ctx : Context)
    (r : Run V S) (h1 : r.rb.numReqPending = 0) (h2 : r.rb.numOptPending = 0) :
    (build.finish kv cd ctx r).rb.result = r.rb.result ∧
    requiredSignals (build.finish kv cd ctx r).trace = requiredSignals r.trace ∧
    fullSignals (build.finish kv cd ctx r).trace = fullSignals r.trace ++
      [decide (r.rb.numOptErr = 0) && decide (r.rb.numReqErr = 0)] ∧
    launches (build.finish kv cd ctx r).trace = launches r.trace := by
  obtain ⟨t1, t2, t3, t4, t5, t6, t7, t8⟩ := toStorage_fields kv cd ctx r.rb
  simp only [requiredSignals, fullSignals, launches] at t6 t7 t8
  simp [build.finish, Run.signalFull, t1, t2, t3, t4, t5, t6, t7, t8, h1, h2, requiredSignals,
    fullSignals, launches, List.filterMap_append]

/-- On a fresh builder whose pre-load settles nothing, and with every launched
builder completing, in any order, without cancellation: `build` returns, it
signals requiredReady exactly once, with `true` iff no builder of a required
slot returned an error, and fullReady exactly once, with `true` iff no builder
returned an error; it launches one builder per slot, and at the end every slot
is fetched with the error its builder returned. -/
theorem build_fresh {V S : Type} (kv : KeyValStorage S) (cd : Codec V) (ctx : Context)
    (rb : ResponseBuilder V S) (chans : Nat → BoolChan) (order : List Nat)
    (hfresh : Fresh rb) (hpre : fromStorage kv cd ctx rb = rb)
    (horder : order.Perm (List.range rb.result.length)) :
    ∃ r, build kv cd ctx (order.map GatherEvent.finished) rb chans = .ok r ∧
      requiredSignals r.trace = [decide (∀ n ∈ rb.result, n.nodeConf.Required = true →
        (n.nodeConf.Builder (fetchCtxOf ctx rb)).2 = none)] ∧
      fullSignals r.trace = [decide (∀ n ∈ rb.result,
        (n.nodeConf.Builder (fetchCtxOf ctx rb)).2 = none)] ∧
      launches r.trace = List.range rb.result.length ∧
      (∀ n ∈ r.rb.result, n.fetched = true ∧
        n.err = (n.nodeConf.Builder (fetchCtxOf ctx rb)).2) ∧
      r.rb.result.map (fun n => n.nodeConf) = rb.result.map (fun n => n.nodeConf) := by
  have hfresh2 := hfresh
  obtain ⟨hf, hrp, hop, hre, hoe⟩ := hfresh
  by_cases hz : rb.numReqPending = 0 ∧ rb.numOptPending = 0
  · have hnil : rb.result = [] := by
      rw [List.eq_nil_iff_forall_not_mem]
      intro n hn
      have a1 : rb.result.countP (fun n => n.nodeConf.Required) = 0 := by
        have := hz.1; omega
      have a2 : rb.result.countP (fun n => !n.nodeConf.Required) = 0 := by
        have := hz.2; omega
      rw [List.countP_eq_zero] at a1 a2
      have b1 := a1 n hn
      have b2 := a2 n hn
      cases hreq : n.nodeConf.Required <;> simp [hreq] at b1 b2
    refine ⟨((Run.mk rb chans [] 0 [] false).signalRequired true).signalFull true,
      by simp only [build, hpre, hz, and_self, if_true], ?_⟩
    simp [hz.1, hnil, Run.signalFull, Run.signalRequired, requiredSignals, fullSignals,
      launches]
  · have hnn : ¬ rb.numReqPending + rb.numOptPending < 0 := by omega
    have hinv := fresh_fanOut_inv (fetchCtxOf ctx rb) rb chans hfresh2
    have hperm : order.Perm (build.fanOut
        (if rb.numReqPending = 0 then
          (Run.mk rb chans [] 0 [] false).signalRequired true
         else Run.mk rb chans [] 0 [] false)).running := by
      split_ifs <;> exact horder
    obtain ⟨r2, hg, hinv2, hrun2, hl2⟩ := gather_inv _ _ order _ hinv hperm
    obtain ⟨hall, d1, d2⟩ := hinv2.done hrun2
    obtain ⟨g1, g2, g3, g4⟩ := build_finish_done kv cd ctx r2 d1 d2
    have he0 : 0 ≤ r2.rb.numReqErr := by rw [hinv2.reqErr]; omega
    have ho0 : 0 ≤ r2.rb.numOptErr := by rw [hinv2.optErr]; omega
    have hreq : r2.rb.numReqErr = 0 ↔ ∀ n ∈ rb.result, n.nodeConf.Required = true →
        (n.nodeConf.Builder (fetchCtxOf ctx rb)).2 = none := by
      rw [← forall_conf_congr r2.rb.result rb.result hinv2.confs_eq
        (fun c => c.Required = true → (c.Builder (fetchCtxOf ctx rb)).2 = none),
        hinv2.reqErr, Int.natCast_eq_zero, List.countP_eq_zero]
      apply forall_congr'; intro n
      apply forall_congr'; intro hn
      rw [← hinv2.err_eq n hn (hall n hn)]
      cases n.err <;> simp [hall n hn]
    have hopt : r2.rb.numOptErr = 0 ↔ ∀ n ∈ rb.result, n.nodeConf.Required = false →
        (n.nodeConf.Builder (fetchCtxOf ctx rb)).2 = none := by
      rw [← forall_conf_congr r2.rb.result rb.result hinv2.confs_eq
        (fun c => c.Required = false → (c.Builder (fetchCtxOf ctx rb)).2 = none),
        hinv2.optErr, Int.natCast_eq_zero, List.countP_eq_zero]
      apply forall_congr'; intro n
      apply forall_congr'; intro hn
      rw [← hinv2.err_eq n hn (hall n hn)]
      cases n.err <;> simp [hall n hn]
    refine ⟨build.finish kv cd ctx r2, ?_, ?_, ?_, ?_, ?_, ?_⟩
    · simp only [build, hpre, hz, if_false, hnn, hg]
    · rw [g2, hinv2.reqSig, d1]
      by_cases h0 : r2.rb.numReqErr = 0
      · have h1 : ¬ 0 < r2.rb.numReqErr := by omega
        simp only [h1, if_false, if_true]
        rw [decide_eq_true (hreq.mp h0)]
      · have h1 : 0 < r2.rb.numReqErr := by omega
        simp only [h1, if_true]
        rw [decide_eq_false (fun h => h0 (hreq.mpr h))]
    · rw [g3, hinv2.fullSig, List.nil_append]
      congr 1
      rw [Bool.eq_iff_iff]
      simp only [Bool.and_eq_true, decide_eq_true_eq, hreq, hopt]
      constructor
      · rintro ⟨h1, h2⟩ n hn
        cases hr : n.nodeConf.Required
        · exact h1 n hn hr
        · exact h2 n hn hr
      · intro h
        exact ⟨fun n hn _ => h n hn, fun n hn _ => h n hn⟩
    · rw [g4, hl2]
      have hl := (signals_map_launch (List.range rb.result.length)).2.2
      by_cases hq : rb.numReqPending = 0
      · simp only [hq, if_true, build.fanOut, Run.signalRequired, launches,
          List.filterMap_append] at hl ⊢
        rw [hl]; rfl
      · simp only [hq, if_false, build.fanOut, launches, List.filterMap_append] at hl ⊢
        rw [hl]; rfl
    · intro n hn
      rw [g1] at hn
      exact ⟨hall n hn, hinv2.err_eq n hn (hall n hn)⟩
    · rw [g1]; exact hinv2.confs_eq

/-! ## What `fromStorage`, `NewResponseBuilder` and `Build` leave as they find it -/

theorem SameButPending.eq {V S : Type} {a b : ResponseBuilder V S} (h : SameButPending a b)
    (h1 : a.numReqPending = b.numReqPending) (h2 : a.numOptPending = b.numOptPending) :
    a = b := by
  obtain ⟨k1, k2, k3, k4, k5, k6, k7, k8, k9, k10⟩ := h
  cases a; cases b
  simp_all

theorem fromStorage_body_same {V S : Type} (resp : GoMap V) (rb : ResponseBuilder V S)
    (r : NodeBuilderResult V) : SameButPending (fromStorage.body resp rb r).1 rb := by
  unfold fromStorage.body
  cases resp.get r.nodeConf.Key with
  | none => simp [SameButPending]
  | some val =>
    by_cases hr : r.nodeConf.Required = true <;> simp [hr, SameButPending]

theorem fromStorage_fold_same {V S : Type} (resp : GoMap V) (l : List (NodeBuilderResult V)) :
    ∀ rb : ResponseBuilder V S,
      SameButPending (l.foldl (fun rb r => (fromStorage.body resp rb r).1) rb) rb := by
  induction l with
  | nil => intro rb; simp [SameButPending]
  | cons a l ih =>
    intro rb
    rw [List.foldl_cons]
    have h1 := ih (fromStorage.body resp rb a).1
    have h2 := fromStorage_body_same resp rb a
    unfold SameButPending at h1 h2 ⊢
    obtain ⟨a1, a2, a3, a4, a5, a6, a7, a8, a9, a10⟩ := h1
    obtain ⟨b1, b2, b3, b4, b5, b6, b7, b8, b9, b10⟩ := h2
    exact ⟨a1.trans b1, a2.trans b2, a3.trans b3, a4.trans b4, a5.trans b5, a6.trans b6,
      a7.trans b7, a8.trans b8, a9.trans b9, a10.trans b10⟩

/-- The method `fromStorage` changes nothing but the two pending counters; in
particular no slot is written. -/
theorem fromStorage_same {V S : Type} (kv : KeyValStorage S) (cd : Codec V) (ctx : Context)
    (rb : ResponseBuilder V S) : SameButPending (fromStorage kv cd ctx rb) rb := by
  have hrefl : SameButPending rb rb := by simp [SameButPending]
  unfold fromStorage
  split
  · exact hrefl
  · split
    · exact hrefl
    · split
      · exact hrefl
      · exact fromStorage_fold_same _ _ _

theorem fromStorage_eq_self {V S : Type} (kv : KeyValStorage S) (cd : Codec V) (ctx : Context)
    (rb : ResponseBuilder V S)
    (h1 : (fromStorage kv cd ctx rb).numReqPending = rb.numReqPending)
    (h2 : (fromStorage kv cd ctx rb).numOptPending = rb.numOptPending) :
    fromStorage kv cd ctx rb = rb := by
  exact (fromStorage_same kv cd ctx rb).eq h1 h2

theorem NewResponseBuilder_fold_counts {V S : Type} [Inhabited V] (l : List (NodeConf V)) :
    ∀ (ex : GoMap Bool) (rb : ResponseBuilder V S),
      (∀ n ∈ rb.result, n.fetched = false) →
      rb.numRequired = ((rb.result.countP (fun n => n.nodeConf.Required) : Nat) : Int) →
      (∀ n ∈ (l.foldl NewResponseBuilder.step (ex, rb)).2.result, n.fetched = false) ∧
      (l.foldl NewResponseBuilder.step (ex, rb)).2.numRequired =
        (((l.foldl NewResponseBuilder.step (ex, rb)).2.result.countP
          (fun n => n.nodeConf.Required) : Nat) : Int) ∧
      (l.foldl NewResponseBuilder.step (ex, rb)).2.numReqErr = rb.numReqErr ∧
      (l.foldl NewResponseBuilder.step (ex, rb)).2.numOptErr = rb.numOptErr ∧
      (l.foldl NewResponseBuilder.step (ex, rb)).2.buildStartTime = rb.buildStartTime := by
  induction l with
  | nil => intro ex rb h1 h2; exact ⟨h1, h2, rfl, rfl, rfl⟩
  | cons a l ih =>
    intro ex rb h1 h2
    rw [List.foldl_cons]
    cases hg : ex.get a.Key with
    | some b =>
      have hs : NewResponseBuilder.step (ex, rb) a = (ex, rb) := by
        simp [NewResponseBuilder.step, hg]
      rw [hs]; exact ih ex rb h1 h2
    | none =>
      have hs : NewResponseBuilder.step (ex, rb) a =
          (ex.set a.Key true,
            (if a.Required = true then
              { rb with result := rb.result ++ [newSlot a], numRequired := rb.numRequired + 1 }
             else { rb with result := rb.result ++ [newSlot a] })) := by
        simp only [NewResponseBuilder.step, hg, newSlot]
      rw [hs]
      by_cases hr : a.Required = true
      · simp only [hr, if_true]
        have := ih (ex.set a.Key true)
          { rb with result := rb.result ++ [newSlot a], numRequired := rb.numRequired + 1 }
          (by
            intro n hn
            rcases List.mem_append.mp hn with h | h
            · exact h1 n h
            · rw [List.mem_singleton.mp h]; rfl)
          (by simp [List.countP_append, newSlot, hr, h2])
        exact this
      · simp only [hr, if_false]
        have := ih (ex.set a.Key true)
          { rb with result := rb.result ++ [newSlot a] }
          (by
            intro n hn
            rcases List.mem_append.mp hn with h | h
            · exact h1 n h
            · rw [List.mem_singleton.mp h]; rfl)
          (by simp [List.countP_append, newSlot, hr, h2])
        exact this

theorem countP_not_add {α : Type} (p : α → Bool) (l : List α) :
    l.countP p + l.countP (fun a => !p a) = l.length := by
  induction l with
  | nil => rfl
  | cons a l ih =>
    simp only [List.countP_cons, List.length_cons]
    cases p a <;> simp <;> omega

theorem NewResponseBuilder_fresh {V S : Type} [Inhabited V] (storageKey : String)
    (storage : S) (nodesConf : List (NodeConf V)) (t : Int) :
    Fresh (NewResponseBuilder storageKey storage nodesConf t) ∧
      (NewResponseBuilder storageKey storage nodesConf t).buildStartTime = 0 := by
  obtain ⟨h1, h2, h3, h4, h5⟩ := NewResponseBuilder_fold_counts nodesConf ([] : GoMap Bool)
    (NewResponseBuilder.init storageKey storage
      (if t < 0 then DefaultBuildNodeTimeoutMillis else t) : ResponseBuilder V S)
    (by intro n hn; cases hn) (by simp [NewResponseBuilder.init])
  refine ⟨⟨h1, h2, ?_, h3, h4⟩, h5⟩
  simp only [NewResponseBuilder]
  rw [h2]
  have := countP_not_add (fun n : NodeBuilderResult V => n.nodeConf.Required)
    (List.foldl NewResponseBuilder.step (([] : GoMap Bool),
      (NewResponseBuilder.init storageKey storage
        (if t < 0 then DefaultBuildNodeTimeoutMillis else t) : ResponseBuilder V S))
      nodesConf).2.result
  omega

theorem Build_fresh {V S : Type} (now : Int) (rr fr : Option Nat) (rb : ResponseBuilder V S)
    (h : Fresh rb) : Fresh (Build now rr fr rb).1 ∧
      (Build now rr fr rb).1.result = rb.result ∧
      (Build now rr fr rb).1.buildNodeTimeoutMillis = rb.buildNodeTimeoutMillis := by
  unfold Build
  split
  · exact ⟨h, rfl, rfl⟩
  · exact ⟨h, rfl, rfl⟩

/-! ## The claims about the orchestrator -/

/-- C1, on the code. With the storage holding the required static node `a`,
the pre-load brings `numReqPending` to zero and `build` signals requiredReady
true; it then launches the builder of `a` all the same, whose failure makes it
signal requiredReady false: two signals in one run without cancellation. And
with a second required node `b` that is not in the storage, the completion of
`a` alone makes `build` signal requiredReady true and fullReady true, while the
builder of `b` fails. -/
theorem build_requiredReady_after_preload :
    (InMemStorage.Get preloadStorage ⟨none⟩ "k" = ([1, 97, 7], none) ∧
      natCodec.Unmarshal [1, 97, 7] = .ok [("a", 7)]) ∧
    (build InMemStorage natCodec ⟨none⟩ [GatherEvent.finished 0, GatherEvent.finished 1]
        (started 5 (some 0) (some 1) "k" preloadStorage preloadNodes 800)
        sampleChans).toOption.map (fun r => requiredSignals r.trace) = some [true, false] ∧
    (build InMemStorage natCodec ⟨none⟩ [GatherEvent.finished 0, GatherEvent.finished 1]
        (started 5 (some 0) (some 1) "k" preloadStorage preloadNodes2 800)
        sampleChans).toOption.map
          (fun r => (requiredSignals r.trace, fullSignals r.trace, launches r.trace)) =
      some ([true], [true], [0, 1]) ∧
    (preloadNodes2.map (fun n => (n.Key, n.Required, (n.Builder ⟨some 800⟩).2))) =
      [("a", true, none), ("b", true, some "boom")] :=
  ⟨⟨rfl, rfl⟩, by decide, by decide, by decide⟩

/-- C7, on the code. The storage holds a blob that decodes to the map with `a`
bound to 7. After `fromStorage` the pending counter of the required slot `a`
is decremented, but the slot itself is as before: not fetched, value nil. -/
theorem fromStorage_loses_slot_writes :
    (InMemStorage.Get preloadStorage ⟨none⟩ "k" = ([1, 97, 7], none) ∧
      natCodec.Unmarshal [1, 97, 7] = .ok [("a", 7)]) ∧
    (started 5 (some 0) (some 1) "k" preloadStorage preloadNodes 800).numReqPending = 1 ∧
    (fromStorage InMemStorage natCodec ⟨none⟩
      (started 5 (some 0) (some 1) "k" preloadStorage preloadNodes 800)).numReqPending = 0 ∧
    (fromStorage InMemStorage natCodec ⟨none⟩
      (started 5 (some 0) (some 1) "k" preloadStorage preloadNodes 800)).result.map
        (fun r => (r.nodeConf.Key, r.res, r.fetched)) = [("a", 0, false), ("c", 0, false)] :=
  ⟨⟨rfl, rfl⟩, by decide, by decide, by decide⟩

/-- C8, on the code. Composition A builds the static node `a`, returns the map
with `a` bound to 7 and persists it. Composition B over that storage signals
requiredReady true and fullReady true without launching a builder, and its
`Result()` is the empty map. -/
theorem roundTrip_result_lost :
    roundTripA.toOption.map (fun r => (r.rb.Result.1, r.rb.storage, fullSignals r.trace)) =
      some ([("a", 7)], [("k", [1, 97, 7])], [true]) ∧
    roundTripB.toOption.map
        (fun r => (r.rb.Result.1, requiredSignals r.trace, fullSignals r.trace,
          launches r.trace)) =
      some ([], [true], [true], []) :=
  ⟨by decide, by decide⟩

/-! ## The data fetcher -/

theorem perm_cons_eraseIdx {α : Type} (l : List α) (i : Nat) (a : α) (h : l[i]? = some a) :
    l.Perm (a :: l.eraseIdx i) := by
  induction l generalizing i with
  | nil => simp at h
  | cons b l ih =>
    cases i with
    | zero =>
      simp only [List.getElem?_cons_zero, Option.some.injEq] at h
      subst h
      simp
    | succ i =>
      simp only [List.getElem?_cons_succ] at h
      simp only [List.eraseIdx_cons_succ]
      exact ((ih i h).cons b).trans (List.Perm.swap a b _)

theorem new_inv {V : Type} (n : Int) : FetcherInv (FetcherWorld.new n : FetcherWorld V) := by
  constructor
  · simp only [FetcherWorld.new, NewDataFetcherImpl]
    split_ifs <;> omega
  · intro H cad h; simp [FetcherWorld.new, NewDataFetcherImpl, GoMap.get] at h
  · intro task h; simp [FetcherWorld.new] at h
  · intro H cad h; simp [FetcherWorld.new, NewDataFetcherImpl, GoMap.get] at h
  · intro H1 H2 c1 c2 h; simp [FetcherWorld.new, NewDataFetcherImpl, GoMap.get] at h
  · intro H c h; simp [FetcherWorld.new] at h
  · intro c v s h; simp [FetcherWorld.new] at h
  · simp [FetcherWorld.new, spawns]
  · intro H; simp [FetcherWorld.new, spawns, NewDataFetcherImpl, GoMap.get]
  · simp [FetcherWorld.new, invokes, FetcherWorld.pending]
  · intro H h; simp [FetcherWorld.new, invokes, FetcherWorld.pending] at h

theorem effectiveReq_fetcher {V : Type} (req : AsyncFetchReq V) :
    (effectiveReq req).Fetcher = req.Fetcher := by
  unfold effectiveReq; split <;> rfl

/-- The first branch of `Fetch`: the hash has an entry with notifications
pending. -/
theorem Fetch_inflight {V : Type} (w : FetcherWorld V) (ctx : Context) (req : AsyncFetchReq V)
    (cad : cachedAsyncData V) (hf : req.Fetcher.isSome = true)
    (hg : w.df.data.get (effectiveReq req).Hash = some cad)
    (hp : cad.numPendingNotifications > 0) :
    DataFetcherImpl.Fetch w ctx req = .ok
      ({ w with
          df := { w.df with data := (w.df.data.set (effectiveReq req).Hash
            { cad with numPendingNotifications := cad.numPendingNotifications + 1 }) }
          trace := w.trace ++ [FetchEvent.call (effectiveReq req).Hash cad.notifyChan] },
        some cad.notifyChan, none) := by
  obtain ⟨f, hf⟩ := Option.isSome_iff_exists.mp hf
  simp only [DataFetcherImpl.Fetch, hf, hg, hp, if_true]

/-- The second branch of `Fetch`: the hash has an entry with no notification
pending. -/
theorem Fetch_settled {V : Type} (w : FetcherWorld V) (ctx : Context) (req : AsyncFetchReq V)
    (cad : cachedAsyncData V) (hf : req.Fetcher.isSome = true)
    (hg : w.df.data.get (effectiveReq req).Hash = some cad)
    (hp : ¬ cad.numPendingNotifications > 0) :
    ∃ s, DataFetcherImpl.Fetch w ctx req = .ok
      ({ w.send cad.notifyChan cad.fetchedData s with
          trace := w.trace ++ [FetchEvent.deliver cad.notifyChan cad.fetchedData s,
            FetchEvent.call (effectiveReq req).Hash cad.notifyChan] },
        some cad.notifyChan, none) := by
  obtain ⟨f, hf⟩ := Option.isSome_iff_exists.mp hf
  refine ⟨if ((w.chans cad.notifyChan).queued.length : Int) < (w.chans cad.notifyChan).cap
          then Sender.fetch else Sender.fetchSpawned, ?_⟩
  simp only [DataFetcherImpl.Fetch, hf, hg, hp, if_false, FetcherWorld.send,
    List.append_assoc, List.singleton_append]

/-- The third branch of `Fetch`: the hash has no entry. -/
theorem Fetch_new {V : Type} (w : FetcherWorld V) (ctx : Context) (req : AsyncFetchReq V)
    (hf : req.Fetcher.isSome = true)
    (hg : w.df.data.get (effectiveReq req).Hash = none) (hc : 0 ≤ w.df.dataChanCap) :
    DataFetcherImpl.Fetch w ctx req = .ok
      ({ df := { w.df with data := (w.df.data.set (effectiveReq req).Hash
                  { notifyChan := w.nextChan, fetchedData := none,
                    numPendingNotifications := 1 }) }
         chans := Function.update w.chans w.nextChan { cap := w.df.dataChanCap, queued := [] }
         nextChan := w.nextChan + 1
         background := w.background ++ [(ctx, effectiveReq req)]
         trace := w.trace ++ [FetchEvent.spawn (effectiveReq req).Hash,
            FetchEvent.call (effectiveReq req).Hash w.nextChan] },
        some w.nextChan, none) := by
  obtain ⟨f, hf⟩ := Option.isSome_iff_exists.mp hf
  have hc2 : ¬ w.df.dataChanCap < 0 := by omega
  simp only [DataFetcherImpl.Fetch, hf, hg, hc2, if_false]

theorem inv_inflight {V : Type} (w : FetcherWorld V) (hinv : FetcherInv w) (H : String)
    (cad : cachedAsyncData V) (hg : w.df.data.get H = some cad)
    (hp : cad.numPendingNotifications > 0) :
    FetcherInv ({ w with
      df := { w.df with data := (w.df.data.set H
        { cad with numPendingNotifications := cad.numPendingNotifications + 1 }) }
      trace := w.trace ++ [FetchEvent.call H cad.notifyChan] } : FetcherWorld V) := by
  have hcad : cad.fetchedData = none ∧ H ∈ w.pending ∧
      cad.numPendingNotifications = (((calls w.trace).count H : Nat) : Int) ∧
      1 ≤ cad.numPendingNotifications := by
    rcases hinv.entry H cad hg with h | h
    · exact h
    · omega
  have hcalls : calls (w.trace ++ [FetchEvent.call H cad.notifyChan]) = calls w.trace ++ [H] := by
    simp [calls, List.filterMap_append]
  have hspawns : spawns (w.trace ++ [FetchEvent.call H cad.notifyChan]) = spawns w.trace := by
    simp [spawns, List.filterMap_append]
  have hinvokes : invokes (w.trace ++ [FetchEvent.call H cad.notifyChan]) = invokes w.trace := by
    simp [invokes, List.filterMap_append]
  have hsome : ∀ K, ((w.df.data.set H
      { cad with numPendingNotifications := cad.numPendingNotifications + 1 }).get K).isSome =
      (w.df.data.get K).isSome := by
    intro K
    rw [GoMap.get_set]
    by_cases hk : K = H
    · simp [hk, hg]
    · simp [hk]
  constructor
  · exact hinv.cap_nonneg
  · intro K c hK
    simp only [GoMap.get_set] at hK
    simp only [hcalls, FetcherWorld.pending]
    by_cases hk : K = H
    · subst hk
      simp only [if_true, Option.some.injEq] at hK
      subst hK
      left
      refine ⟨hcad.1, hcad.2.1, ?_, by simp only; omega⟩
      simp only [List.count_append, List.count_singleton_self]
      have := hcad.2.2.1
      push_cast
      omega
    · simp only [hk, if_false] at hK
      have hc0 : List.count K [H] = 0 := by
        rw [List.count_eq_zero]; simpa using hk
      rw [List.count_append, hc0, Nat.add_zero]
      exact hinv.entry K c hK
  · exact hinv.task_fetcher
  · intro K c hK
    simp only [GoMap.get_set] at hK
    by_cases hk : K = H
    · subst hk
      simp only [if_true, Option.some.injEq] at hK
      subst hK
      exact hinv.chan_lt K cad hg
    · simp only [hk, if_false] at hK
      exact hinv.chan_lt K c hK
  · intro K1 K2 c1 c2 h1 h2 hc
    simp only [GoMap.get_set] at h1 h2
    have e1 : ∃ d1, w.df.data.get K1 = some d1 ∧ d1.notifyChan = c1.notifyChan := by
      by_cases hk : K1 = H
      · subst hk
        simp only [if_true, Option.some.injEq] at h1
        subst h1
        exact ⟨cad, hg, rfl⟩
      · simp only [hk, if_false] at h1
        exact ⟨c1, h1, rfl⟩
    have e2 : ∃ d2, w.df.data.get K2 = some d2 ∧ d2.notifyChan = c2.notifyChan := by
      by_cases hk : K2 = H
      · subst hk
        simp only [if_true, Option.some.injEq] at h2
        subst h2
        exact ⟨cad, hg, rfl⟩
      · simp only [hk, if_false] at h2
        exact ⟨c2, h2, rfl⟩
    obtain ⟨d1, g1, q1⟩ := e1
    obtain ⟨d2, g2, q2⟩ := e2
    exact hinv.chan_inj K1 K2 d1 d2 g1 g2 (by rw [q1, q2, hc])
  · intro K c hK
    simp only [GoMap.get_set]
    simp only [List.mem_append, List.mem_singleton, FetchEvent.call.injEq] at hK
    by_cases hk : K = H
    · subst hk
      simp only [if_true]
      rcases hK with hK | hK
      · obtain ⟨d, g, q⟩ := hinv.call_chan K c hK
        rw [hg] at g
        cases g
        exact ⟨_, rfl, q⟩
      · exact ⟨_, rfl, hK.2.symm⟩
    · simp only [hk, if_false]
      rcases hK with hK | hK
      · exact hinv.call_chan K c hK
      · exact absurd hK.1 hk
  · intro c v s hd
    simp only [List.mem_append, List.mem_singleton] at hd
    rcases hd with hd | hd
    · obtain ⟨K, d, g, q1, q2, q3⟩ := hinv.deliver_data c v s hd
      by_cases hk : K = H
      · subst hk
        rw [hg] at g
        cases g
        rw [hcad.1] at q2
        rw [← q2] at q3
        cases q3
      · exact ⟨K, d, by simp only [GoMap.get_set, hk, if_false]; exact g, q1, q2, q3⟩
    · cases hd
  · rw [hspawns]; exact hinv.spawn_nodup
  · intro K
    rw [hspawns, hsome]
    exact hinv.spawn_iff K
  · rw [hinvokes]; exact hinv.started_nodup
  · intro K hK
    rw [hinvokes] at hK
    rw [hsome]
    exact hinv.started_sub K hK

theorem inv_settled {V : Type} (w : FetcherWorld V) (hinv : FetcherInv w) (H : String)
    (cad : cachedAsyncData V) (hg : w.df.data.get H = some cad)
    (hp : ¬ cad.numPendingNotifications > 0) (s : Sender) :
    FetcherInv ({ w.send cad.notifyChan cad.fetchedData s with
      trace := w.trace ++ [FetchEvent.deliver cad.notifyChan cad.fetchedData s,
        FetchEvent.call H cad.notifyChan] } : FetcherWorld V) := by
  have hcad : cad.fetchedData.isSome = true ∧ H ∉ w.pending ∧
      cad.numPendingNotifications = 0 := by
    rcases hinv.entry H cad hg with h | h
    · omega
    · exact h
  have hcalls : calls (w.trace ++ [FetchEvent.deliver cad.notifyChan cad.fetchedData s,
        FetchEvent.call H cad.notifyChan]) = calls w.trace ++ [H] := by
    simp [calls, List.filterMap_append, List.filterMap_cons]
  have hspawns : spawns (w.trace ++ [FetchEvent.deliver cad.notifyChan cad.fetchedData s,
        FetchEvent.call H cad.notifyChan]) = spawns w.trace := by
    simp [spawns, List.filterMap_append, List.filterMap_cons]
  have hinvokes : invokes (w.trace ++ [FetchEvent.deliver cad.notifyChan cad.fetchedData s,
        FetchEvent.call H cad.notifyChan]) = invokes w.trace := by
    simp [invokes, List.filterMap_append, List.filterMap_cons]
  constructor
  · exact hinv.cap_nonneg
  · intro K c hK
    simp only [FetcherWorld.send] at hK
    simp only [hcalls, FetcherWorld.pending, FetcherWorld.send]
    by_cases hk : K = H
    · subst hk
      rw [hg] at hK
      cases hK
      right
      exact hcad
    · have hc0 : List.count K [H] = 0 := by
        rw [List.count_eq_zero]; simpa using hk
      rw [List.count_append, hc0, Nat.add_zero]
      exact hinv.entry K c hK
  · exact hinv.task_fetcher
  · exact hinv.chan_lt
  · exact hinv.chan_inj
  · intro K c hK
    simp only [List.mem_append, List.mem_cons, List.mem_singleton, FetchEvent.call.injEq,
      List.mem_nil_iff, or_false] at hK
    simp only [FetcherWorld.send]
    rcases hK with hK | hK | hK
    · exact hinv.call_chan K c hK
    · cases hK
    · obtain ⟨rfl, rfl⟩ := hK
      exact ⟨cad, hg, rfl⟩
  · intro c v s2 hd
    simp only [List.mem_append, List.mem_cons, List.mem_singleton, FetchEvent.deliver.injEq,
      List.mem_nil_iff, or_false] at hd
    simp only [FetcherWorld.send]
    rcases hd with hd | hd | hd
    · exact hinv.deliver_data c v s2 hd
    · obtain ⟨rfl, rfl, rfl⟩ := hd
      exact ⟨H, cad, hg, rfl, rfl, hcad.1⟩
    · cases hd
  · rw [hspawns]; exact hinv.spawn_nodup
  · intro K
    rw [hspawns]
    exact hinv.spawn_iff K
  · rw [hinvokes]; exact hinv.started_nodup
  · intro K hK
    rw [hinvokes] at hK
    exact hinv.started_sub K hK

theorem inv_new {V : Type} (w : FetcherWorld V) (hinv : FetcherInv w) (ctx : Context)
    (req : AsyncFetchReq V) (hf : req.Fetcher.isSome = true)
    (hg : w.df.data.get req.Hash = none) :
    FetcherInv ({
      df := { w.df with data := (w.df.data.set req.Hash
        { notifyChan := w.nextChan, fetchedData := none, numPendingNotifications := 1 }) }
      chans := Function.update w.chans w.nextChan { cap := w.df.dataChanCap, queued := [] }
      nextChan := w.nextChan + 1
      background := w.background ++ [(ctx, req)]
      trace := w.trace ++ [FetchEvent.spawn req.Hash, FetchEvent.call req.Hash w.nextChan] } :
      FetcherWorld V) := by
  have hcalls : calls (w.trace ++ [FetchEvent.spawn req.Hash,
      FetchEvent.call req.Hash w.nextChan]) = calls w.trace ++ [req.Hash] := by
    simp [calls, List.filterMap_append, List.filterMap_cons]
  have hspawns : spawns (w.trace ++ [FetchEvent.spawn req.Hash,
      FetchEvent.call req.Hash w.nextChan]) = spawns w.trace ++ [req.Hash] := by
    simp [spawns, List.filterMap_append, List.filterMap_cons]
  have hinvokes : invokes (w.trace ++ [FetchEvent.spawn req.Hash,
      FetchEvent.call req.Hash w.nextChan]) = invokes w.trace := by
    simp [invokes, List.filterMap_append, List.filterMap_cons]
  have hnocall : (calls w.trace).count req.Hash = 0 := by
    rw [List.count_eq_zero]
    intro hm
    simp only [calls, List.mem_filterMap] at hm
    obtain ⟨e, he, hh⟩ := hm
    cases e with
    | call h c =>
      simp only [Option.some.injEq] at hh
      subst hh
      obtain ⟨d, g, _⟩ := hinv.call_chan _ c he
      rw [hg] at g; cases g
    | spawn h => simp at hh
    | invoke h => simp at hh
    | deliver c v s => simp at hh
  have hnotstarted : req.Hash ∉ invokes w.trace ++ w.pending := by
    intro hm
    have := hinv.started_sub _ hm
    rw [hg] at this
    cases this
  have hpend : ∀ K, K ∈ (w.background ++ [(ctx, req)]).map (fun task => task.2.Hash) ↔
      K ∈ w.pending ∨ K = req.Hash := by
    intro K
    simp [FetcherWorld.pending]
  constructor
  · exact hinv.cap_nonneg
  · intro K c hK
    simp only [GoMap.get_set] at hK
    simp only [hcalls, FetcherWorld.pending, hpend]
    by_cases hk : K = req.Hash
    · subst hk
      simp only [if_true, Option.some.injEq] at hK
      subst hK
      left
      refine ⟨rfl, Or.inr rfl, ?_, by simp⟩
      simp only [List.count_append, List.count_singleton_self, hnocall]
      rfl
    · simp only [hk, if_false] at hK
      have hc0 : List.count K [req.Hash] = 0 := by
        rw [List.count_eq_zero]; simpa using hk
      rw [List.count_append, hc0, Nat.add_zero]
      simp only [hk, or_false]
      exact hinv.entry K c hK
  · intro task ht
    simp only [List.mem_append, List.mem_singleton] at ht
    rcases ht with ht | ht
    · exact hinv.task_fetcher task ht
    · subst ht; exact hf
  · intro K c hK
    simp only [GoMap.get_set] at hK
    by_cases hk : K = req.Hash
    · subst hk
      simp only [if_true, Option.some.injEq] at hK
      subst hK
      exact Nat.lt_succ_self _
    · simp only [hk, if_false] at hK
      exact Nat.lt_succ_of_lt (hinv.chan_lt K c hK)
  · intro K1 K2 c1 c2 h1 h2 hc
    simp only [GoMap.get_set] at h1 h2
    by_cases hk1 : K1 = req.Hash
    · by_cases hk2 : K2 = req.Hash
      · rw [hk1, hk2]
      · simp only [hk1, if_true, Option.some.injEq] at h1
        simp only [hk2, if_false] at h2
        have := hinv.chan_lt K2 c2 h2
        rw [← hc, ← h1] at this
        exact absurd this (Nat.lt_irrefl _)
    · by_cases hk2 : K2 = req.Hash
      · simp only [hk2, if_true, Option.some.injEq] at h2
        simp only [hk1, if_false] at h1
        have := hinv.chan_lt K1 c1 h1
        rw [hc, ← h2] at this
        exact absurd this (Nat.lt_irrefl _)
      · simp only [hk1, if_false] at h1
        simp only [hk2, if_false] at h2
        exact hinv.chan_inj K1 K2 c1 c2 h1 h2 hc
  · intro K c hK
    simp only [List.mem_append, List.mem_cons, List.mem_singleton, FetchEvent.call.injEq,
      List.mem_nil_iff, or_false] at hK
    simp only [GoMap.get_set]
    rcases hK with hK | hK | hK
    · obtain ⟨d, g, q⟩ := hinv.call_chan K c hK
      have hk : K ≠ req.Hash := by
        intro hk; rw [hk, hg] at g; cases g
      simp only [hk, if_false]
      exact ⟨d, g, q⟩
    · cases hK
    · obtain ⟨rfl, rfl⟩ := hK
      simp
  · intro c v s hd
    simp only [List.mem_append, List.mem_cons, List.mem_singleton,
      List.mem_nil_iff, or_false] at hd
    rcases hd with hd | hd | hd
    · obtain ⟨K, d, g, q⟩ := hinv.deliver_data c v s hd
      have hk : K ≠ req.Hash := by
        intro hk; rw [hk, hg] at g; cases g
      exact ⟨K, d, by simp only [GoMap.get_set, hk, if_false]; exact g, q⟩
    · cases hd
    · cases hd
  · rw [hspawns]
    refine List.Nodup.append hinv.spawn_nodup (List.nodup_singleton _) ?_
    intro K h1 h2
    rw [List.mem_singleton] at h2
    subst h2
    have := (hinv.spawn_iff _).mp h1
    rw [hg] at this; cases this
  · intro K
    rw [hspawns, List.mem_append, List.mem_singleton, GoMap.get_set, hinv.spawn_iff]
    by_cases hk : K = req.Hash
    · simp [hk]
    · simp [hk]
  · rw [hinvokes]
    simp only [FetcherWorld.pending, List.map_append, List.map_cons, List.map_nil]
    rw [← List.append_assoc]
    refine List.Nodup.append hinv.started_nodup (List.nodup_singleton _) ?_
    intro K h1 h2
    rw [List.mem_singleton] at h2
    subst h2
    exact hnotstarted h1
  · intro K hK
    rw [hinvokes] at hK
    simp only [FetcherWorld.pending, List.map_append, List.map_cons, List.map_nil] at hK
    rw [← List.append_assoc, List.mem_append, List.mem_singleton] at hK
    rw [GoMap.get_set]
    by_cases hk : K = req.Hash
    · simp [hk]
    · simp only [hk, if_false]
      rcases hK with hK | hK
      · exact hinv.started_sub K hK
      · exact absurd hK hk

theorem notify_fields {V : Type} (c : Nat) (res : AsyncFetchData V) (n : Nat) :
    ∀ w : FetcherWorld V,
      (w.notify c res n).df = w.df ∧ (w.notify c res n).nextChan = w.nextChan ∧
      (w.notify c res n).background = w.background ∧
      (w.notify c res n).trace =
        w.trace ++ List.replicate n (FetchEvent.deliver c (some res) Sender.background) := by
  induction n with
  | zero => intro w; simp [FetcherWorld.notify]
  | succ n ih =>
    intro w
    obtain ⟨h1, h2, h3, h4⟩ := ih (w.send c (some res) Sender.background)
    simp only [FetcherWorld.notify]
    refine ⟨h1, h2, h3, ?_⟩
    rw [h4]
    simp [FetcherWorld.send, List.replicate_succ]

theorem backgroundFetch_fields {V : Type} (w : FetcherWorld V) (ctx : Context)
    (req : AsyncFetchReq V) (f : DataFetcherFn V) (cad : cachedAsyncData V)
    (hf : req.Fetcher = some f) (hg : w.df.data.get req.Hash = some cad) :
    ∃ w2, DataFetcherImpl.backgroundFetch w ctx req = .ok w2 ∧
      w2.df = { w.df with data := (w.df.data.set req.Hash
        { notifyChan := cad.notifyChan,
          fetchedData := some { Hash := req.Hash, Result := (f ctx).1, Err := (f ctx).2 },
          numPendingNotifications := 0 }) } ∧
      w2.nextChan = w.nextChan ∧ w2.background = w.background ∧
      w2.trace = w.trace ++ FetchEvent.invoke req.Hash ::
        List.replicate cad.numPendingNotifications.toNat
          (FetchEvent.deliver cad.notifyChan
            (some { Hash := req.Hash, Result := (f ctx).1, Err := (f ctx).2 })
            Sender.background) := by
  simp only [DataFetcherImpl.backgroundFetch, hf, hg]
  refine ⟨_, rfl, ?_⟩
  obtain ⟨h1, h2, h3, h4⟩ := notify_fields cad.notifyChan
    ({ Hash := req.Hash, Result := (f ctx).1, Err := (f ctx).2 } : AsyncFetchData V)
    cad.numPendingNotifications.toNat
    ({ w with trace := w.trace ++ [FetchEvent.invoke req.Hash],
              df := { w.df with data := (w.df.data.set req.Hash
                { notifyChan := cad.notifyChan,
                  fetchedData := some { Hash := req.Hash, Result := (f ctx).1, Err := (f ctx).2 },
                  numPendingNotifications := 0 }) } } : FetcherWorld V)
  refine ⟨h1, h2, h3, ?_⟩
  rw [h4]
  simp

theorem filterMap_replicate_none {α β : Type} (g : α → Option β) (a : α) (n : Nat)
    (h : g a = none) : (List.replicate n a).filterMap g = [] := by
  induction n with
  | zero => rfl
  | succ n ih => simp [List.replicate_succ, List.filterMap_cons, h, ih]

theorem inv_settle {V : Type} (w w2 : FetcherWorld V) (hinv : FetcherInv w) (i : Nat)
    (ctx : Context) (req : AsyncFetchReq V) (cad : cachedAsyncData V)
    (res : AsyncFetchData V) (n : Nat)
    (ht : w.background[i]? = some (ctx, req))
    (hg : w.df.data.get req.Hash = some cad)
    (hdf : w2.df = { w.df with data := (w.df.data.set req.Hash
        { notifyChan := cad.notifyChan, fetchedData := some res,
          numPendingNotifications := 0 }) })
    (hnext : w2.nextChan = w.nextChan)
    (hback : w2.background = w.background.eraseIdx i)
    (htrace : w2.trace = w.trace ++ FetchEvent.invoke req.Hash ::
        List.replicate n (FetchEvent.deliver cad.notifyChan (some res) Sender.background)) :
    FetcherInv w2 := by
  have hperm : w.pending.Perm (req.Hash :: w2.pending) := by
    have := (perm_cons_eraseIdx w.background i (ctx, req) ht).map (fun task => task.2.Hash)
    simpa [FetcherWorld.pending, hback] using this
  have hnd : (invokes w.trace ++ req.Hash :: w2.pending).Nodup :=
    (List.Perm.nodup_iff (List.Perm.append_left _ hperm)).mp hinv.started_nodup
  have hnot : req.Hash ∉ w2.pending := by
    have := List.nodup_middle.mp hnd
    rw [List.nodup_cons] at this
    intro h
    exact this.1 (List.mem_append_right _ h)
  have hsub : ∀ K, K ∈ w2.pending → K ∈ w.pending := by
    intro K hK
    exact hperm.symm.subset (List.mem_cons_of_mem _ hK)
  have hmem : ∀ K, K ∈ w.pending → K ≠ req.Hash → K ∈ w2.pending := by
    intro K hK hne
    rcases List.mem_cons.mp (hperm.subset hK) with h | h
    · exact absurd h hne
    · exact h
  have hcalls : calls w2.trace = calls w.trace := by
    rw [htrace]
    simp only [calls, List.filterMap_append, List.filterMap_cons]
    rw [filterMap_replicate_none _ _ _ rfl]
    simp
  have hspawns : spawns w2.trace = spawns w.trace := by
    rw [htrace]
    simp only [spawns, List.filterMap_append, List.filterMap_cons]
    rw [filterMap_replicate_none _ _ _ rfl]
    simp
  have hinvokes : invokes w2.trace = invokes w.trace ++ [req.Hash] := by
    rw [htrace]
    simp only [invokes, List.filterMap_append, List.filterMap_cons]
    rw [filterMap_replicate_none _ _ _ rfl]
  have hget : ∀ K, w2.df.data.get K =
      if K = req.Hash then some (cachedAsyncData.mk cad.notifyChan (some res) 0)
      else w.df.data.get K := by
    intro K; rw [hdf]; exact GoMap.get_set _ _ _ _
  have hsome : ∀ K, (w2.df.data.get K).isSome = (w.df.data.get K).isSome := by
    intro K
    rw [hget]
    by_cases hk : K = req.Hash
    · simp [hk, hg]
    · simp [hk]
  constructor
  · rw [hdf]; exact hinv.cap_nonneg
  · intro K c hK
    rw [hget] at hK
    rw [hcalls]
    by_cases hk : K = req.Hash
    · subst hk
      simp only [if_true, Option.some.injEq] at hK
      subst hK
      right
      exact ⟨rfl, hnot, rfl⟩
    · simp only [hk, if_false] at hK
      rcases hinv.entry K c hK with h | h
      · left; exact ⟨h.1, hmem K h.2.1 hk, h.2.2⟩
      · right; exact ⟨h.1, fun hm => h.2.1 (hsub K hm), h.2.2⟩
  · intro task hm
    rw [hback] at hm
    exact hinv.task_fetcher task (List.eraseIdx_subset _ _ hm)
  · intro K c hK
    rw [hget] at hK
    rw [hnext]
    by_cases hk : K = req.Hash
    · subst hk
      simp only [if_true, Option.some.injEq] at hK
      subst hK
      exact hinv.chan_lt _ cad hg
    · simp only [hk, if_false] at hK
      exact hinv.chan_lt K c hK
  · intro K1 K2 c1 c2 h1 h2 hc
    rw [hget] at h1 h2
    have e1 : ∃ d1, w.df.data.get K1 = some d1 ∧ d1.notifyChan = c1.notifyChan := by
      by_cases hk : K1 = req.Hash
      · subst hk
        simp only [if_true, Option.some.injEq] at h1
        subst h1
        exact ⟨cad, hg, rfl⟩
      · simp only [hk, if_false] at h1
        exact ⟨c1, h1, rfl⟩
    have e2 : ∃ d2, w.df.data.get K2 = some d2 ∧ d2.notifyChan = c2.notifyChan := by
      by_cases hk : K2 = req.Hash
      · subst hk
        simp only [if_true, Option.some.injEq] at h2
        subst h2
        exact ⟨cad, hg, rfl⟩
      · simp only [hk, if_false] at h2
        exact ⟨c2, h2, rfl⟩
    obtain ⟨d1, g1, q1⟩ := e1
    obtain ⟨d2, g2, q2⟩ := e2
    exact hinv.chan_inj K1 K2 d1 d2 g1 g2 (by rw [q1, q2, hc])
  · intro K c hK
    rw [htrace] at hK
    simp only [List.mem_append, List.mem_cons, List.mem_replicate] at hK
    rcases hK with hK | hK | hK
    · obtain ⟨d, g, q⟩ := hinv.call_chan K c hK
      rw [hget]
      by_cases hk : K = req.Hash
      · subst hk
        rw [hg] at g
        cases g
        exact ⟨cachedAsyncData.mk cad.notifyChan (some res) 0, by simp, q⟩
      · exact ⟨d, by simp only [hk, if_false]; exact g, q⟩
    · cases hK
    · cases hK.2
  · intro c v s hd
    rw [htrace] at hd
    simp only [List.mem_append, List.mem_cons, List.mem_replicate] at hd
    rcases hd with hd | hd | hd
    · obtain ⟨K, d, g, q1, q2, q3⟩ := hinv.deliver_data c v s hd
      by_cases hk : K = req.Hash
      · subst hk
        rw [hg] at g
        cases g
        rcases hinv.entry _ cad hg with h | h
        · rw [h.1] at q2
          rw [← q2] at q3
          cases q3
        · exfalso
          apply h.2.1
          simp only [FetcherWorld.pending, List.mem_map]
          obtain ⟨h1, h2⟩ := List.getElem?_eq_some.mp ht
          exact ⟨(ctx, req), by rw [← h2]; exact List.getElem_mem h1, rfl⟩
      · exact ⟨K, d, by rw [hget]; simp only [hk, if_false]; exact g, q1, q2, q3⟩
    · cases hd
    · obtain ⟨_, hd⟩ := hd
      cases hd
      exact ⟨req.Hash, cachedAsyncData.mk cad.notifyChan (some res) 0,
        by rw [hget]; simp, rfl, rfl, rfl⟩
  · rw [hspawns]; exact hinv.spawn_nodup
  · intro K
    rw [hspawns, hsome]
    exact hinv.spawn_iff K
  · rw [hinvokes, List.append_assoc]
    exact hnd
  · intro K hK
    rw [hinvokes, List.append_assoc] at hK
    rw [hsome]
    apply hinv.started_sub
    rcases List.mem_append.mp hK with h | h
    · exact List.mem_append_left _ h
    · exact List.mem_append_right _ (hperm.symm.subset h)

theorem mem_of_getElem_eq_some {α : Type} {l : List α} {i : Nat} {a : α}
    (h : l[i]? = some a) : a ∈ l := by
  obtain ⟨h1, h2⟩ := List.getElem?_eq_some.mp h
  rw [← h2]; exact List.getElem_mem h1

theorem Fetch_inv {V : Type} (w w2 : FetcherWorld V) (ctx : Context) (req : AsyncFetchReq V)
    (out : Option Nat × GoError) (hinv : FetcherInv w)
    (h : DataFetcherImpl.Fetch w ctx req = .ok (w2, out)) : FetcherInv w2 := by
  cases hf : req.Fetcher with
  | none =>
    simp only [DataFetcherImpl.Fetch, hf, Except.ok.injEq, Prod.mk.injEq] at h
    rw [← h.1]; exact hinv
  | some f =>
    have hf2 : req.Fetcher.isSome = true := by rw [hf]; rfl
    cases hg : w.df.data.get (effectiveReq req).Hash with
    | some cad =>
      by_cases hp : cad.numPendingNotifications > 0
      · rw [Fetch_inflight w ctx req cad hf2 hg hp] at h
        simp only [Except.ok.injEq, Prod.mk.injEq] at h
        rw [← h.1]
        exact inv_inflight w hinv _ cad hg hp
      · obtain ⟨s, hs⟩ := Fetch_settled w ctx req cad hf2 hg hp
        rw [hs] at h
        simp only [Except.ok.injEq, Prod.mk.injEq] at h
        rw [← h.1]
        exact inv_settled w hinv _ cad hg hp s
    | none =>
      rw [Fetch_new w ctx req hf2 hg hinv.cap_nonneg] at h
      simp only [Except.ok.injEq, Prod.mk.injEq] at h
      rw [← h.1]
      exact inv_new w hinv ctx (effectiveReq req)
        (by rw [effectiveReq_fetcher]; exact hf2) hg

theorem step_inv {V : Type} (w w2 : FetcherWorld V) (a : FetchAction V) (hinv : FetcherInv w)
    (h : w.step a = .ok w2) : FetcherInv w2 := by
  cases a with
  | fetch ctx req =>
    simp only [FetcherWorld.step] at h
    cases hF : DataFetcherImpl.Fetch w ctx req with
    | error f => rw [hF] at h; cases h
    | ok out =>
      rw [hF] at h
      simp only [Except.ok.injEq] at h
      obtain ⟨w3, o⟩ := out
      simp only at h
      subst h
      exact Fetch_inv w w3 ctx req o hinv hF
  | settle i =>
    simp only [FetcherWorld.step] at h
    cases ht : w.background[i]? with
    | none => rw [ht] at h; cases h
    | some task =>
      rw [ht] at h
      simp only at h
      obtain ⟨ctx, req⟩ := task
      have hmem : (ctx, req) ∈ w.background := mem_of_getElem_eq_some ht
      obtain ⟨f, hf⟩ := Option.isSome_iff_exists.mp (hinv.task_fetcher _ hmem)
      have hs : (w.df.data.get req.Hash).isSome = true := by
        apply hinv.started_sub
        apply List.mem_append_right
        simp only [FetcherWorld.pending, List.mem_map]
        exact ⟨(ctx, req), hmem, rfl⟩
      obtain ⟨cad, hg⟩ := Option.isSome_iff_exists.mp hs
      obtain ⟨w3, e1, e2, e3, e4, e5⟩ := backgroundFetch_fields
        ({ w with background := w.background.eraseIdx i } : FetcherWorld V) ctx req f cad hf hg
      rw [e1] at h
      simp only [Except.ok.injEq] at h
      subst h
      exact inv_settle w w3 hinv i ctx req cad _ _ ht hg e2 e3 e4 e5
  | recv c =>
    simp only [FetcherWorld.step] at h
    cases hq : (w.chans c).queued with
    | nil => rw [hq] at h; cases h
    | cons v rest =>
      rw [hq] at h
      simp only [Except.ok.injEq] at h
      subst h
      exact ⟨hinv.cap_nonneg, hinv.entry, hinv.task_fetcher, hinv.chan_lt, hinv.chan_inj,
        hinv.call_chan, hinv.deliver_data, hinv.spawn_nodup, hinv.spawn_iff,
        hinv.started_nodup, hinv.started_sub⟩

theorem run_inv {V : Type} (actions : List (FetchAction V)) :
    ∀ (w w2 : FetcherWorld V), FetcherInv w → FetcherWorld.run actions w = .ok w2 →
      FetcherInv w2 := by
  induction actions with
  | nil =>
    intro w w2 hinv h
    simp only [FetcherWorld.run, Except.ok.injEq] at h
    subst h; exact hinv
  | cons a rest ih =>
    intro w w2 hinv h
    simp only [FetcherWorld.run] at h
    cases hs : w.step a with
    | error f => rw [hs] at h; cases h
    | ok w3 =>
      rw [hs] at h
      exact ih w3 w2 (step_inv w w3 a hinv hs) h

theorem Fetch_entry_kept {V : Type} (w w2 : FetcherWorld V) (ctx : Context)
    (req : AsyncFetchReq V) (out : Option Nat × GoError) (hinv : FetcherInv w)
    (h : DataFetcherImpl.Fetch w ctx req = .ok (w2, out)) (H : String)
    (hH : (w.df.data.get H).isSome = true) : (w2.df.data.get H).isSome = true := by
  have hinv2 := Fetch_inv w w2 ctx req out hinv h
  cases hf : req.Fetcher with
  | none =>
    simp only [DataFetcherImpl.Fetch, hf, Except.ok.injEq, Prod.mk.injEq] at h
    rw [← h.1]; exact hH
  | some f =>
    have hf2 : req.Fetcher.isSome = true := by rw [hf]; rfl
    cases hg : w.df.data.get (effectiveReq req).Hash with
    | some cad =>
      by_cases hp : cad.numPendingNotifications > 0
      · rw [Fetch_inflight w ctx req cad hf2 hg hp] at h
        simp only [Except.ok.injEq, Prod.mk.injEq] at h
        rw [← h.1]
        simp only [GoMap.get_set]
        split_ifs
        · rfl
        · exact hH
      · obtain ⟨s, hs⟩ := Fetch_settled w ctx req cad hf2 hg hp
        rw [hs] at h
        simp only [Except.ok.injEq, Prod.mk.injEq] at h
        rw [← h.1]
        exact hH
    | none =>
      rw [Fetch_new w ctx req hf2 hg hinv.cap_nonneg] at h
      simp only [Except.ok.injEq, Prod.mk.injEq] at h
      rw [← h.1]
      simp only [GoMap.get_set]
      split_ifs
      · rfl
      · exact hH

theorem step_entry_kept {V : Type} (w w2 : FetcherWorld V) (a : FetchAction V)
    (hinv : FetcherInv w) (h : w.step a = .ok w2) (H : String)
    (hH : (w.df.data.get H).isSome = true) : (w2.df.data.get H).isSome = true := by
  cases a with
  | fetch ctx req =>
    simp only [FetcherWorld.step] at h
    cases hF : DataFetcherImpl.Fetch w ctx req with
    | error f => rw [hF] at h; cases h
    | ok out =>
      rw [hF] at h
      simp only [Except.ok.injEq] at h
      obtain ⟨w3, o⟩ := out
      simp only at h
      subst h
      exact Fetch_entry_kept w w3 ctx req o hinv hF H hH
  | settle i =>
    simp only [FetcherWorld.step] at h
    cases ht : w.background[i]? with
    | none => rw [ht] at h; cases h
    | some task =>
      rw [ht] at h
      simp only at h
      obtain ⟨ctx, req⟩ := task
      have hmem : (ctx, req) ∈ w.background := mem_of_getElem_eq_some ht
      obtain ⟨f, hf⟩ := Option.isSome_iff_exists.mp (hinv.task_fetcher _ hmem)
      have hs : (w.df.data.get req.Hash).isSome = true := by
        apply hinv.started_sub
        apply List.mem_append_right
        simp only [FetcherWorld.pending, List.mem_map]
        exact ⟨(ctx, req), hmem, rfl⟩
      obtain ⟨cad, hg⟩ := Option.isSome_iff_exists.mp hs
      obtain ⟨w3, e1, e2, e3, e4, e5⟩ := backgroundFetch_fields
        ({ w with background := w.background.eraseIdx i } : FetcherWorld V) ctx req f cad hf hg
      rw [e1] at h
      simp only [Except.ok.injEq] at h
      subst h
      rw [e2]
      simp only [GoMap.get_set]
      split_ifs
      · rfl
      · exact hH
  | recv c =>
    simp only [FetcherWorld.step] at h
    cases hq : (w.chans c).queued with
    | nil => rw [hq] at h; cases h
    | cons v rest =>
      rw [hq] at h
      simp only [Except.ok.injEq] at h
      subst h
      exact hH

/-- C2. In every state a new fetcher reaches through calls of `Fetch`,
background settlements and receives, and for every hash `H`: `backgroundFetch`
was started at most once for `H` and the fetcher function of `H` was called at
most once; a call of `Fetch` for a hash that has a cache entry starts no
`backgroundFetch`; and no action removes a cache entry. -/
theorem Fetch_single_flight {V : Type} (n : Int) (actions : List (FetchAction V))
    (w : FetcherWorld V) (hrun : FetcherWorld.run actions (FetcherWorld.new n) = .ok w)
    (H : String) :
    (spawns w.trace).count H ≤ 1 ∧ (invokes w.trace).count H ≤ 1 ∧
    (∀ ctx req w2 out, DataFetcherImpl.Fetch w ctx req = .ok (w2, out) →
      (w.df.data.get (effectiveReq req).Hash).isSome = true →
      spawns w2.trace = spawns w.trace ∧ w2.background = w.background) ∧
    (∀ a w2, w.step a = .ok w2 → (w.df.data.get H).isSome = true →
      (w2.df.data.get H).isSome = true) := by
  have hinv := run_inv actions _ w (new_inv n) hrun
  refine ⟨List.nodup_iff_count_le_one.mp hinv.spawn_nodup H,
    List.nodup_iff_count_le_one.mp (List.Nodup.of_append_left hinv.started_nodup) H, ?_, ?_⟩
  · intro ctx req w2 out h hs
    obtain ⟨cad, hg⟩ := Option.isSome_iff_exists.mp hs
    cases hf : req.Fetcher with
    | none =>
      simp only [DataFetcherImpl.Fetch, hf, Except.ok.injEq, Prod.mk.injEq] at h
      rw [← h.1]; exact ⟨rfl, rfl⟩
    | some f =>
      have hf2 : req.Fetcher.isSome = true := by rw [hf]; rfl
      by_cases hp : cad.numPendingNotifications > 0
      · rw [Fetch_inflight w ctx req cad hf2 hg hp] at h
        simp only [Except.ok.injEq, Prod.mk.injEq] at h
        rw [← h.1]
        simp [spawns, List.filterMap_append]
      · obtain ⟨s, hs⟩ := Fetch_settled w ctx req cad hf2 hg hp
        rw [hs] at h
        simp only [Except.ok.injEq, Prod.mk.injEq] at h
        rw [← h.1]
        simp [spawns, List.filterMap_append, List.filterMap_cons, FetcherWorld.send]
  · intro a w2 h hH
    exact step_entry_kept w w2 a hinv h H hH

/-- Witness of `Fetch_single_flight`: three calls of `Fetch` for the hash `h`
on a new fetcher; `backgroundFetch` was started once. -/
theorem Fetch_single_flight_witness :
    ∃ w, FetcherWorld.run sampleCalls (FetcherWorld.new 0) = .ok w ∧
      (spawns w.trace).count "h" ≤ 1 ∧ (invokes w.trace).count "h" ≤ 1 ∧
      spawns w.trace = ["h"] := by
  have hs : ((FetcherWorld.run sampleCalls (FetcherWorld.new 0)).toOption.map
      (fun w => spawns w.trace)) = some ["h"] := by decide
  cases hrun : FetcherWorld.run sampleCalls (FetcherWorld.new 0) with
  | error f => rw [hrun] at hs; cases hs
  | ok w =>
    rw [hrun] at hs
    simp only [Except.toOption, Option.map_some', Option.some.injEq] at hs
    exact ⟨w, rfl, (Fetch_single_flight 0 sampleCalls w hrun "h").1,
      (Fetch_single_flight 0 sampleCalls w hrun "h").2.1, hs⟩

/-! ## The remaining claims about the builder -/

theorem NewResponseBuilder_result_eq {V S : Type} [Inhabited V] (storageKey : String)
    (storage : S) (nodesConf : List (NodeConf V)) (t : Int) :
    (NewResponseBuilder storageKey storage nodesConf t).result =
      (firstOccurrences nodesConf).map newSlot := by
  simp only [NewResponseBuilder]
  rw [NewResponseBuilder_fold]
  simp [GoMap.keys, NewResponseBuilder.init]

/-- C19. The builder returned by `NewResponseBuilder` has `numRequired` equal to
the number of Required slots after deduplication, `numReqPending = numRequired`,
`numOptPending` equal to the number of slots minus `numRequired`, and both error
counters zero; the two pending counters add up to the number of slots and
neither is negative. -/
theorem NewResponseBuilder_counters {V S : Type} [Inhabited V] (storageKey : String)
    (storage : S) (nodesConf : List (NodeConf V)) (t : Int) :
    (NewResponseBuilder storageKey storage nodesConf t).result =
      (firstOccurrences nodesConf).map newSlot ∧
    (NewResponseBuilder storageKey storage nodesConf t).numRequired =
      (((NewResponseBuilder storageKey storage nodesConf t).result.countP
        (fun n => n.nodeConf.Required) : Nat) : Int) ∧
    (NewResponseBuilder storageKey storage nodesConf t).numRequired =
      (((firstOccurrences nodesConf).countP (fun n => n.Required) : Nat) : Int) ∧
    (NewResponseBuilder storageKey storage nodesConf t).numReqPending =
      (NewResponseBuilder storageKey storage nodesConf t).numRequired ∧
    (NewResponseBuilder storageKey storage nodesConf t).numOptPending =
      ((NewResponseBuilder storageKey storage nodesConf t).result.length : Int) -
        (NewResponseBuilder storageKey storage nodesConf t).numRequired ∧
    (NewResponseBuilder storageKey storage nodesConf t).numReqErr = 0 ∧
    (NewResponseBuilder storageKey storage nodesConf t).numOptErr = 0 ∧
    (NewResponseBuilder storageKey storage nodesConf t).numReqPending +
      (NewResponseBuilder storageKey storage nodesConf t).numOptPending =
        ((NewResponseBuilder storageKey storage nodesConf t).result.length : Int) ∧
    0 ≤ (NewResponseBuilder storageKey storage nodesConf t).numReqPending ∧
    0 ≤ (NewResponseBuilder storageKey storage nodesConf t).numOptPending := by
  obtain ⟨⟨_, h2, h3, h4, h5⟩, _⟩ := NewResponseBuilder_fresh storageKey storage nodesConf t
  have hres := NewResponseBuilder_result_eq storageKey storage nodesConf t
  have hpend : (NewResponseBuilder storageKey storage nodesConf t).numReqPending =
      (NewResponseBuilder storageKey storage nodesConf t).numRequired := rfl
  have hopt : (NewResponseBuilder storageKey storage nodesConf t).numOptPending =
      ((NewResponseBuilder storageKey storage nodesConf t).result.length : Int) -
        (NewResponseBuilder storageKey storage nodesConf t).numRequired := rfl
  have hreq : (NewResponseBuilder storageKey storage nodesConf t).numRequired =
      (((NewResponseBuilder storageKey storage nodesConf t).result.countP
        (fun n => n.nodeConf.Required) : Nat) : Int) := by rw [← hpend]; exact h2
  have hle := List.countP_le_length (fun n : NodeBuilderResult V => n.nodeConf.Required)
    (l := (NewResponseBuilder storageKey storage nodesConf t).result)
  refine ⟨hres, hreq, ?_, hpend, hopt, h4, h5, ?_, ?_, ?_⟩
  · rw [hreq, hres, List.countP_map]
    rfl
  · rw [hopt, hpend]; omega
  · rw [hpend, hreq]; omega
  · rw [hopt, hreq]; omega

/-- C15. After a call of `Build` at a time that is not the zero time, a second
call of `Build`, at any time and with any channels, starts no orchestrator and
returns the builder as the first call left it: same `buildStartTime`, same
channel references, same everything. -/
theorem Build_idempotent {V S : Type} (rb : ResponseBuilder V S) (now1 now2 : Int)
    (rr1 fr1 rr2 fr2 : Option Nat) (hnow : now1 ≠ 0) :
    Build now2 rr2 fr2 (Build now1 rr1 fr1 rb).1 = ((Build now1 rr1 fr1 rb).1, false) := by
  have h : (Build now1 rr1 fr1 rb).1.buildStartTime ≠ 0 := by
    unfold Build
    split
    · assumption
    · exact hnow
  generalize (Build now1 rr1 fr1 rb).1 = rb1 at h
  unfold Build
  rw [if_pos h]

/-- Witness of `Build_idempotent`: a second call on a started builder. -/
theorem Build_idempotent_witness :
    (5 : Int) ≠ 0 ∧
    Build 9 (some 7) none
        (Build 5 (some 0) (some 1) (NewResponseBuilder "k" () sampleNodes 800)).1 =
      ((Build 5 (some 0) (some 1) (NewResponseBuilder "k" () sampleNodes 800)).1, false) ∧
    (Build 5 (some 0) (some 1) (NewResponseBuilder "k" () sampleNodes 800)).2 = true :=
  ⟨by decide,
   Build_idempotent (NewResponseBuilder "k" () sampleNodes 800) 5 9 (some 0) (some 1)
     (some 7) none (by decide),
   rfl⟩

theorem fromStorage_nil {V S : Type} (kv : KeyValStorage S) (cd : Codec V) (ctx : Context)
    (rb : ResponseBuilder V S) (h : rb.result = []) : fromStorage kv cd ctx rb = rb := by
  unfold fromStorage
  split
  · rfl
  · split
    · rfl
    · split
      · rfl
      · rw [h]; rfl

theorem build_eq {V S : Type} (kv : KeyValStorage S) (cd : Codec V) (ctx : Context)
    (sched : List GatherEvent) (rb : ResponseBuilder V S) (chans : Nat → BoolChan) :
    build kv cd ctx sched rb chans =
      if (fromStorage kv cd ctx rb).numReqPending = 0 ∧
          (fromStorage kv cd ctx rb).numOptPending = 0 then
        .ok ((build.start kv cd ctx rb chans).signalFull true)
      else if (fromStorage kv cd ctx rb).numReqPending +
          (fromStorage kv cd ctx rb).numOptPending < 0 then
        .error Fault.panic
      else
        match gather (fetchCtxOf ctx (fromStorage kv cd ctx rb)) sched
            (build.fanOut (build.start kv cd ctx rb chans)) with
        | .error f => .error f
        | .ok r => .ok (build.finish kv cd ctx r) := by
  rfl

theorem gatherStep_signals {V S : Type} (fetchCtx : Context) (r r2 : Run V S)
    (ev : GatherEvent) (h : gatherStep fetchCtx r ev = .ok r2) :
    fullSignals r2.trace = fullSignals r.trace ∧ launches r2.trace = launches r.trace ∧
      r2.rb.storage = r.rb.storage ∧ r2.rb.storageKey = r.rb.storageKey := by
  cases ev with
  | ctxDone =>
    simp only [gatherStep, Except.ok.injEq] at h
    subst h
    exact ⟨rfl, rfl, rfl, rfl⟩
  | finished idx =>
    simp only [gatherStep] at h
    split_ifs at h with hi
    split at h
    · cases h
    · rename_i n hn
      simp only [Except.ok.injEq] at h
      subst h
      obtain ⟨_, _, _, f4, f5, f6, f7⟩ := gatherFinished_fields
        (Run.mk (buildNode fetchCtx r.rb idx) r.chans r.trace r.finishedCap
          (r.running.erase idx) r.cancelled) n
      refine ⟨f6, f7, ?_, ?_⟩
      · rw [f4]
        simp only [buildNode]
        split <;> rfl
      · rw [f5]
        simp only [buildNode]
        split <;> rfl

theorem gather_signals {V S : Type} (fetchCtx : Context) (sched : List GatherEvent) :
    ∀ r r2 : Run V S, gather fetchCtx sched r = .ok r2 →
      fullSignals r2.trace = fullSignals r.trace ∧ launches r2.trace = launches r.trace ∧
        r2.rb.storage = r.rb.storage ∧ r2.rb.storageKey = r.rb.storageKey := by
  induction sched with
  | nil =>
    intro r r2 h
    simp only [gather] at h
    split_ifs at h
    simp only [Except.ok.injEq] at h
    subst h
    exact ⟨rfl, rfl, rfl, rfl⟩
  | cons ev rest ih =>
    intro r r2 h
    simp only [gather] at h
    split_ifs at h
    · cases hs : gatherStep fetchCtx r ev with
      | error f => rw [hs] at h; cases h
      | ok r1 =>
        rw [hs] at h
        obtain ⟨a1, a2, a3, a4⟩ := gatherStep_signals fetchCtx r r1 ev hs
        obtain ⟨b1, b2, b3, b4⟩ := ih r1 r2 h
        exact ⟨b1.trans a1, b2.trans a2, b3.trans a3, b4.trans a4⟩
    · simp only [Except.ok.injEq] at h
      subst h
      exact ⟨rfl, rfl, rfl, rfl⟩

/-- C16. When the gather loop of `build` exits cancelled with a pending counter
that is not zero, `build` still runs `toStorage` on the builder as the loop left
it and returns; after the loop it sends nothing on fullReady (which got nothing
in the whole run) and nothing on requiredReady, and it leaves the channels as
the loop left them. -/
theorem build_cancelled {V S : Type} (kv : KeyValStorage S) (cd : Codec V) (ctx : Context)
    (sched : List GatherEvent) (rb : ResponseBuilder V S) (chans : Nat → BoolChan)
    (r : Run V S)
    (hne : ¬ ((fromStorage kv cd ctx rb).numReqPending = 0 ∧
      (fromStorage kv cd ctx rb).numOptPending = 0))
    (hnn : ¬ (fromStorage kv cd ctx rb).numReqPending +
      (fromStorage kv cd ctx rb).numOptPending < 0)
    (hg : gather (fetchCtxOf ctx (fromStorage kv cd ctx rb)) sched
      (build.fanOut (build.start kv cd ctx rb chans)) = .ok r)
    (hc : r.cancelled = true)
    (hp : ¬ (r.rb.numReqPending = 0 ∧ r.rb.numOptPending = 0)) :
    ∃ r2, build kv cd ctx sched rb chans = .ok r2 ∧
      r2.rb = (toStorage kv cd ctx r.rb).1 ∧
      r2.trace = r.trace ++ (toStorage kv cd ctx r.rb).2 ∧
      r2.chans = r.chans ∧ r2.cancelled = true ∧
      fullSignals r2.trace = [] ∧
      requiredSignals r2.trace = requiredSignals r.trace := by
  obtain ⟨t1, t2, t3, t4, t5, t6, t7, t8⟩ := toStorage_fields kv cd ctx r.rb
  have hp2 : ¬ ((toStorage kv cd ctx r.rb).1.numReqPending = 0 ∧
      (toStorage kv cd ctx r.rb).1.numOptPending = 0) := by rw [t2, t3]; exact hp
  have hfin : build.finish kv cd ctx r =
      { r with rb := (toStorage kv cd ctx r.rb).1,
               trace := r.trace ++ (toStorage kv cd ctx r.rb).2 } := by
    simp only [build.finish, hp2, if_false]
  obtain ⟨g1, _, _, _⟩ := gather_signals _ sched _ r hg
  have hstart : fullSignals (build.fanOut (build.start kv cd ctx rb chans)).trace = [] := by
    have hl := (signals_map_launch
      (List.range (build.start kv cd ctx rb chans).rb.result.length)).2.1
    simp only [build.fanOut, fullSignals, List.filterMap_append] at hl ⊢
    rw [hl]
    simp only [build.start]
    split_ifs <;> simp [Run.signalRequired]
  refine ⟨build.finish kv cd ctx r, ?_, ?_, ?_, ?_, ?_, ?_, ?_⟩
  · rw [build_eq, if_neg hne, if_neg hnn, hg]
  · rw [hfin]
  · rw [hfin]
  · rw [hfin]
  · rw [hfin]; exact hc
  · rw [hfin]
    simp only [fullSignals, List.filterMap_append] at t7 g1 hstart ⊢
    rw [t7, g1, hstart]
    rfl
  · rw [hfin]
    simp only [requiredSignals, List.filterMap_append] at t6 ⊢
    rw [t6, List.append_nil]

/-- Witness of `build_cancelled`: three nodes over the no-op storage; the
failing optional node completes, then the caller's context is cancelled with
both required nodes pending. The run ends with the storage call and without a
fullReady signal. -/
theorem build_cancelled_witness :
    ∃ r2, build NopKeyValStorage natCodec ⟨none⟩
        [GatherEvent.finished 2, GatherEvent.ctxDone]
        (started 5 (some 0) (some 1) "k" () sampleNodes 800) sampleChans = .ok r2 ∧
      r2.cancelled = true ∧ fullSignals r2.trace = [] ∧
      r2.trace = [Event.launch 0, Event.launch 1, Event.launch 2,
        Event.storageSet "k" []] := by
  have hs : (gather (fetchCtxOf ⟨none⟩ (fromStorage NopKeyValStorage natCodec ⟨none⟩
        (started 5 (some 0) (some 1) "k" () sampleNodes 800)))
      [GatherEvent.finished 2, GatherEvent.ctxDone]
      (build.fanOut (build.start NopKeyValStorage natCodec ⟨none⟩
        (started 5 (some 0) (some 1) "k" () sampleNodes 800) sampleChans))).toOption.map
      (fun r => (r.cancelled, r.rb.numReqPending, r.rb.numOptPending, r.trace,
        (toStorage NopKeyValStorage natCodec ⟨none⟩ r.rb).2)) =
      some (true, 2, 0, [Event.launch 0, Event.launch 1, Event.launch 2],
        [Event.storageSet "k" []]) := by decide
  cases hg : gather (fetchCtxOf ⟨none⟩ (fromStorage NopKeyValStorage natCodec ⟨none⟩
        (started 5 (some 0) (some 1) "k" () sampleNodes 800)))
      [GatherEvent.finished 2, GatherEvent.ctxDone]
      (build.fanOut (build.start NopKeyValStorage natCodec ⟨none⟩
        (started 5 (some 0) (some 1) "k" () sampleNodes 800) sampleChans)) with
  | error f => rw [hg] at hs; cases hs
  | ok r =>
    rw [hg] at hs
    simp only [Except.toOption, Option.map_some', Option.some.injEq, Prod.mk.injEq] at hs
    obtain ⟨h1, h2, h3, h4, h5⟩ := hs
    obtain ⟨r2, e1, _, e3, _, e5, e6, _⟩ := build_cancelled NopKeyValStorage natCodec ⟨none⟩
      [GatherEvent.finished 2, GatherEvent.ctxDone]
      (started 5 (some 0) (some 1) "k" () sampleNodes 800) sampleChans r
      (by decide) (by decide) hg h1 (by rw [h2]; omega)
    exact ⟨r2, e1, e5, e6, by rw [e3, h4, h5]; rfl⟩

/-- C17, on the code. The storage holds the two required static nodes `a` and
`b`; a third node `c` is optional. After the pre-load the pending counters add
up to one, so `finishedChan` is made with capacity one, and three builders are
launched. The gather loop exits after the first completion; the other two
builders are never received, and only one of their sends fits the buffer. -/
theorem build_fanOut_exceeds_capacity :
    (build InMemStorage natCodec ⟨none⟩ [GatherEvent.finished 0]
        (started 5 (some 0) (some 1) "k" preloadStorage2 preloadNodes3 800)
        sampleChans).toOption.map
          (fun r => (r.finishedCap, launches r.trace, r.running, r.rb.numReqPending,
            r.rb.numOptPending)) =
      some (1, [0, 1, 2], [1, 2], -1, 1) ∧
    natCodec.Unmarshal [1, 97, 7, 1, 98, 8] = .ok [("a", 7), ("b", 8)] :=
  ⟨by decide, rfl⟩

/-! ## The remaining claims about the data fetcher -/

/-- What one action does to the cache entry of a hash: nothing, one more
pending notification on an entry in flight, a new entry in flight, or the
settlement of an entry in flight by its `backgroundFetch` goroutine. -/
theorem step_data {V : Type} (w w2 : FetcherWorld V) (a : FetchAction V)
    (hinv : FetcherInv w) (h : w.step a = .ok w2) (H : String) :
    w2.df.data.get H = w.df.data.get H ∨
    (∃ cad, w.df.data.get H = some cad ∧ cad.fetchedData = none ∧
      w2.df.data.get H = some (cachedAsyncData.mk cad.notifyChan cad.fetchedData
        (cad.numPendingNotifications + 1))) ∨
    (w.df.data.get H = none ∧
      w2.df.data.get H = some (cachedAsyncData.mk w.nextChan none 1)) ∨
    (∃ i ctx req f cad, a = FetchAction.settle i ∧ w.background[i]? = some (ctx, req) ∧
      req.Hash = H ∧ req.Fetcher = some f ∧ w.df.data.get H = some cad ∧
      cad.fetchedData = none ∧
      w2.df.data.get H = some (cachedAsyncData.mk cad.notifyChan
        (some (AsyncFetchData.mk H (f ctx).1 (f ctx).2)) 0)) := by
  cases a with
  | fetch ctx req =>
    simp only [FetcherWorld.step] at h
    cases hF : DataFetcherImpl.Fetch w ctx req with
    | error f => rw [hF] at h; cases h
    | ok out =>
      rw [hF] at h
      simp only [Except.ok.injEq] at h
      obtain ⟨w3, o⟩ := out
      simp only at h
      subst h
      cases hf : req.Fetcher with
      | none =>
        simp only [DataFetcherImpl.Fetch, hf, Except.ok.injEq, Prod.mk.injEq] at hF
        rw [← hF.1]; exact Or.inl rfl
      | some f =>
        have hf2 : req.Fetcher.isSome = true := by rw [hf]; rfl
        cases hg : w.df.data.get (effectiveReq req).Hash with
        | some cad =>
          by_cases hp : cad.numPendingNotifications > 0
          · rw [Fetch_inflight w ctx req cad hf2 hg hp] at hF
            simp only [Except.ok.injEq, Prod.mk.injEq] at hF
            rw [← hF.1]
            simp only [GoMap.get_set]
            by_cases hk : H = (effectiveReq req).Hash
            · right; left
              subst hk
              have hnone : cad.fetchedData = none := by
                rcases hinv.entry _ cad hg with e | e
                · exact e.1
                · omega
              exact ⟨cad, hg, hnone, by simp⟩
            · left; simp [hk]
          · obtain ⟨s, hs⟩ := Fetch_settled w ctx req cad hf2 hg hp
            rw [hs] at hF
            simp only [Except.ok.injEq, Prod.mk.injEq] at hF
            rw [← hF.1]
            exact Or.inl rfl
        | none =>
          rw [Fetch_new w ctx req hf2 hg hinv.cap_nonneg] at hF
          simp only [Except.ok.injEq, Prod.mk.injEq] at hF
          rw [← hF.1]
          simp only [GoMap.get_set]
          by_cases hk : H = (effectiveReq req).Hash
          · right; right; left
            subst hk
            exact ⟨hg, by simp⟩
          · left; simp [hk]
  | settle i =>
    simp only [FetcherWorld.step] at h
    cases ht : w.background[i]? with
    | none => rw [ht] at h; cases h
    | some task =>
      rw [ht] at h
      simp only at h
      obtain ⟨ctx, req⟩ := task
      have hmem : (ctx, req) ∈ w.background := mem_of_getElem_eq_some ht
      obtain ⟨f, hf⟩ := Option.isSome_iff_exists.mp (hinv.task_fetcher _ hmem)
      have hpend : req.Hash ∈ w.pending := by
        simp only [FetcherWorld.pending, List.mem_map]
        exact ⟨(ctx, req), hmem, rfl⟩
      have hs : (w.df.data.get req.Hash).isSome = true :=
        hinv.started_sub _ (List.mem_append_right _ hpend)
      obtain ⟨cad, hg⟩ := Option.isSome_iff_exists.mp hs
      have hnone : cad.fetchedData = none := by
        rcases hinv.entry _ cad hg with e | e
        · exact e.1
        · exact absurd hpend e.2.1
      obtain ⟨w3, e1, e2, e3, e4, e5⟩ := backgroundFetch_fields
        ({ w with background := w.background.eraseIdx i } : FetcherWorld V) ctx req f cad hf hg
      rw [e1] at h
      simp only [Except.ok.injEq] at h
      subst h
      rw [e2]
      simp only [GoMap.get_set]
      by_cases hk : H = req.Hash
      · right; right; right
        subst hk
        exact ⟨i, ctx, req, f, cad, rfl, ht, rfl, hf, hg, hnone, by simp⟩
      · left; simp [hk]
  | recv c =>
    simp only [FetcherWorld.step] at h
    cases hq : (w.chans c).queued with
    | nil => rw [hq] at h; cases h
    | cons v rest =>
      rw [hq] at h
      simp only [Except.ok.injEq] at h
      subst h
      exact Or.inl rfl

/-- C18. In every state a new fetcher reaches through calls of `Fetch`,
background settlements and receives, every cache entry is either in flight
(`fetchedData` nil, `numPendingNotifications >= 1`) or settled (`fetchedData`
not nil, `numPendingNotifications = 0`), never both; an entry is made in flight,
an action takes an entry in flight to in flight or to settled, and a settled
entry stays settled with the same data under every action. -/
theorem cache_entry_states {V : Type} (n : Int) (actions : List (FetchAction V))
    (w : FetcherWorld V) (hrun : FetcherWorld.run actions (FetcherWorld.new n) = .ok w)
    (H : String) :
    (∀ cad, w.df.data.get H = some cad →
      ((cad.fetchedData = none ∧ 1 ≤ cad.numPendingNotifications) ∨
        (cad.fetchedData.isSome = true ∧ cad.numPendingNotifications = 0)) ∧
      ¬ ((cad.fetchedData = none ∧ 1 ≤ cad.numPendingNotifications) ∧
        (cad.fetchedData.isSome = true ∧ cad.numPendingNotifications = 0))) ∧
    (∀ a w2 cad d, w.step a = .ok w2 → w.df.data.get H = some cad →
      cad.fetchedData = some d →
      ∃ cad2, w2.df.data.get H = some cad2 ∧ cad2.fetchedData = some d ∧
        cad2.numPendingNotifications = 0 ∧ cad2.notifyChan = cad.notifyChan) ∧
    (∀ a w2 cad2, w.step a = .ok w2 → w.df.data.get H = none →
      w2.df.data.get H = some cad2 →
      cad2.fetchedData = none ∧ cad2.numPendingNotifications = 1) := by
  have hinv := run_inv actions _ w (new_inv n) hrun
  refine ⟨?_, ?_, ?_⟩
  · intro cad hg
    constructor
    · rcases hinv.entry H cad hg with e | e
      · exact Or.inl ⟨e.1, e.2.2.2⟩
      · exact Or.inr ⟨e.1, e.2.2⟩
    · rintro ⟨⟨h1, _⟩, ⟨h2, _⟩⟩
      rw [h1] at h2
      cases h2
  · intro a w2 cad d hstep hg hd
    have hzero : cad.numPendingNotifications = 0 := by
      rcases hinv.entry H cad hg with e | e
      · rw [e.1] at hd; cases hd
      · exact e.2.2
    rcases step_data w w2 a hinv hstep H with e | ⟨c, e1, e2, _⟩ | ⟨e1, _⟩ |
      ⟨i, ctx, req, f, c, _, _, _, _, e1, e2, _⟩
    · exact ⟨cad, by rw [e, hg], hd, hzero, rfl⟩
    · rw [hg] at e1
      cases e1
      rw [e2] at hd; cases hd
    · rw [hg] at e1; cases e1
    · rw [hg] at e1
      cases e1
      rw [e2] at hd; cases hd
  · intro a w2 cad2 hstep hnone hg2
    rcases step_data w w2 a hinv hstep H with e | ⟨c, e1, _, _⟩ | ⟨_, e2⟩ |
      ⟨i, ctx, req, f, c, _, _, _, _, e1, _, _⟩
    · rw [e, hnone] at hg2; cases hg2
    · rw [hnone] at e1; cases e1
    · rw [e2] at hg2
      cases hg2
      exact ⟨rfl, rfl⟩
    · rw [hnone] at e1; cases e1

/-- Witness of `cache_entry_states`: after two calls for the hash `h` and the
settlement, the entry of `h` is settled with no pending notification. -/
theorem cache_entry_states_witness :
    ∃ w cad, FetcherWorld.run sampleSettled (FetcherWorld.new 0) = .ok w ∧
      w.df.data.get "h" = some cad ∧
      ((cad.fetchedData = none ∧ 1 ≤ cad.numPendingNotifications) ∨
        (cad.fetchedData.isSome = true ∧ cad.numPendingNotifications = 0)) ∧
      cad.numPendingNotifications = 0 := by
  have hs : ((FetcherWorld.run sampleSettled (FetcherWorld.new 0)).toOption.map
      (fun w => (w.df.data.get "h").map (fun c => c.numPendingNotifications))) =
      some (some 0) := by rfl
  cases hrun : FetcherWorld.run sampleSettled (FetcherWorld.new 0) with
  | error f => rw [hrun] at hs; cases hs
  | ok w =>
    rw [hrun] at hs
    simp only [Except.toOption, Option.map_some', Option.some.injEq] at hs
    cases hg : w.df.data.get "h" with
    | none => rw [hg] at hs; cases hs
    | some cad =>
      rw [hg] at hs
      simp only [Option.map_some', Option.some.injEq] at hs
      exact ⟨w, cad, rfl, hg,
        ((cache_entry_states 0 sampleSettled w hrun "h").1 cad hg).1, hs⟩

/-- C12. In every state a new fetcher reaches, `Fetch` returns, and it returns
an error iff the fetcher function of the request is nil. With a nil fetcher
function it returns no channel and leaves everything as it was: cache map,
started goroutines, events. With a fetcher function that is not nil it returns a
channel and a nil error, whatever that function returns when it runs. -/
theorem Fetch_error_iff {V : Type} (n : Int) (actions : List (FetchAction V))
    (w : FetcherWorld V) (hrun : FetcherWorld.run actions (FetcherWorld.new n) = .ok w)
    (ctx : Context) (req : AsyncFetchReq V) :
    ∃ w2 ch err, DataFetcherImpl.Fetch w ctx req = .ok (w2, ch, err) ∧
      (err.isSome = true ↔ req.Fetcher = none) ∧
      (req.Fetcher = none → ch = none ∧ w2 = w) ∧
      (∀ f, req.Fetcher = some f → ch.isSome = true ∧ err = none) := by
  have hinv := run_inv actions _ w (new_inv n) hrun
  cases hf : req.Fetcher with
  | none =>
    refine ⟨w, none, some "null datafetcher", ?_, ?_, ?_, ?_⟩
    · simp only [DataFetcherImpl.Fetch, hf]
    · simp
    · intro _; exact ⟨rfl, rfl⟩
    · intro f h; cases h
  | some f =>
    have hf2 : req.Fetcher.isSome = true := by rw [hf]; rfl
    cases hg : w.df.data.get (effectiveReq req).Hash with
    | some cad =>
      by_cases hp : cad.numPendingNotifications > 0
      · refine ⟨_, _, _, Fetch_inflight w ctx req cad hf2 hg hp, ?_, ?_, ?_⟩
        · simp
        · intro h; cases h
        · intro _ _; exact ⟨rfl, rfl⟩
      · obtain ⟨s, hs⟩ := Fetch_settled w ctx req cad hf2 hg hp
        refine ⟨_, _, _, hs, ?_, ?_, ?_⟩
        · simp
        · intro h; cases h
        · intro _ _; exact ⟨rfl, rfl⟩
    | none =>
      refine ⟨_, _, _, Fetch_new w ctx req hf2 hg hinv.cap_nonneg, ?_, ?_, ?_⟩
      · simp
      · intro h; cases h
      · intro _ _; exact ⟨rfl, rfl⟩

/-- Witness of `Fetch_error_iff`: on the fetcher after three calls, a request
with a nil fetcher function gets an error, no channel, and nothing changes; a
request whose fetcher function fails gets a channel and no error. -/
theorem Fetch_error_iff_witness :
    ∃ w, FetcherWorld.run sampleCalls (FetcherWorld.new 0) = .ok w ∧
      (∃ err, DataFetcherImpl.Fetch w ⟨none⟩ nilReq = .ok (w, none, some err)) ∧
      (∃ w2 ch, DataFetcherImpl.Fetch w ⟨none⟩ failingReq = .ok (w2, some ch, none)) := by
  have hs : (FetcherWorld.run sampleCalls (FetcherWorld.new 0)).toOption.isSome = true := by
    rfl
  cases hrun : FetcherWorld.run sampleCalls (FetcherWorld.new 0) with
  | error f => rw [hrun] at hs; cases hs
  | ok w =>
    refine ⟨w, rfl, ?_, ?_⟩
    · obtain ⟨w2, ch, err, h1, h2, h3, _⟩ :=
        Fetch_error_iff 0 sampleCalls w hrun ⟨none⟩ nilReq
      obtain ⟨hch, hw⟩ := h3 rfl
      obtain ⟨e, he⟩ := Option.isSome_iff_exists.mp (h2.mpr rfl)
      exact ⟨e, by rw [h1, hch, hw, he]⟩
    · obtain ⟨w2, ch, err, h1, _, _, h4⟩ :=
        Fetch_error_iff 0 sampleCalls w hrun ⟨none⟩ failingReq
      obtain ⟨hch, herr⟩ := h4 _ rfl
      obtain ⟨c, hc⟩ := Option.isSome_iff_exists.mp hch
      exact ⟨w2, c, by rw [h1, hc, herr]⟩

theorem Fetch_invokes {V : Type} (w w2 : FetcherWorld V) (ctx : Context)
    (req : AsyncFetchReq V) (out : Option Nat × GoError) (hinv : FetcherInv w)
    (h : DataFetcherImpl.Fetch w ctx req = .ok (w2, out)) :
    invokes w2.trace = invokes w.trace ∧
    (∀ e, e ∈ w.trace → e ∈ w2.trace) ∧
    (∀ f, req.Fetcher = some f →
      ∃ c, out = (some c, none) ∧ FetchEvent.call (effectiveReq req).Hash c ∈ w2.trace) := by
  cases hf : req.Fetcher with
  | none =>
    simp only [DataFetcherImpl.Fetch, hf, Except.ok.injEq, Prod.mk.injEq] at h
    rw [← h.1]
    exact ⟨rfl, fun e he => he, fun f hf2 => by cases hf2⟩
  | some f =>
    have hf2 : req.Fetcher.isSome = true := by rw [hf]; rfl
    cases hg : w.df.data.get (effectiveReq req).Hash with
    | some cad =>
      by_cases hp : cad.numPendingNotifications > 0
      · rw [Fetch_inflight w ctx req cad hf2 hg hp] at h
        simp only [Except.ok.injEq, Prod.mk.injEq] at h
        rw [← h.1, ← h.2]
        refine ⟨by simp [invokes, List.filterMap_append], ?_, ?_⟩
        · intro e he; exact List.mem_append_left _ he
        · intro _ _; exact ⟨cad.notifyChan, rfl, by simp⟩
      · obtain ⟨s, hs⟩ := Fetch_settled w ctx req cad hf2 hg hp
        rw [hs] at h
        simp only [Except.ok.injEq, Prod.mk.injEq] at h
        rw [← h.1, ← h.2]
        refine ⟨by simp [invokes, List.filterMap_append, List.filterMap_cons], ?_, ?_⟩
        · intro e he; exact List.mem_append_left _ he
        · intro _ _; exact ⟨cad.notifyChan, rfl, by simp⟩
    | none =>
      rw [Fetch_new w ctx req hf2 hg hinv.cap_nonneg] at h
      simp only [Except.ok.injEq, Prod.mk.injEq] at h
      rw [← h.1, ← h.2]
      refine ⟨by simp [invokes, List.filterMap_append, List.filterMap_cons], ?_, ?_⟩
      · intro e he; exact List.mem_append_left _ he
      · intro _ _; exact ⟨w.nextChan, rfl, by simp⟩

theorem step_invokes {V : Type} (w w2 : FetcherWorld V) (a : FetchAction V)
    (hinv : FetcherInv w) (h : w.step a = .ok w2) :
    invokes w2.trace = invokes w.trace ++
      (match a with
        | FetchAction.settle i => (w.execution i).toList
        | _ => []).map (fun d : AsyncFetchData V => d.Hash) ∧
    (∀ e, e ∈ w.trace → e ∈ w2.trace) := by
  cases a with
  | fetch ctx req =>
    simp only [FetcherWorld.step] at h
    cases hF : DataFetcherImpl.Fetch w ctx req with
    | error f => rw [hF] at h; cases h
    | ok out =>
      rw [hF] at h
      simp only [Except.ok.injEq] at h
      obtain ⟨w3, o⟩ := out
      simp only at h
      subst h
      obtain ⟨h1, h2, _⟩ := Fetch_invokes w w3 ctx req o hinv hF
      exact ⟨by simp [h1], h2⟩
  | settle i =>
    simp only [FetcherWorld.step] at h
    cases ht : w.background[i]? with
    | none => rw [ht] at h; cases h
    | some task =>
      rw [ht] at h
      simp only at h
      obtain ⟨ctx, req⟩ := task
      have hmem : (ctx, req) ∈ w.background := mem_of_getElem_eq_some ht
      obtain ⟨f, hf⟩ := Option.isSome_iff_exists.mp (hinv.task_fetcher _ hmem)
      have hs : (w.df.data.get req.Hash).isSome = true := by
        apply hinv.started_sub
        apply List.mem_append_right
        simp only [FetcherWorld.pending, List.mem_map]
        exact ⟨(ctx, req), hmem, rfl⟩
      obtain ⟨cad, hg⟩ := Option.isSome_iff_exists.mp hs
      obtain ⟨w3, e1, e2, e3, e4, e5⟩ := backgroundFetch_fields
        ({ w with background := w.background.eraseIdx i } : FetcherWorld V) ctx req f cad hf hg
      rw [e1] at h
      simp only [Except.ok.injEq] at h
      subst h
      constructor
      · rw [e5]
        simp only [invokes, List.filterMap_append, List.filterMap_cons]
        rw [filterMap_replicate_none _ _ _ rfl]
        have hf3 : req.Fetcher = some f := hf
        simp [FetcherWorld.execution, ht, hf3]
      · intro e he
        rw [e5]
        exact List.mem_append_left _ he
  | recv c =>
    simp only [FetcherWorld.step] at h
    cases hq : (w.chans c).queued with
    | nil => rw [hq] at h; cases h
    | cons v rest =>
      rw [hq] at h
      simp only [Except.ok.injEq] at h
      subst h
      exact ⟨by simp, fun e he => he⟩

theorem run_executions {V : Type} (actions : List (FetchAction V)) :
    ∀ (w0 w : FetcherWorld V), FetcherInv w0 → FetcherWorld.run actions w0 = .ok w →
      invokes w.trace = invokes w0.trace ++ (executions actions w0).map (fun d => d.Hash) ∧
      (∀ e, e ∈ w0.trace → e ∈ w.trace) ∧
      (∀ H cad d, w.df.data.get H = some cad → cad.fetchedData = some d →
        (d ∈ executions actions w0 ∧ d.Hash = H) ∨
        (∃ cad0, w0.df.data.get H = some cad0 ∧ cad0.fetchedData = some d)) := by
  induction actions with
  | nil =>
    intro w0 w hinv h
    simp only [FetcherWorld.run, Except.ok.injEq] at h
    subst h
    exact ⟨by simp [executions], fun e he => he, fun H cad d hg hd => Or.inr ⟨cad, hg, hd⟩⟩
  | cons a rest ih =>
    intro w0 w hinv h
    simp only [FetcherWorld.run] at h
    cases hs : w0.step a with
    | error f => rw [hs] at h; cases h
    | ok w1 =>
      rw [hs] at h
      obtain ⟨i1, i2, i3⟩ := ih w1 w (step_inv w0 w1 a hinv hs) h
      obtain ⟨s1, s2⟩ := step_invokes w0 w1 a hinv hs
      refine ⟨?_, fun e he => i2 e (s2 e he), ?_⟩
      · rw [i1, s1]
        simp only [executions, hs, List.map_append, List.append_assoc]
      · intro H cad d hg hd
        rcases i3 H cad d hg hd with ⟨k1, k2⟩ | ⟨cad1, k1, k2⟩
        · left
          refine ⟨?_, k2⟩
          simp only [executions, hs]
          exact List.mem_append_right _ k1
        · rcases step_data w0 w1 a hinv hs H with e | ⟨c, e1, e2, e3⟩ | ⟨e1, e2⟩ |
            ⟨i, ctx, req, f, c, e0, e1, e2, e3, e4, e5, e6⟩
          · right
            exact ⟨cad1, by rw [← e]; exact k1, k2⟩
          · rw [k1] at e3
            cases e3
            rw [e2] at k2; cases k2
          · rw [k1] at e2
            cases e2
            cases k2
          · rw [k1] at e6
            cases e6
            simp only [Option.some.injEq] at k2
            left
            refine ⟨?_, by rw [← k2]⟩
            simp only [executions, hs, e0]
            apply List.mem_append_left
            simp [FetcherWorld.execution, e1, e3, e2, k2]

/-- C13. In every state a new fetcher reaches: a call of `Fetch` with a
fetcher function that is not nil returns a channel, recorded with the hash of
the request; whatever is delivered on a channel that `Fetch` returned for the
hash `H` is a non-nil `AsyncFetchData` whose `Hash` is `H` and which is the
result of the one execution of a fetcher function for `H` along the run; and
that result is the hash of the executed request with `Result` and `Err` as the
fetcher function returned them. -/
theorem Fetch_delivers_fetcher_result {V : Type} (n : Int) (actions : List (FetchAction V))
    (w : FetcherWorld V) (hrun : FetcherWorld.run actions (FetcherWorld.new n) = .ok w) :
    (∀ ctx req f w2 out, req.Fetcher = some f →
      DataFetcherImpl.Fetch w ctx req = .ok (w2, out) →
      ∃ c, out = (some c, none) ∧ FetchEvent.call (effectiveReq req).Hash c ∈ w2.trace) ∧
    (∀ H c v s, FetchEvent.call H c ∈ w.trace → FetchEvent.deliver c v s ∈ w.trace →
      ∃ d, v = some d ∧ d.Hash = H ∧ d ∈ executions actions (FetcherWorld.new n) ∧
        ∀ d2 ∈ executions actions (FetcherWorld.new n), d2.Hash = H → d2 = d) ∧
    (∀ i ctx req f, w.background[i]? = some (ctx, req) → req.Fetcher = some f →
      w.execution i = some { Hash := req.Hash, Result := (f ctx).1, Err := (f ctx).2 }) := by
  have hinv := run_inv actions _ w (new_inv n) hrun
  obtain ⟨x1, _, x3⟩ := run_executions actions _ w (new_inv n) hrun
  refine ⟨?_, ?_, ?_⟩
  · intro ctx req f w2 out hf hF
    exact (Fetch_invokes w w2 ctx req out hinv hF).2.2 f hf
  · intro H c v s hcall hdel
    obtain ⟨cad, g1, q1⟩ := hinv.call_chan H c hcall
    obtain ⟨K, cad2, g2, q2, q3, q4⟩ := hinv.deliver_data c v s hdel
    have hK : K = H := hinv.chan_inj K H cad2 cad g2 g1 (by rw [q1, q2])
    subst hK
    rw [g1] at g2
    cases g2
    obtain ⟨d, hd⟩ := Option.isSome_iff_exists.mp q4
    subst hd
    have hnd : ((executions actions (FetcherWorld.new n : FetcherWorld V)).map
        (fun d => d.Hash)).Nodup := by
      have := List.Nodup.of_append_left hinv.started_nodup
      rw [x1] at this
      simpa [FetcherWorld.new, invokes] using this
    rcases x3 K cad d g1 q3 with ⟨k1, k2⟩ | ⟨cad0, k1, _⟩
    · refine ⟨d, rfl, k2, k1, ?_⟩
      intro d2 hd2 hh
      exact List.inj_on_of_nodup_map hnd hd2 k1 (by rw [hh, k2])
    · simp [FetcherWorld.new, NewDataFetcherImpl, GoMap.get] at k1
  · intro i ctx req f ht hf
    simp [FetcherWorld.execution, ht, hf]

/-- Witness of `Fetch_delivers_fetcher_result`: after two calls for the hash
`h` and the settlement, what was delivered on channel 0 is the result of the
execution for `h`, with the value 3 of the fetcher function of the first
request. -/
theorem Fetch_delivers_fetcher_result_witness :
    ∃ w d, FetcherWorld.run sampleSettled (FetcherWorld.new 0) = .ok w ∧
      FetchEvent.call "h" 0 ∈ w.trace ∧
      FetchEvent.deliver 0 (some { Hash := "h", Result := 3, Err := none })
        Sender.background ∈ w.trace ∧
      d = { Hash := "h", Result := 3, Err := none } ∧
      d ∈ executions sampleSettled (FetcherWorld.new 0) := by
  have hs : ((FetcherWorld.run sampleSettled (FetcherWorld.new 0)).toOption.map
      (fun w => w.trace)) =
      some [FetchEvent.spawn "h", FetchEvent.call "h" 0, FetchEvent.call "h" 0,
        FetchEvent.invoke "h",
        FetchEvent.deliver 0 (some { Hash := "h", Result := 3, Err := none })
          Sender.background,
        FetchEvent.deliver 0 (some { Hash := "h", Result := 3, Err := none })
          Sender.background] := by rfl
  cases hrun : FetcherWorld.run sampleSettled (FetcherWorld.new 0) with
  | error f => rw [hrun] at hs; cases hs
  | ok w =>
    rw [hrun] at hs
    simp only [Except.toOption, Option.map_some', Option.some.injEq] at hs
    have hcall : FetchEvent.call "h" 0 ∈ w.trace := by rw [hs]; simp
    have hdel : FetchEvent.deliver 0 (some { Hash := "h", Result := 3, Err := none })
        Sender.background ∈ w.trace := by rw [hs]; simp
    obtain ⟨d, h1, _, h3, _⟩ :=
      (Fetch_delivers_fetcher_result 0 sampleSettled w hrun).2.1 "h" 0 _ _ hcall hdel
    simp only [Option.some.injEq] at h1
    exact ⟨w, d, rfl, hcall, hdel, h1.symm, h3⟩

/-! ## WaitForFetches -/

theorem run_snoc {V : Type} (actions : List (FetchAction V)) (a : FetchAction V) :
    ∀ (w0 w w2 : FetcherWorld V), FetcherWorld.run actions w0 = .ok w →
      w.step a = .ok w2 → FetcherWorld.run (actions ++ [a]) w0 = .ok w2 := by
  induction actions with
  | nil =>
    intro w0 w w2 h hs
    simp only [FetcherWorld.run, Except.ok.injEq] at h
    subst h
    simp only [List.nil_append, FetcherWorld.run, hs]
  | cons b rest ih =>
    intro w0 w w2 h hs
    simp only [FetcherWorld.run] at h
    cases hb : w0.step b with
    | error f => rw [hb] at h; cases h
    | ok w1 =>
      rw [hb] at h
      simp only [List.cons_append, FetcherWorld.run, hb]
      exact ih w1 w w2 h hs

theorem send_queue {V : Type} (w : FetcherWorld V) (c : Nat)
    (v : Option (AsyncFetchData V)) (s : Sender) (hq : QueueInv w) :
    QueueInv (w.send c v s) := by
  intro c2 v2 hv
  simp only [FetcherWorld.send] at hv ⊢
  by_cases hc : c2 = c
  · subst hc
    simp only [Function.update_same, List.mem_append, List.mem_singleton] at hv
    rcases hv with hv | hv
    · obtain ⟨s2, hs2⟩ := hq c2 v2 hv
      exact ⟨s2, List.mem_append_left _ hs2⟩
    · subst hv
      exact ⟨s, by simp⟩
  · rw [Function.update_noteq hc] at hv
    obtain ⟨s2, hs2⟩ := hq c2 v2 hv
    exact ⟨s2, List.mem_append_left _ hs2⟩

theorem notify_queue {V : Type} (c : Nat) (res : AsyncFetchData V) (n : Nat) :
    ∀ w : FetcherWorld V, QueueInv w → QueueInv (w.notify c res n) := by
  induction n with
  | zero => intro w hq; exact hq
  | succ n ih =>
    intro w hq
    simp only [FetcherWorld.notify]
    exact ih _ (send_queue w c (some res) Sender.background hq)

theorem queue_of_trace {V : Type} (w w2 : FetcherWorld V) (hq : QueueInv w)
    (hc : w2.chans = w.chans) (ht : ∀ e, e ∈ w.trace → e ∈ w2.trace) : QueueInv w2 := by
  intro c v hv
  rw [hc] at hv
  obtain ⟨s, hs⟩ := hq c v hv
  exact ⟨s, ht _ hs⟩

theorem Fetch_queue {V : Type} (w w2 : FetcherWorld V) (ctx : Context)
    (req : AsyncFetchReq V) (out : Option Nat × GoError) (hinv : FetcherInv w)
    (hq : QueueInv w) (h : DataFetcherImpl.Fetch w ctx req = .ok (w2, out)) :
    QueueInv w2 := by
  cases hf : req.Fetcher with
  | none =>
    simp only [DataFetcherImpl.Fetch, hf, Except.ok.injEq, Prod.mk.injEq] at h
    rw [← h.1]; exact hq
  | some f =>
    have hf2 : req.Fetcher.isSome = true := by rw [hf]; rfl
    cases hg : w.df.data.get (effectiveReq req).Hash with
    | some cad =>
      by_cases hp : cad.numPendingNotifications > 0
      · rw [Fetch_inflight w ctx req cad hf2 hg hp] at h
        simp only [Except.ok.injEq, Prod.mk.injEq] at h
        rw [← h.1]
        exact queue_of_trace w _ hq rfl (fun e he => List.mem_append_left _ he)
      · obtain ⟨s, hs⟩ := Fetch_settled w ctx req cad hf2 hg hp
        rw [hs] at h
        simp only [Except.ok.injEq, Prod.mk.injEq] at h
        rw [← h.1]
        have h1 := send_queue w cad.notifyChan cad.fetchedData s hq
        refine queue_of_trace _ _ h1 rfl ?_
        intro e he
        simp only [FetcherWorld.send, List.mem_append, List.mem_singleton] at he
        simp only [List.mem_append, List.mem_cons]
        rcases he with he | he
        · exact Or.inl he
        · exact Or.inr (Or.inl he)
    | none =>
      rw [Fetch_new w ctx req hf2 hg hinv.cap_nonneg] at h
      simp only [Except.ok.injEq, Prod.mk.injEq] at h
      rw [← h.1]
      intro c v hv
      simp only at hv ⊢
      by_cases hc : c = w.nextChan
      · subst hc
        simp at hv
      · rw [Function.update_noteq hc] at hv
        obtain ⟨s, hs⟩ := hq c v hv
        exact ⟨s, List.mem_append_left _ hs⟩

theorem backgroundFetch_queue {V : Type} (w w2 : FetcherWorld V) (ctx : Context)
    (req : AsyncFetchReq V) (hq : QueueInv w)
    (h : DataFetcherImpl.backgroundFetch w ctx req = .ok w2) : QueueInv w2 := by
  unfold DataFetcherImpl.backgroundFetch at h
  cases hf : req.Fetcher with
  | none => rw [hf] at h; cases h
  | some f =>
    rw [hf] at h
    simp only at h
    have hq1 : QueueInv ({ w with trace := w.trace ++ [FetchEvent.invoke req.Hash] } :
        FetcherWorld V) :=
      queue_of_trace w _ hq rfl (fun e he => List.mem_append_left _ he)
    cases hg : w.df.data.get req.Hash with
    | none =>
      rw [hg] at h
      simp only [Except.ok.injEq] at h
      rw [← h]; exact hq1
    | some cad =>
      rw [hg] at h
      simp only [Except.ok.injEq] at h
      rw [← h]
      apply notify_queue
      exact queue_of_trace _ _ hq1 rfl (fun e he => he)

theorem step_queue {V : Type} (w w2 : FetcherWorld V) (a : FetchAction V)
    (hinv : FetcherInv w) (hq : QueueInv w) (h : w.step a = .ok w2) : QueueInv w2 := by
  cases a with
  | fetch ctx req =>
    simp only [FetcherWorld.step] at h
    cases hF : DataFetcherImpl.Fetch w ctx req with
    | error f => rw [hF] at h; cases h
    | ok out =>
      rw [hF] at h
      simp only [Except.ok.injEq] at h
      obtain ⟨w3, o⟩ := out
      simp only at h
      subst h
      exact Fetch_queue w w3 ctx req o hinv hq hF
  | settle i =>
    simp only [FetcherWorld.step] at h
    cases ht : w.background[i]? with
    | none => rw [ht] at h; cases h
    | some task =>
      rw [ht] at h
      simp only at h
      have hq0 : QueueInv ({ w with background := w.background.eraseIdx i } :
          FetcherWorld V) := queue_of_trace w _ hq rfl (fun e he => he)
      exact backgroundFetch_queue _ w2 task.1 task.2 hq0 h
  | recv c =>
    simp only [FetcherWorld.step] at h
    cases hqq : (w.chans c).queued with
    | nil => rw [hqq] at h; cases h
    | cons v rest =>
      rw [hqq] at h
      simp only [Except.ok.injEq] at h
      subst h
      intro c2 v2 hv
      simp only at hv ⊢
      by_cases hc : c2 = c
      · subst hc
        simp only [Function.update_same] at hv
        exact hq c2 v2 (by rw [hqq]; exact List.mem_cons_of_mem _ hv)
      · rw [Function.update_noteq hc] at hv
        exact hq c2 v2 hv

theorem run_queue {V : Type} (actions : List (FetchAction V)) :
    ∀ (w0 w : FetcherWorld V), FetcherInv w0 → QueueInv w0 →
      FetcherWorld.run actions w0 = .ok w → QueueInv w := by
  induction actions with
  | nil =>
    intro w0 w _ hq h
    simp only [FetcherWorld.run, Except.ok.injEq] at h
    subst h; exact hq
  | cons a rest ih =>
    intro w0 w hinv hq h
    simp only [FetcherWorld.run] at h
    cases hs : w0.step a with
    | error f => rw [hs] at h; cases h
    | ok w1 =>
      rw [hs] at h
      exact ih w1 w (step_inv w0 w1 a hinv hs) (step_queue w0 w1 a hinv hq hs) h

theorem new_queue {V : Type} (n : Int) : QueueInv (FetcherWorld.new n : FetcherWorld V) := by
  intro c v hv
  simp [FetcherWorld.new] at hv

theorem wait_env_inv {V : Type} (n : Int) (reqs : List (AsyncFetchReq V)) (st : WaitRun V)
    (w2 : FetcherWorld V) (a : FetchAction V) (hinv : WaitInv n reqs st)
    (h : st.w.step a = .ok w2) : WaitInv n reqs { st with w := w2 } := by
  obtain ⟨actions, hrun⟩ := hinv.reach
  have hf := run_inv actions _ st.w (new_inv n) hrun
  have hmono := (step_invokes st.w w2 a hf h).2
  constructor
  · exact ⟨actions ++ [a], run_snoc actions a _ st.w w2 hrun h⟩
  · exact hinv.cs_le
  · intro i req hr hi
    obtain ⟨h1, c, h2, h3⟩ := hinv.cs_ok i req hr hi
    exact ⟨h1, c, h2, hmono _ h3⟩
  · exact hinv.data_le
  · exact hinv.data_phase
  · intro i v hv
    obtain ⟨c, s, h1, h2⟩ := hinv.data_ok i v hv
    exact ⟨c, s, h1, hmono _ h2⟩
  · exact hinv.res_ok
  · exact hinv.res_err

theorem Fetch_err {V : Type} (w w2 : FetcherWorld V) (ctx : Context) (req : AsyncFetchReq V)
    (ch : Option Nat) (e : String) (h : DataFetcherImpl.Fetch w ctx req = .ok (w2, ch, some e))
    (hinv : FetcherInv w) : req.Fetcher = none ∧ e = "null datafetcher" := by
  cases hf : req.Fetcher with
  | none =>
    simp only [DataFetcherImpl.Fetch, hf, Except.ok.injEq, Prod.mk.injEq,
      Option.some.injEq] at h
    exact ⟨rfl, h.2.2.symm⟩
  | some f =>
    obtain ⟨c, hc, _⟩ := (Fetch_invokes w w2 ctx req (ch, some e) hinv h).2.2 f hf
    simp only [Prod.mk.injEq] at hc
    cases hc.2

theorem wait_own_inv {V : Type} (n : Int) (ctx : Context) (reqs : List (AsyncFetchReq V))
    (st st2 : WaitRun V) (hinv : WaitInv n reqs st)
    (h : WaitForFetches.own ctx reqs st = .ok st2) : WaitInv n reqs st2 := by
  obtain ⟨actions, hrun⟩ := hinv.reach
  have hf := run_inv actions _ st.w (new_inv n) hrun
  have hq := run_queue actions _ st.w (new_inv n) (new_queue n) hrun
  unfold WaitForFetches.own at h
  cases hres : st.result with
  | some r =>
    rw [hres] at h
    simp only [Except.ok.injEq] at h
    subst h; exact hinv
  | none =>
    rw [hres] at h
    simp only at h
    cases hreq : reqs[st.cs.length]? with
    | some req =>
      rw [hreq] at h
      simp only at h
      have hlt : st.cs.length < reqs.length := by
        rcases Nat.lt_or_ge st.cs.length reqs.length with h1 | h1
        · exact h1
        · rw [List.getElem?_eq_none h1] at hreq; cases hreq
      have hdata : st.data = [] := by
        by_contra hne
        have := hinv.data_phase hne
        omega
      cases hF : DataFetcherImpl.Fetch st.w ctx req with
      | error f => rw [hF] at h; cases h
      | ok out =>
        rw [hF] at h
        obtain ⟨w2, ch, err⟩ := out
        have hstep : st.w.step (FetchAction.fetch ctx req) = .ok w2 := by
          simp only [FetcherWorld.step, hF]
        have hmono := (step_invokes st.w w2 _ hf hstep).2
        cases err with
        | some e =>
          simp only [Except.ok.injEq] at h
          subst h
          obtain ⟨e1, e2⟩ := Fetch_err st.w w2 ctx req ch e hF hf
          constructor
          · exact ⟨actions ++ [FetchAction.fetch ctx req], run_snoc actions _ _ st.w w2 hrun hstep⟩
          · exact hinv.cs_le
          · intro i r hr hi
            obtain ⟨h1, c, h2, h3⟩ := hinv.cs_ok i r hr hi
            exact ⟨h1, c, h2, hmono _ h3⟩
          · exact hinv.data_le
          · exact hinv.data_phase
          · intro i v hv
            obtain ⟨c, s, h1, h2⟩ := hinv.data_ok i v hv
            exact ⟨c, s, h1, hmono _ h2⟩
          · intro data hd
            simp only [Option.some.injEq, Prod.mk.injEq] at hd
            cases hd.2
          · intro data e3 hd
            simp only [Option.some.injEq, Prod.mk.injEq] at hd
            obtain ⟨hd1, hd2⟩ := hd
            subst hd2
            exact ⟨hd1.symm, Or.inl ⟨e2, req, hreq, e1⟩⟩
        | none =>
          simp only [Except.ok.injEq] at h
          subst h
          have hsome : req.Fetcher.isSome = true := by
            cases hfr : req.Fetcher with
            | none =>
              simp only [DataFetcherImpl.Fetch, hfr, Except.ok.injEq, Prod.mk.injEq] at hF
              cases hF.2.2
            | some f => rfl
          obtain ⟨f, hfr⟩ := Option.isSome_iff_exists.mp hsome
          obtain ⟨c, hc, hcall⟩ := (Fetch_invokes st.w w2 ctx req (ch, none) hf hF).2.2 f hfr
          simp only [Prod.mk.injEq] at hc
          obtain ⟨hc1, _⟩ := hc
          subst hc1
          constructor
          · exact ⟨actions ++ [FetchAction.fetch ctx req], run_snoc actions _ _ st.w w2 hrun hstep⟩
          · simp only [List.length_append, List.length_singleton]; omega
          · intro i r hr hi
            simp only [List.length_append, List.length_singleton] at hi
            by_cases hi2 : i < st.cs.length
            · obtain ⟨h1, c2, h2, h3⟩ := hinv.cs_ok i r hr hi2
              refine ⟨h1, c2, ?_, hmono _ h3⟩
              simp only
              rw [List.getElem?_append_left hi2]
              exact h2
            · have hi3 : i = st.cs.length := by omega
              subst hi3
              rw [hreq] at hr
              cases hr
              refine ⟨hsome, c, ?_, hcall⟩
              simp
          · simp only [List.length_append, List.length_singleton]
            have := hinv.data_le
            omega
          · intro hne
            exact absurd hdata hne
          · intro i v hv
            simp only [hdata] at hv
            cases hv
          · intro data hd
            simp only [hres] at hd
            cases hd
          · intro data e hd
            simp only [hres] at hd
            cases hd
    | none =>
      rw [hreq] at h
      simp only at h
      have hcs : st.cs.length = reqs.length := by
        have h1 := hinv.cs_le
        rcases Nat.lt_or_ge st.cs.length reqs.length with h2 | h2
        · rw [List.getElem?_eq_getElem h2] at hreq; cases hreq
        · omega
      cases hc : st.cs[st.data.length]? with
      | none =>
        rw [hc] at h
        simp only [Except.ok.injEq] at h
        subst h
        have hlen : st.data.length = reqs.length := by
          have h1 := hinv.data_le
          rcases Nat.lt_or_ge st.data.length st.cs.length with h2 | h2
          · rw [List.getElem?_eq_getElem h2] at hc; cases hc
          · omega
        constructor
        · exact hinv.reach
        · exact hinv.cs_le
        · exact hinv.cs_ok
        · exact hinv.data_le
        · exact hinv.data_phase
        · exact hinv.data_ok
        · intro data hd
          simp only [Option.some.injEq, Prod.mk.injEq] at hd
          exact ⟨hd.1.symm, hlen, hcs⟩
        · intro data e hd
          simp only [Option.some.injEq, Prod.mk.injEq] at hd
          cases hd.2
      | some oc =>
        rw [hc] at h
        cases oc with
        | none => simp only at h; cases h
        | some c =>
          simp only at h
          cases hqq : (st.w.chans c).queued with
          | nil => rw [hqq] at h; cases h
          | cons v rest =>
            rw [hqq] at h
            simp only [Except.ok.injEq] at h
            subst h
            have hstep : st.w.step (FetchAction.recv c) =
                .ok { st.w with chans := (Function.update st.w.chans c
                  { st.w.chans c with queued := rest }) } := by
              simp only [FetcherWorld.step, hqq]
            have hlt : st.data.length < st.cs.length := by
              rcases Nat.lt_or_ge st.data.length st.cs.length with h2 | h2
              · exact h2
              · rw [List.getElem?_eq_none h2] at hc; cases hc
            obtain ⟨s, hs⟩ := hq c v (by rw [hqq]; exact List.mem_cons_self _ _)
            constructor
            · exact ⟨actions ++ [FetchAction.recv c], run_snoc actions _ _ st.w _ hrun hstep⟩
            · exact hinv.cs_le
            · exact hinv.cs_ok
            · simp only [List.length_append, List.length_singleton]; omega
            · intro _; exact hcs
            · intro i v2 hv
              simp only at hv ⊢
              by_cases hi : i < st.data.length
              · rw [List.getElem?_append_left hi] at hv
                exact hinv.data_ok i v2 hv
              · have hi2 : i = st.data.length := by
                  rcases Nat.lt_or_ge i (st.data ++ [v]).length with h3 | h3
                  · simp only [List.length_append, List.length_singleton] at h3
                    omega
                  · rw [List.getElem?_eq_none h3] at hv; cases hv
                subst hi2
                simp only [List.getElem?_concat_length, Option.some.injEq] at hv
                subst hv
                exact ⟨c, s, hc, hs⟩
            · intro data hd
              simp only [hres] at hd
              cases hd
            · intro data e hd
              simp only [hres] at hd
              cases hd

theorem wait_ctxDone_inv {V : Type} (n : Int) (reqs : List (AsyncFetchReq V))
    (st st2 : WaitRun V) (hinv : WaitInv n reqs st)
    (h : WaitForFetches.ctxDone reqs st = .ok st2) : WaitInv n reqs st2 := by
  unfold WaitForFetches.ctxDone at h
  cases hres : st.result with
  | some r =>
    rw [hres] at h
    simp only [Except.ok.injEq] at h
    subst h; exact hinv
  | none =>
    rw [hres] at h
    simp only at h
    split_ifs at h with hc
    simp only [Except.ok.injEq] at h
    subst h
    constructor
    · exact hinv.reach
    · exact hinv.cs_le
    · exact hinv.cs_ok
    · exact hinv.data_le
    · exact hinv.data_phase
    · exact hinv.data_ok
    · intro data hd
      simp only [Option.some.injEq, Prod.mk.injEq] at hd
      cases hd.2
    · intro data e hd
      simp only [Option.some.injEq, Prod.mk.injEq] at hd
      exact ⟨hd.1.symm, Or.inr ⟨hd.2.symm, hc.1⟩⟩

theorem wait_step_inv {V : Type} (n : Int) (ctx : Context) (reqs : List (AsyncFetchReq V))
    (st st2 : WaitRun V) (e : WaitEvent V) (hinv : WaitInv n reqs st)
    (h : WaitForFetches.step ctx reqs st e = .ok st2) : WaitInv n reqs st2 := by
  cases e with
  | env a =>
    simp only [WaitForFetches.step] at h
    cases hs : st.w.step a with
    | error f => rw [hs] at h; cases h
    | ok w2 =>
      rw [hs] at h
      simp only [Except.ok.injEq] at h
      subst h
      exact wait_env_inv n reqs st w2 a hinv hs
  | own => exact wait_own_inv n ctx reqs st st2 hinv h
  | ctxDone => exact wait_ctxDone_inv n reqs st st2 hinv h

theorem wait_run_inv {V : Type} (n : Int) (ctx : Context) (reqs : List (AsyncFetchReq V))
    (sched : List (WaitEvent V)) :
    ∀ st st2 : WaitRun V, WaitInv n reqs st →
      DataFetcherImpl.WaitForFetches ctx reqs sched st = .ok st2 → WaitInv n reqs st2 := by
  induction sched with
  | nil =>
    intro st st2 hinv h
    simp only [DataFetcherImpl.WaitForFetches, Except.ok.injEq] at h
    subst h; exact hinv
  | cons e rest ih =>
    intro st st2 hinv h
    simp only [DataFetcherImpl.WaitForFetches] at h
    cases hs : WaitForFetches.step ctx reqs st e with
    | error f => rw [hs] at h; cases h
    | ok st1 =>
      rw [hs] at h
      exact ih st1 st2 (wait_step_inv n ctx reqs st st1 e hinv hs) h

theorem wait_init_inv {V : Type} (n : Int) (reqs : List (AsyncFetchReq V))
    (actions : List (FetchAction V)) (w : FetcherWorld V)
    (hrun : FetcherWorld.run actions (FetcherWorld.new n) = .ok w) :
    WaitInv n reqs (WaitRun.init w) := by
  constructor
  · exact ⟨actions, hrun⟩
  · simp [WaitRun.init]
  · intro i req _ hi; simp [WaitRun.init] at hi
  · simp [WaitRun.init]
  · intro h; simp [WaitRun.init] at h
  · intro i v hv; simp [WaitRun.init] at hv
  · intro data hd; simp [WaitRun.init] at hd
  · intro data e hd; simp [WaitRun.init] at hd

theorem wait_result_kept {V : Type} (ctx : Context) (reqs : List (AsyncFetchReq V))
    (r : List (Option (AsyncFetchData V)) × GoError) (l : List (WaitEvent V)) :
    ∀ a b : WaitRun V, a.result = some r →
      DataFetcherImpl.WaitForFetches ctx reqs l a = .ok b → b.result = some r := by
  induction l with
  | nil =>
    intro a b ha hab
    simp only [DataFetcherImpl.WaitForFetches, Except.ok.injEq] at hab
    subst hab; exact ha
  | cons e2 l2 ih2 =>
    intro a b ha hab
    simp only [DataFetcherImpl.WaitForFetches] at hab
    cases hs2 : WaitForFetches.step ctx reqs a e2 with
    | error f => rw [hs2] at hab; cases hab
    | ok a2 =>
      rw [hs2] at hab
      refine ih2 a2 b ?_ hab
      cases e2 with
      | env x =>
        simp only [WaitForFetches.step] at hs2
        cases hx : a.w.step x with
        | error f => rw [hx] at hs2; cases hs2
        | ok w2 =>
          rw [hx] at hs2
          simp only [Except.ok.injEq] at hs2
          subst hs2; exact ha
      | own =>
        simp only [WaitForFetches.step, WaitForFetches.own, ha, Except.ok.injEq] at hs2
        subst hs2; exact ha
      | ctxDone =>
        simp only [WaitForFetches.step, WaitForFetches.ctxDone, ha, Except.ok.injEq] at hs2
        subst hs2; exact ha

/-- A step with the call still running afterwards: the call was running before,
and the channels and values it holds grew by one when the step was a statement
of the call, and not at all otherwise. -/
theorem wait_step_count {V : Type} (ctx : Context) (reqs : List (AsyncFetchReq V))
    (st st2 : WaitRun V) (e : WaitEvent V)
    (h : WaitForFetches.step ctx reqs st e = .ok st2) (hnone : st2.result = none) :
    st.result = none ∧
    st2.cs.length + st2.data.length =
      st.cs.length + st.data.length + ownCount [e] := by
  cases e with
  | env a =>
    simp only [WaitForFetches.step] at h
    cases hs : st.w.step a with
    | error f => rw [hs] at h; cases h
    | ok w2 =>
      rw [hs] at h
      simp only [Except.ok.injEq] at h
      subst h
      exact ⟨hnone, by simp [ownCount]⟩
  | ctxDone =>
    simp only [WaitForFetches.step, WaitForFetches.ctxDone] at h
    cases hres : st.result with
    | some r =>
      rw [hres] at h
      simp only [Except.ok.injEq] at h
      subst h
      rw [hres] at hnone; cases hnone
    | none =>
      rw [hres] at h
      simp only at h
      split_ifs at h
      simp only [Except.ok.injEq] at h
      subst h
      cases hnone
  | own =>
    simp only [WaitForFetches.step, WaitForFetches.own] at h
    cases hres : st.result with
    | some r =>
      rw [hres] at h
      simp only [Except.ok.injEq] at h
      subst h
      rw [hres] at hnone; cases hnone
    | none =>
      rw [hres] at h
      simp only at h
      refine ⟨rfl, ?_⟩
      cases hreq : reqs[st.cs.length]? with
      | some req =>
        rw [hreq] at h
        simp only at h
        cases hF : DataFetcherImpl.Fetch st.w ctx req with
        | error f => rw [hF] at h; cases h
        | ok out =>
          rw [hF] at h
          simp only at h
          cases herr : out.2.2 with
          | some e =>
            rw [herr] at h
            simp only [Except.ok.injEq] at h
            subst h
            cases hnone
          | none =>
            rw [herr] at h
            simp only [Except.ok.injEq] at h
            subst h
            simp [ownCount]
            omega
      | none =>
        rw [hreq] at h
        simp only at h
        cases hc : st.cs[st.data.length]? with
        | none =>
          rw [hc] at h
          simp only [Except.ok.injEq] at h
          subst h
          cases hnone
        | some oc =>
          rw [hc] at h
          cases oc with
          | none => simp only at h; cases h
          | some c =>
            simp only at h
            cases hqq : (st.w.chans c).queued with
            | nil => rw [hqq] at h; cases h
            | cons v rest =>
              rw [hqq] at h
              simp only [Except.ok.injEq] at h
              subst h
              simp [ownCount]
              omega

theorem wait_run_count {V : Type} (ctx : Context) (reqs : List (AsyncFetchReq V))
    (sched : List (WaitEvent V)) :
    ∀ st st2 : WaitRun V, DataFetcherImpl.WaitForFetches ctx reqs sched st = .ok st2 →
      st2.result = none →
      st2.cs.length + st2.data.length = st.cs.length + st.data.length + ownCount sched := by
  induction sched with
  | nil =>
    intro st st2 h _
    simp only [DataFetcherImpl.WaitForFetches, Except.ok.injEq] at h
    subst h
    simp [ownCount]
  | cons e rest ih =>
    intro st st2 h hnone
    simp only [DataFetcherImpl.WaitForFetches] at h
    cases hs : WaitForFetches.step ctx reqs st e with
    | error f => rw [hs] at h; cases h
    | ok st1 =>
      rw [hs] at h
      have h1 := ih st1 st2 h hnone
      have hst1 : st1.result = none := by
        cases hr : st1.result with
        | none => rfl
        | some r =>
          have := wait_result_kept ctx reqs r rest st1 st2 hr h
          rw [hnone] at this
          cases this
      obtain ⟨_, h2⟩ := wait_step_count ctx reqs st st1 e hs hst1
      rw [h1, h2]
      cases e
      · simp only [ownCount]; omega
      · simp only [ownCount]; omega
      · simp only [ownCount]; omega

/-- C14. A call `WaitForFetches(ctx, r1..rn)` on a fetcher in a state it can
reach, with the other goroutines acting in any order. When it has returned
without error, the result has exactly `n` entries and the `i`-th entry is a
non-nil `AsyncFetchData` whose `Hash` is the hash of the `i`-th request and
which is the settled data in the cache entry of that hash. When it has returned
an error the result is empty. When some request has a nil fetcher function, a
return is the return of the error of `Fetch` with an empty result, and the call
has returned once it made `n` steps. -/
theorem WaitForFetches_results {V : Type} (n : Int) (actions : List (FetchAction V))
    (w0 : FetcherWorld V) (hrun : FetcherWorld.run actions (FetcherWorld.new n) = .ok w0)
    (ctx : Context) (reqs : List (AsyncFetchReq V)) (sched : List (WaitEvent V))
    (st : WaitRun V)
    (h : DataFetcherImpl.WaitForFetches ctx reqs sched (WaitRun.init w0) = .ok st) :
    (∀ data, st.result = some (data, none) →
      data.length = reqs.length ∧
      ∀ (i : Nat) req, reqs[i]? = some req →
        ∃ d cad, data[i]? = some (some d) ∧ d.Hash = (effectiveReq req).Hash ∧
          st.w.df.data.get (effectiveReq req).Hash = some cad ∧
          cad.fetchedData = some d) ∧
    (∀ data e, st.result = some (data, some e) → data = []) ∧
    ((∃ req ∈ reqs, req.Fetcher = none) →
      (∀ data err, st.result = some (data, err) →
        data = [] ∧ err = some "null datafetcher") ∧
      (reqs.length ≤ ownCount sched → st.result.isSome = true)) := by
  have hinv := wait_run_inv n ctx reqs sched _ st (wait_init_inv n reqs actions w0 hrun) h
  obtain ⟨actions2, hrun2⟩ := hinv.reach
  have hf := run_inv actions2 _ st.w (new_inv n) hrun2
  obtain ⟨_, _, x3⟩ := run_executions actions2 _ st.w (new_inv n) hrun2
  have hnil : ∀ req ∈ reqs, req.Fetcher = none → st.cs.length < reqs.length := by
    intro req hreq hnone
    obtain ⟨k, hk, hk2⟩ := List.getElem_of_mem hreq
    have hk3 : reqs[k]? = some req := by rw [List.getElem?_eq_getElem hk, hk2]
    rcases Nat.lt_or_ge k st.cs.length with hlt | hge
    · have := (hinv.cs_ok k req hk3 hlt).1
      rw [hnone] at this
      cases this
    · omega
  refine ⟨?_, ?_, ?_⟩
  · intro data hd
    obtain ⟨r1, r2, r3⟩ := hinv.res_ok data hd
    subst r1
    refine ⟨r2, ?_⟩
    intro i req hreq
    have hi : i < reqs.length := by
      rcases Nat.lt_or_ge i reqs.length with h1 | h1
      · exact h1
      · rw [List.getElem?_eq_none h1] at hreq; cases hreq
    obtain ⟨_, c, hc, hcall⟩ := hinv.cs_ok i req hreq (by omega)
    have hdi : st.data[i]? = some st.data[i] := List.getElem?_eq_getElem (by omega)
    obtain ⟨c2, s, hc2, hdel⟩ := hinv.data_ok i _ hdi
    rw [hc] at hc2
    simp only [Option.some.injEq] at hc2
    subst hc2
    obtain ⟨cad, g1, q1⟩ := hf.call_chan _ c hcall
    obtain ⟨K, cad2, g2, q2, q3, q4⟩ := hf.deliver_data c _ s hdel
    have hK : K = (effectiveReq req).Hash := hf.chan_inj K _ cad2 cad g2 g1 (by rw [q1, q2])
    subst hK
    rw [g1] at g2
    cases g2
    obtain ⟨d, hd2⟩ := Option.isSome_iff_exists.mp q4
    rw [hd2] at q3
    have hhash : d.Hash = (effectiveReq req).Hash := by
      rcases x3 _ cad d g1 q3 with ⟨_, k2⟩ | ⟨cad0, k1, _⟩
      · exact k2
      · simp [FetcherWorld.new, NewDataFetcherImpl, GoMap.get] at k1
    exact ⟨d, cad, by rw [hdi, hd2], hhash, g1, q3⟩
  · intro data e hd
    exact (hinv.res_err data e hd).1
  · rintro ⟨req, hreq, hnone⟩
    have hlt := hnil req hreq hnone
    constructor
    · intro data err hd
      cases err with
      | none =>
        have := (hinv.res_ok data hd).2.2
        omega
      | some e =>
        obtain ⟨r1, r2 | r2⟩ := hinv.res_err data e hd
        · exact ⟨r1, by rw [r2.1]⟩
        · have := r2.2
          omega
    · intro hcount
      cases hres : st.result with
      | some r => rfl
      | none =>
        exfalso
        have hc := wait_run_count ctx reqs sched _ st h hres
        simp only [WaitRun.init, List.length_nil, Nat.zero_add] at hc
        have hdata : st.data = [] := by
          by_contra hne
          have := hinv.data_phase hne
          omega
        rw [hdata] at hc
        simp only [List.length_nil, Nat.add_zero] at hc
        omega

/-- Witness of `WaitForFetches_results`: two requests on a new fetcher, the
second fetch settling first; the call returns both results in the order of the
requests. -/
theorem WaitForFetches_results_witness :
    ∃ st data, DataFetcherImpl.WaitForFetches ⟨none⟩ sampleReqs sampleWait
        (WaitRun.init (FetcherWorld.new 2)) = .ok st ∧
      st.result = some (data, none) ∧ data.length = 2 ∧
      (∃ d, data[0]? = some (some d) ∧ d.Hash = "x") ∧
      (∃ d, data[1]? = some (some d) ∧ d.Hash = "y") := by
  have hs : ((DataFetcherImpl.WaitForFetches ⟨none⟩ sampleReqs sampleWait
      (WaitRun.init (FetcherWorld.new 2))).toOption.map
        (fun st => st.result.map (fun r => (r.1.length, r.2)))) =
      some (some (2, none)) := by rfl
  cases hrun : DataFetcherImpl.WaitForFetches ⟨none⟩ sampleReqs sampleWait
      (WaitRun.init (FetcherWorld.new 2)) with
  | error f => rw [hrun] at hs; cases hs
  | ok st =>
    rw [hrun] at hs
    simp only [Except.toOption, Option.map_some', Option.some.injEq] at hs
    cases hres : st.result with
    | none => rw [hres] at hs; cases hs
    | some r =>
      obtain ⟨data, err⟩ := r
      rw [hres] at hs
      simp only [Option.map_some', Option.some.injEq, Prod.mk.injEq] at hs
      obtain ⟨hlen, herr⟩ := hs
      subst herr
      obtain ⟨_, h2⟩ := (WaitForFetches_results 2 [] (FetcherWorld.new 2) rfl ⟨none⟩
        sampleReqs sampleWait st hrun).1 data hres
      obtain ⟨d0, _, a1, a2, _⟩ := h2 0 _ (by rfl : sampleReqs[0]? = some _)
      obtain ⟨d1, _, b1, b2, _⟩ := h2 1 _ (by rfl : sampleReqs[1]? = some _)
      exact ⟨st, data, rfl, hres, hlen, ⟨d0, a1, a2⟩, ⟨d1, b1, b2⟩⟩

/-! ## What reaches the readiness channels -/

theorem offer_nil (ch : BoolChan) : ch.offer [] = ch := by
  simp [BoolChan.offer]

theorem offer_snoc_room (ch : BoolChan) (vs : List Bool) (v : Bool)
    (h : (ch.offer vs).buf.length < (ch.offer vs).cap) :
    ch.offer (vs ++ [v]) = { ch.offer vs with buf := (ch.offer vs).buf ++ [v] } := by
  simp only [BoolChan.offer, List.length_append, List.length_take] at h ⊢
  have h1 : vs.length < ch.cap - ch.buf.length := by omega
  rw [List.take_of_length_le (by omega : vs.length ≤ ch.cap - ch.buf.length),
    List.take_of_length_le (by simp; omega : (vs ++ [v]).length ≤ ch.cap - ch.buf.length)]
  simp

theorem offer_snoc_full (ch : BoolChan) (vs : List Bool) (v : Bool)
    (h : ¬ (ch.offer vs).buf.length < (ch.offer vs).cap) :
    ch.offer (vs ++ [v]) = ch.offer vs := by
  simp only [BoolChan.offer, List.length_append, List.length_take] at h ⊢
  rw [List.take_append_of_le_length (by omega : ch.cap - ch.buf.length ≤ vs.length)]

/-- One call of `noBlockChanBoolRes` on channels that hold what was written to
them so far: the value is written to the target channel. -/
theorem noBlock_offer (chans0 chans : Nat → BoolChan) (target : Option Nat) (v : Bool)
    (W : Nat → List Bool) (h : ∀ c, chans c = (chans0 c).offer (W c)) (c : Nat) :
    noBlockChanBoolRes chans target v c =
      (chans0 c).offer (W c ++ if target = some c then [v] else []) := by
  cases target with
  | none => simp [noBlockChanBoolRes, h c]
  | some d =>
    by_cases hc : d = c
    · subst hc
      simp only [noBlockChanBoolRes, if_true]
      by_cases hroom : (chans d).buf.length < (chans d).cap
      · simp only [hroom, if_true, Function.update_same]
        rw [h d] at hroom ⊢
        exact (offer_snoc_room _ _ v hroom).symm
      · simp only [hroom, if_false]
        rw [h d] at hroom ⊢
        exact (offer_snoc_full _ _ v hroom).symm
    · have hc2 : ¬ (some d = some c) := by simpa using hc
      simp only [noBlockChanBoolRes, hc2, if_false, List.append_nil]
      split_ifs
      · rw [Function.update_noteq (Ne.symm hc)]; exact h c
      · exact h c

theorem written_append (rr fr : Option Nat) (c : Nat) (t1 t2 : List Event) :
    written rr fr c (t1 ++ t2) = written rr fr c t1 ++ written rr fr c t2 := by
  simp [written, List.filterMap_append]

theorem written_launch (rr fr : Option Nat) (c : Nat) (l : List Nat) :
    written rr fr c (l.map Event.launch) = [] := by
  induction l with
  | nil => rfl
  | cons a l ih =>
    simp only [written] at ih ⊢
    simp [List.filterMap_cons, ih]

theorem written_full (rr fr : Option Nat) (c : Nat) (t : List Event) (h1 : fr = some c)
    (h2 : rr ≠ some c) : written rr fr c t = fullSignals t := by
  unfold written fullSignals
  congr 1
  funext e
  cases e <;> simp [h1, h2]

theorem written_required (rr fr : Option Nat) (c : Nat) (t : List Event) (h1 : rr = some c)
    (h2 : fr ≠ some c) : written rr fr c t = requiredSignals t := by
  unfold written requiredSignals
  congr 1
  funext e
  cases e <;> simp [h1, h2]

theorem written_other (rr fr : Option Nat) (c : Nat) (t : List Event) (h1 : rr ≠ some c)
    (h2 : fr ≠ some c) : written rr fr c t = [] := by
  have hfun : (fun e : Event => match e with
      | Event.requiredReady v => if rr = some c then some v else none
      | Event.fullReady v => if fr = some c then some v else none
      | _ => none) = fun _ => (none : Option Bool) := by
    funext e
    cases e <;> simp [h1, h2]
  unfold written
  rw [hfun]
  simp

theorem ChanInv.signalRequired {V S : Type} {chans0 : Nat → BoolChan} {rr fr : Option Nat}
    {r : Run V S} (h : ChanInv chans0 rr fr r) (v : Bool) :
    ChanInv chans0 rr fr (r.signalRequired v) := by
  obtain ⟨h1, h2, h3⟩ := h
  refine ⟨h1, h2, ?_⟩
  intro c
  simp only [Run.signalRequired]
  rw [noBlock_offer chans0 r.chans r.rb.requiredReady v _ h3 c, written_append, h1]
  congr 2
  simp only [written, List.filterMap_cons, List.filterMap_nil]
  split_ifs <;> rfl

theorem ChanInv.signalFull {V S : Type} {chans0 : Nat → BoolChan} {rr fr : Option Nat}
    {r : Run V S} (h : ChanInv chans0 rr fr r) (v : Bool) :
    ChanInv chans0 rr fr (r.signalFull v) := by
  obtain ⟨h1, h2, h3⟩ := h
  refine ⟨h1, h2, ?_⟩
  intro c
  simp only [Run.signalFull]
  rw [noBlock_offer chans0 r.chans r.rb.fullReady v _ h3 c, written_append, h2]
  congr 2
  simp only [written, List.filterMap_cons, List.filterMap_nil]
  split_ifs <;> rfl

/-- A state with the same channel references, channels and signals. -/
theorem ChanInv.of_same {V S : Type} {chans0 : Nat → BoolChan} {rr fr : Option Nat}
    {r r2 : Run V S} (h : ChanInv chans0 rr fr r)
    (e1 : r2.rb.requiredReady = r.rb.requiredReady) (e2 : r2.rb.fullReady = r.rb.fullReady)
    (e3 : r2.chans = r.chans) (e4 : ∀ c, written rr fr c r2.trace = written rr fr c r.trace) :
    ChanInv chans0 rr fr r2 := by
  obtain ⟨h1, h2, h3⟩ := h
  refine ⟨e1.trans h1, e2.trans h2, ?_⟩
  intro c
  rw [e3, e4, h3]

theorem gatherFinished_chans {V S : Type} (chans0 : Nat → BoolChan) (rr fr : Option Nat)
    (r : Run V S) (n : NodeBuilderResult V) (h : ChanInv chans0 rr fr r) :
    ChanInv chans0 rr fr (gatherFinished r n) := by
  unfold gatherFinished
  simp only
  split_ifs
  all_goals first
    | exact ChanInv.signalRequired (h.of_same rfl rfl rfl (fun _ => rfl)) _
    | exact h.of_same rfl rfl rfl (fun _ => rfl)

theorem buildNode_chanrefs {V S : Type} (ctx : Context) (rb : ResponseBuilder V S) (idx : Nat) :
    (buildNode ctx rb idx).requiredReady = rb.requiredReady ∧
      (buildNode ctx rb idx).fullReady = rb.fullReady := by
  unfold buildNode
  split <;> exact ⟨rfl, rfl⟩

theorem gatherStep_chans {V S : Type} (chans0 : Nat → BoolChan) (rr fr : Option Nat)
    (fetchCtx : Context) (r r2 : Run V S) (ev : GatherEvent) (h : ChanInv chans0 rr fr r)
    (hs : gatherStep fetchCtx r ev = .ok r2) : ChanInv chans0 rr fr r2 := by
  cases ev with
  | ctxDone =>
    simp only [gatherStep, Except.ok.injEq] at hs
    subst hs
    exact h.of_same rfl rfl rfl (fun _ => rfl)
  | finished idx =>
    simp only [gatherStep] at hs
    split_ifs at hs with hi
    split at hs
    · cases hs
    · simp only [Except.ok.injEq] at hs
      subst hs
      apply gatherFinished_chans
      exact h.of_same (buildNode_chanrefs fetchCtx r.rb idx).1
        (buildNode_chanrefs fetchCtx r.rb idx).2 rfl (fun _ => rfl)

theorem gather_chans {V S : Type} (chans0 : Nat → BoolChan) (rr fr : Option Nat)
    (fetchCtx : Context) (sched : List GatherEvent) :
    ∀ r r2 : Run V S, ChanInv chans0 rr fr r → gather fetchCtx sched r = .ok r2 →
      ChanInv chans0 rr fr r2 := by
  induction sched with
  | nil =>
    intro r r2 h hg
    simp only [gather] at hg
    split_ifs at hg
    simp only [Except.ok.injEq] at hg
    subst hg
    exact h
  | cons ev rest ih =>
    intro r r2 h hg
    simp only [gather] at hg
    split_ifs at hg
    · cases hs : gatherStep fetchCtx r ev with
      | error f => rw [hs] at hg; cases hg
      | ok r1 =>
        rw [hs] at hg
        exact ih r1 r2 (gatherStep_chans chans0 rr fr fetchCtx r r1 ev h hs) hg
    · simp only [Except.ok.injEq] at hg
      subst hg
      exact h

theorem toStorage_chans {V S : Type} (kv : KeyValStorage S) (cd : Codec V) (ctx : Context)
    (rb : ResponseBuilder V S) (rr fr : Option Nat) (c : Nat) :
    (toStorage kv cd ctx rb).1.requiredReady = rb.requiredReady ∧
      (toStorage kv cd ctx rb).1.fullReady = rb.fullReady ∧
      written rr fr c (toStorage kv cd ctx rb).2 = [] := by
  unfold toStorage
  split <;> simp [written]

theorem build_finish_chans {V S : Type} (chans0 : Nat → BoolChan) (rr fr : Option Nat)
    (kv : KeyValStorage S) (cd : Codec V) (ctx : Context) (r : Run V S)
    (h : ChanInv chans0 rr fr r) : ChanInv chans0 rr fr (build.finish kv cd ctx r) := by
  have h0 : ChanInv chans0 rr fr
      ({ r with rb := (toStorage kv cd ctx r.rb).1,
                trace := r.trace ++ (toStorage kv cd ctx r.rb).2 } : Run V S) := by
    refine h.of_same (toStorage_chans kv cd ctx r.rb rr fr 0).1
      (toStorage_chans kv cd ctx r.rb rr fr 0).2.1 rfl ?_
    intro c
    simp only [written_append, (toStorage_chans kv cd ctx r.rb rr fr c).2.2, List.append_nil]
  unfold build.finish
  simp only
  split_ifs
  · exact h0.signalFull _
  · exact h0

theorem build_fanOut_chans {V S : Type} (chans0 : Nat → BoolChan) (rr fr : Option Nat)
    (r : Run V S) (h : ChanInv chans0 rr fr r) : ChanInv chans0 rr fr (build.fanOut r) := by
  refine h.of_same rfl rfl rfl ?_
  intro c
  simp only [build.fanOut, written_append, written_launch, List.append_nil]

theorem build_start_chans {V S : Type} (kv : KeyValStorage S) (cd : Codec V) (ctx : Context)
    (rb : ResponseBuilder V S) (chans : Nat → BoolChan) :
    ChanInv chans rb.requiredReady rb.fullReady (build.start kv cd ctx rb chans) := by
  obtain ⟨_, _, _, _, _, _, k7, k8, _, _⟩ := fromStorage_same kv cd ctx rb
  have h0 : ChanInv chans rb.requiredReady rb.fullReady
      (Run.mk (fromStorage kv cd ctx rb) chans [] 0 [] false) := by
    refine ⟨k7, k8, ?_⟩
    intro c
    simp [written, offer_nil]
  unfold build.start
  split_ifs
  · exact h0.signalRequired true
  · exact h0

/-- In every run of `build` that returns, every channel holds at the end what
it held at the start and, after that, the values `build` wrote to it, as many as
fitted its buffer. -/
theorem build_chans {V S : Type} (kv : KeyValStorage S) (cd : Codec V) (ctx : Context)
    (sched : List GatherEvent) (rb : ResponseBuilder V S) (chans : Nat → BoolChan)
    (r : Run V S) (h : build kv cd ctx sched rb chans = .ok r) :
    ChanInv chans rb.requiredReady rb.fullReady r := by
  rw [build_eq] at h
  have hs := build_start_chans kv cd ctx rb chans
  split_ifs at h
  · simp only [Except.ok.injEq] at h
    subst h
    exact hs.signalFull true
  · cases hg : gather (fetchCtxOf ctx (fromStorage kv cd ctx rb)) sched
        (build.fanOut (build.start kv cd ctx rb chans)) with
    | error f => rw [hg] at h; cases h
    | ok r1 =>
      rw [hg] at h
      simp only [Except.ok.injEq] at h
      subst h
      exact build_finish_chans _ _ _ kv cd ctx r1
        (gather_chans _ _ _ _ sched _ r1 (build_fanOut_chans _ _ _ _ hs) hg)

/-- The builder that `Build` started holds the two channels it was given. -/
theorem started_chanrefs {V S : Type} [Inhabited V] (now : Int) (rr fr : Option Nat)
    (storageKey : String) (storage : S) (nodesConf : List (NodeConf V)) (t : Int) :
    (started now rr fr storageKey storage nodesConf t).requiredReady = rr ∧
      (started now rr fr storageKey storage nodesConf t).fullReady = fr := by
  have h0 := (NewResponseBuilder_fresh storageKey storage nodesConf t).2
  simp only [started, Build, h0, ne_eq, not_true_eq_false, if_false, and_self]

/-- One value written to a channel: it is in the buffer when there was room and
dropped otherwise. -/
theorem offer_one (ch : BoolChan) (v : Bool) :
    ch.offer [v] =
      if ch.buf.length < ch.cap then { ch with buf := ch.buf ++ [v] } else ch := by
  split_ifs with h
  · have := offer_snoc_room ch [] v (by rw [offer_nil]; exact h)
    rw [List.nil_append, offer_nil] at this
    exact this
  · have := offer_snoc_full ch [] v (by rw [offer_nil]; exact h)
    rw [List.nil_append, offer_nil] at this
    exact this

/-! ## The claims about the readiness signals -/

/-- C10. In a run where the storage pre-load settles nothing (it leaves both
pending counters as they were) and the caller's context is not cancelled, with
the node builders completing in any order, `build` returns and writes exactly
one value `v` to fullReady; `v` is true iff no node builder returned an error.
When fullReady is a channel of its own with room in its buffer, `v` is in the
channel at the end: the buffer is what it was with `v` added, capacity
unchanged. The write does not block: when the buffer is full the value is
dropped and the channel is as it was. A channel that is neither requiredReady
nor fullReady is not touched. -/
theorem build_fullReady_once {V S : Type} [Inhabited V] (kv : KeyValStorage S) (cd : Codec V)
    (ctx : Context) (now : Int) (rr fr : Option Nat) (storageKey : String) (storage : S)
    (nodesConf : List (NodeConf V)) (t : Int) (chans : Nat → BoolChan) (order : List Nat)
    (hpre :
      (fromStorage kv cd ctx (started now rr fr storageKey storage nodesConf t)).numReqPending =
        (started now rr fr storageKey storage nodesConf t).numReqPending ∧
      (fromStorage kv cd ctx (started now rr fr storageKey storage nodesConf t)).numOptPending =
        (started now rr fr storageKey storage nodesConf t).numOptPending)
    (horder : order.Perm
      (List.range (started now rr fr storageKey storage nodesConf t).result.length)) :
    ∃ r v, build kv cd ctx (order.map GatherEvent.finished)
        (started now rr fr storageKey storage nodesConf t) chans = .ok r ∧
      fullSignals r.trace = [v] ∧
      (v = true ↔ ∀ n ∈ (started now rr fr storageKey storage nodesConf t).result,
        (n.nodeConf.Builder
          (fetchCtxOf ctx (started now rr fr storageKey storage nodesConf t))).2 = none) ∧
      (∀ c, fr = some c → rr ≠ some c → (chans c).buf.length < (chans c).cap →
        (r.chans c).buf = (chans c).buf ++ [v] ∧ (r.chans c).cap = (chans c).cap) ∧
      (∀ c, fr = some c → rr ≠ some c → ¬ (chans c).buf.length < (chans c).cap →
        r.chans c = chans c) ∧
      (∀ c, fr ≠ some c → rr ≠ some c → r.chans c = chans c) := by
  have hfresh : Fresh (started now rr fr storageKey storage nodesConf t) :=
    (Build_fresh now rr fr _ (NewResponseBuilder_fresh storageKey storage nodesConf t).1).1
  have hself := fromStorage_eq_self kv cd ctx _ hpre.1 hpre.2
  obtain ⟨r, h1, _, h3, _⟩ := build_fresh kv cd ctx _ chans order hfresh hself horder
  obtain ⟨_, _, hch⟩ := build_chans kv cd ctx _ _ chans r h1
  rw [(started_chanrefs now rr fr storageKey storage nodesConf t).1,
    (started_chanrefs now rr fr storageKey storage nodesConf t).2] at hch
  refine ⟨r, _, h1, h3, by simp, ?_, ?_, ?_⟩
  · intro c hf hr hroom
    rw [hch c, written_full rr fr c r.trace hf hr, h3, offer_one, if_pos hroom]
    exact ⟨rfl, rfl⟩
  · intro c hf hr hroom
    rw [hch c, written_full rr fr c r.trace hf hr, h3, offer_one, if_neg hroom]
  · intro c hf hr
    rw [hch c, written_other rr fr c r.trace hr hf, offer_nil]

/-- Witness of `build_fullReady_once`: three nodes over the no-op storage, the
failing optional node completing first, requiredReady and fullReady the empty
channels 0 and 1 of capacity one. At the end channel 1 holds the one value
false. -/
theorem build_fullReady_once_witness :
    (fromStorage NopKeyValStorage natCodec ⟨none⟩
        (started 5 (some 0) (some 1) "k" () sampleNodes 800)).numReqPending =
      (started 5 (some 0) (some 1) "k" () sampleNodes 800).numReqPending ∧
    [2, 0, 1].Perm (List.range (started 5 (some 0) (some 1) "k" () sampleNodes 800).result.length) ∧
    (sampleChans 1).buf.length < (sampleChans 1).cap ∧
    ∃ r, build NopKeyValStorage natCodec ⟨none⟩
        ([2, 0, 1].map GatherEvent.finished)
        (started 5 (some 0) (some 1) "k" () sampleNodes 800) sampleChans = .ok r ∧
      fullSignals r.trace = [false] ∧ (r.chans 1).buf = [false] ∧ (r.chans 1).cap = 1 ∧
      (build NopKeyValStorage natCodec ⟨none⟩ ([2, 0, 1].map GatherEvent.finished)
        (started 5 (some 0) (some 1) "k" () sampleNodes 800) sampleChans).toOption.map
          (fun r => ((r.chans 0).buf, (r.chans 1).buf)) = some ([true], [false]) := by
  obtain ⟨r, v, h1, h2, h3, h4, _, _⟩ :=
    build_fullReady_once NopKeyValStorage natCodec ⟨none⟩ 5 (some 0) (some 1) "k" ()
      sampleNodes 800 sampleChans [2, 0, 1] ⟨rfl, rfl⟩ (by decide)
  have hv : v = false := by
    cases v
    · rfl
    · have := h3.mp rfl
      revert this
      decide
  subst hv
  exact ⟨rfl, by decide, by decide, r, h1, h2, (h4 1 rfl (by decide) (by decide)).1,
    (h4 1 rfl (by decide) (by decide)).2, by decide⟩

theorem offer_full (ch : BoolChan) (vs : List Bool) (h : ¬ ch.buf.length < ch.cap) :
    ch.offer vs = ch := by
  have h0 : ch.cap - ch.buf.length = 0 := by omega
  simp [BoolChan.offer, h0]

theorem offer_two (ch : BoolChan) (u v : Bool) (h : ch.buf.length + 2 ≤ ch.cap) :
    ch.offer [u, v] = { ch with buf := ch.buf ++ [u, v] } := by
  simp only [BoolChan.offer]
  rw [List.take_of_length_le (by simp; omega)]

/-- C11. If after the pre-load both pending counters are zero, `build` writes
true to requiredReady and true to fullReady and returns: these two writes are
all it does, so no node builder is launched and the storage is not written.
What reaches the channels: when requiredReady and fullReady are two channels
with room in their buffers, each holds at the end what it held before with true
added; when they are one channel with room for two values it holds true twice
more; a channel whose buffer is full, and every other channel, is as it was. In
particular this is what happens for an empty node list, whatever the storage
holds, and `Result()` of an empty composition is the empty map, before and
after the run. -/
theorem build_early_exit {V S : Type} [Inhabited V] (kv : KeyValStorage S) (cd : Codec V)
    (ctx : Context) (sched : List GatherEvent) (rb : ResponseBuilder V S)
    (chans : Nat → BoolChan) (now : Int) (rr fr : Option Nat) (storageKey : String)
    (storage : S) (t : Int) :
    ((fromStorage kv cd ctx rb).numReqPending = 0 →
      (fromStorage kv cd ctx rb).numOptPending = 0 →
      ∃ r, build kv cd ctx sched rb chans = .ok r ∧
        r.trace = [Event.requiredReady true, Event.fullReady true] ∧
        r.rb = fromStorage kv cd ctx rb ∧ r.rb.storage = rb.storage ∧
        r.rb.result = rb.result ∧
        r.chans = noBlockChanBoolRes (noBlockChanBoolRes chans rb.requiredReady true)
          rb.fullReady true ∧
        (∀ c, rb.requiredReady = some c → rb.fullReady ≠ some c →
          (chans c).buf.length < (chans c).cap →
          (r.chans c).buf = (chans c).buf ++ [true] ∧ (r.chans c).cap = (chans c).cap) ∧
        (∀ c, rb.fullReady = some c → rb.requiredReady ≠ some c →
          (chans c).buf.length < (chans c).cap →
          (r.chans c).buf = (chans c).buf ++ [true] ∧ (r.chans c).cap = (chans c).cap) ∧
        (∀ c, rb.requiredReady = some c → rb.fullReady = some c →
          (chans c).buf.length + 2 ≤ (chans c).cap →
          (r.chans c).buf = (chans c).buf ++ [true, true] ∧ (r.chans c).cap = (chans c).cap) ∧
        (∀ c, ¬ (chans c).buf.length < (chans c).cap → r.chans c = chans c) ∧
        (∀ c, rb.requiredReady ≠ some c → rb.fullReady ≠ some c → r.chans c = chans c)) ∧
    (∃ r, build kv cd ctx sched
          (started now rr fr storageKey storage ([] : List (NodeConf V)) t) chans = .ok r ∧
        r.trace = [Event.requiredReady true, Event.fullReady true] ∧
        r.rb.Result.1 = [] ∧
        (started now rr fr storageKey storage ([] : List (NodeConf V)) t).Result.1 = [] ∧
        (∀ c, rr = some c → fr ≠ some c → (chans c).buf.length < (chans c).cap →
          (r.chans c).buf = (chans c).buf ++ [true] ∧ (r.chans c).cap = (chans c).cap) ∧
        (∀ c, fr = some c → rr ≠ some c → (chans c).buf.length < (chans c).cap →
          (r.chans c).buf = (chans c).buf ++ [true] ∧ (r.chans c).cap = (chans c).cap)) := by
  have hgen : ∀ rb : ResponseBuilder V S, (fromStorage kv cd ctx rb).numReqPending = 0 →
      (fromStorage kv cd ctx rb).numOptPending = 0 →
      ∃ r, build kv cd ctx sched rb chans = .ok r ∧
        r.trace = [Event.requiredReady true, Event.fullReady true] ∧
        r.rb = fromStorage kv cd ctx rb ∧ r.rb.storage = rb.storage ∧
        r.rb.result = rb.result ∧
        r.chans = noBlockChanBoolRes (noBlockChanBoolRes chans rb.requiredReady true)
          rb.fullReady true ∧
        (∀ c, rb.requiredReady = some c → rb.fullReady ≠ some c →
          (chans c).buf.length < (chans c).cap →
          (r.chans c).buf = (chans c).buf ++ [true] ∧ (r.chans c).cap = (chans c).cap) ∧
        (∀ c, rb.fullReady = some c → rb.requiredReady ≠ some c →
          (chans c).buf.length < (chans c).cap →
          (r.chans c).buf = (chans c).buf ++ [true] ∧ (r.chans c).cap = (chans c).cap) ∧
        (∀ c, rb.requiredReady = some c → rb.fullReady = some c →
          (chans c).buf.length + 2 ≤ (chans c).cap →
          (r.chans c).buf = (chans c).buf ++ [true, true] ∧ (r.chans c).cap = (chans c).cap) ∧
        (∀ c, ¬ (chans c).buf.length < (chans c).cap → r.chans c = chans c) ∧
        (∀ c, rb.requiredReady ≠ some c → rb.fullReady ≠ some c → r.chans c = chans c) := by
    intro rb h1 h2
    obtain ⟨_, k2, k3, _, _, _, k7, k8, _, _⟩ := fromStorage_same kv cd ctx rb
    have hb : build kv cd ctx sched rb chans =
        .ok ((build.start kv cd ctx rb chans).signalFull true) := by
      rw [build_eq, if_pos ⟨h1, h2⟩]
    have htr : ((build.start kv cd ctx rb chans).signalFull true).trace =
        [Event.requiredReady true, Event.fullReady true] := by
      simp [build.start, h1, Run.signalFull, Run.signalRequired]
    obtain ⟨_, _, hch⟩ := build_chans kv cd ctx sched rb chans _ hb
    rw [htr] at hch
    refine ⟨(build.start kv cd ctx rb chans).signalFull true, hb, htr, ?_, ?_, ?_, ?_,
      ?_, ?_, ?_, ?_, ?_⟩
    · simp [build.start, h1, Run.signalFull, Run.signalRequired]
    · simp [build.start, h1, Run.signalFull, Run.signalRequired, k2]
    · simp [build.start, h1, Run.signalFull, Run.signalRequired, k3]
    · simp [build.start, h1, Run.signalFull, Run.signalRequired, k7, k8]
    · intro c hr hf hroom
      rw [hch c, written_required _ _ c _ hr hf]
      simp only [requiredSignals, List.filterMap_cons, List.filterMap_nil]
      rw [offer_one, if_pos hroom]
      exact ⟨rfl, rfl⟩
    · intro c hf hr hroom
      rw [hch c, written_full _ _ c _ hf hr]
      simp only [fullSignals, List.filterMap_cons, List.filterMap_nil]
      rw [offer_one, if_pos hroom]
      exact ⟨rfl, rfl⟩
    · intro c hr hf hroom
      rw [hch c]
      simp only [written, hr, hf, List.filterMap_cons, List.filterMap_nil, if_true]
      rw [offer_two _ _ _ hroom]
      exact ⟨rfl, rfl⟩
    · intro c hroom
      rw [hch c, offer_full _ _ hroom]
    · intro c hr hf
      rw [hch c, written_other _ _ c _ hr hf, offer_nil]
  refine ⟨hgen rb, ?_⟩
  have hres : (started now rr fr storageKey storage ([] : List (NodeConf V)) t).result = [] := by
    simp [started, Build, NewResponseBuilder, NewResponseBuilder.init]
  have hself := fromStorage_nil kv cd ctx _ hres
  have h1 : (started now rr fr storageKey storage ([] : List (NodeConf V)) t).numReqPending
      = 0 := by
    simp [started, Build, NewResponseBuilder, NewResponseBuilder.init]
  have h2 : (started now rr fr storageKey storage ([] : List (NodeConf V)) t).numOptPending
      = 0 := by
    simp [started, Build, NewResponseBuilder, NewResponseBuilder.init]
  obtain ⟨r, e1, e2, e3, _, e5, _, e7, e8, _⟩ :=
    hgen _ (by rw [hself]; exact h1) (by rw [hself]; exact h2)
  rw [(started_chanrefs now rr fr storageKey storage ([] : List (NodeConf V)) t).1,
    (started_chanrefs now rr fr storageKey storage ([] : List (NodeConf V)) t).2] at e7 e8
  refine ⟨r, e1, e2, ?_, ?_, e7, e8⟩
  · simp [ResponseBuilder.Result, e5, hres]
  · simp [ResponseBuilder.Result, hres]

/-- Witness of `build_early_exit`: composition B of the round trip finds its
one node in the storage, so both counters are zero after the pre-load; its
requiredReady and fullReady are the empty channels 2 and 3 of capacity one, and
at the end each of them holds the one value true. The same for a composition
without nodes over the channels 0 and 1. -/
theorem build_early_exit_witness :
    ((fromStorage InMemStorage natCodec ⟨none⟩
      (started 9 (some 2) (some 3) "k" preloadStorage roundTripNodes 800)).numReqPending = 0 ∧
    (fromStorage InMemStorage natCodec ⟨none⟩
      (started 9 (some 2) (some 3) "k" preloadStorage roundTripNodes 800)).numOptPending = 0 ∧
    ∃ r, build InMemStorage natCodec ⟨none⟩ [GatherEvent.finished 0]
        (started 9 (some 2) (some 3) "k" preloadStorage roundTripNodes 800) sampleChans =
          .ok r ∧
      r.trace = [Event.requiredReady true, Event.fullReady true] ∧
      r.rb.storage = preloadStorage ∧
      (r.chans 2).buf = [true] ∧ (r.chans 3).buf = [true] ∧
      (build InMemStorage natCodec ⟨none⟩ [GatherEvent.finished 0]
        (started 9 (some 2) (some 3) "k" preloadStorage roundTripNodes 800)
        sampleChans).toOption.map
          (fun r => ((r.chans 2).buf, (r.chans 3).buf)) = some ([true], [true])) ∧
    (∃ r, build InMemStorage natCodec ⟨none⟩ []
        (started 5 (some 0) (some 1) "k" preloadStorage ([] : List (NodeConf Nat)) 800)
        sampleChans = .ok r ∧
      r.rb.Result.1 = [] ∧ (r.chans 0).buf = [true] ∧ (r.chans 1).buf = [true]) := by
  refine ⟨⟨by decide, by decide, ?_⟩, ?_⟩
  · obtain ⟨r, h1, h2, _, h4, _, _, h7, h8, _⟩ :=
      (build_early_exit InMemStorage natCodec ⟨none⟩ [GatherEvent.finished 0]
        (started 9 (some 2) (some 3) "k" preloadStorage roundTripNodes 800) sampleChans 0
        none none "k" preloadStorage 800).1 (by decide) (by decide)
    exact ⟨r, h1, h2, h4, (h7 2 (by decide) (by decide) (by decide)).1,
      (h8 3 (by decide) (by decide) (by decide)).1, by decide⟩
  · obtain ⟨r, h1, _, h3, _, h5, h6⟩ :=
      (build_early_exit InMemStorage natCodec ⟨none⟩ []
        (started 5 (some 0) (some 1) "k" preloadStorage ([] : List (NodeConf Nat)) 800)
        sampleChans 5 (some 0) (some 1) "k" preloadStorage 800).2
    exact ⟨r, h1, h3, (h5 0 rfl (by decide) (by decide)).1,
      (h6 1 rfl (by decide) (by decide)).1⟩

/-! ## What reaches the delivery channels -/

theorem send_chans {V : Type} (w : FetcherWorld V) (c : Nat)
    (v : Option (AsyncFetchData V)) (s : Sender) :
    (w.send c v s).chans =
      Function.update w.chans c { w.chans c with queued := (w.chans c).queued ++ [v] } := by
  rfl

/-- The notification loop of `backgroundFetch` puts its `n` values on the
channel, behind what waits there, and touches no other channel. -/
theorem notify_chans {V : Type} (c : Nat) (res : AsyncFetchData V) (n : Nat) :
    ∀ w : FetcherWorld V, (w.notify c res n).chans =
      Function.update w.chans c
        { w.chans c with queued := (w.chans c).queued ++ List.replicate n (some res) } := by
  induction n with
  | zero =>
    intro w
    simp [FetcherWorld.notify]
  | succ n ih =>
    intro w
    simp only [FetcherWorld.notify]
    rw [ih, send_chans]
    simp [List.replicate_succ]

theorem backgroundFetch_chans {V : Type} (w w2 : FetcherWorld V) (ctx : Context)
    (req : AsyncFetchReq V) (f : DataFetcherFn V) (cad : cachedAsyncData V)
    (hf : req.Fetcher = some f) (hg : w.df.data.get req.Hash = some cad)
    (h : DataFetcherImpl.backgroundFetch w ctx req = .ok w2) :
    w2.chans = Function.update w.chans cad.notifyChan
      { w.chans cad.notifyChan with
        queued := (w.chans cad.notifyChan).queued ++
          List.replicate cad.numPendingNotifications.toNat
            (some { Hash := req.Hash, Result := (f ctx).1, Err := (f ctx).2 }) } := by
  simp only [DataFetcherImpl.backgroundFetch, hf, hg, Except.ok.injEq] at h
  rw [← h, notify_chans]

theorem new_cap {V : Type} (n : Int) : CapInv n (FetcherWorld.new n : FetcherWorld V) := by
  refine ⟨?_, ?_⟩
  · simp [FetcherWorld.new, NewDataFetcherImpl]
  · intro H cad h
    simp [FetcherWorld.new, NewDataFetcherImpl, GoMap.get] at h

theorem Fetch_cap {V : Type} (n : Int) (w w2 : FetcherWorld V) (ctx : Context)
    (req : AsyncFetchReq V) (out : Option Nat × GoError) (hinv : FetcherInv w)
    (hcap : CapInv n w) (h : DataFetcherImpl.Fetch w ctx req = .ok (w2, out)) :
    CapInv n w2 := by
  obtain ⟨hc1, hc2⟩ := hcap
  cases hf : req.Fetcher with
  | none =>
    simp only [DataFetcherImpl.Fetch, hf, Except.ok.injEq, Prod.mk.injEq] at h
    rw [← h.1]; exact ⟨hc1, hc2⟩
  | some f =>
    have hf2 : req.Fetcher.isSome = true := by rw [hf]; rfl
    cases hg : w.df.data.get (effectiveReq req).Hash with
    | some cad =>
      by_cases hp : cad.numPendingNotifications > 0
      · rw [Fetch_inflight w ctx req cad hf2 hg hp] at h
        simp only [Except.ok.injEq, Prod.mk.injEq] at h
        rw [← h.1]
        refine ⟨hc1, ?_⟩
        intro H cad2 h2
        simp only [GoMap.get_set] at h2
        split_ifs at h2 with hH
        · simp only [Option.some.injEq] at h2
          rw [← h2]
          exact hc2 _ cad hg
        · exact hc2 H cad2 h2
      · obtain ⟨s, hs⟩ := Fetch_settled w ctx req cad hf2 hg hp
        rw [hs] at h
        simp only [Except.ok.injEq, Prod.mk.injEq] at h
        rw [← h.1]
        refine ⟨hc1, ?_⟩
        intro H cad2 h2
        have h3 := hc2 H cad2 h2
        simp only [FetcherWorld.send] at h2 ⊢
        by_cases hc : cad2.notifyChan = cad.notifyChan
        · rw [hc, Function.update_same]
          rw [hc] at h3
          exact h3
        · rw [Function.update_noteq hc]
          exact h3
    | none =>
      rw [Fetch_new w ctx req hf2 hg hinv.cap_nonneg] at h
      simp only [Except.ok.injEq, Prod.mk.injEq] at h
      rw [← h.1]
      refine ⟨hc1, ?_⟩
      intro H cad2 h2
      simp only [GoMap.get_set] at h2 ⊢
      split_ifs at h2 with hH
      · simp only [Option.some.injEq] at h2
        rw [← h2]
        simp
      · have hlt := hinv.chan_lt H cad2 h2
        rw [Function.update_noteq (by omega)]
        exact hc2 H cad2 h2

theorem backgroundFetch_cap {V : Type} (n : Int) (w w2 : FetcherWorld V) (ctx : Context)
    (req : AsyncFetchReq V) (hcap : CapInv n w)
    (h : DataFetcherImpl.backgroundFetch w ctx req = .ok w2) : CapInv n w2 := by
  obtain ⟨hc1, hc2⟩ := hcap
  cases hf : req.Fetcher with
  | none => simp only [DataFetcherImpl.backgroundFetch, hf] at h; cases h
  | some f =>
    cases hg : w.df.data.get req.Hash with
    | none =>
      simp only [DataFetcherImpl.backgroundFetch, hf, hg, Except.ok.injEq] at h
      rw [← h]; exact ⟨hc1, hc2⟩
    | some cad =>
      have hch := backgroundFetch_chans w w2 ctx req f cad hf hg h
      obtain ⟨w3, e1, e2, _, _, _⟩ := backgroundFetch_fields w ctx req f cad hf hg
      rw [h] at e1
      simp only [Except.ok.injEq] at e1
      subst e1
      refine ⟨by rw [e2]; exact hc1, ?_⟩
      intro H cad2 h2
      rw [e2] at h2 ⊢
      simp only [GoMap.get_set] at h2 ⊢
      have key : ∀ c2, (w.chans c2).cap = w.df.dataChanCap → (w2.chans c2).cap =
          w.df.dataChanCap := by
        intro c2 hc
        rw [hch]
        by_cases hcc : c2 = cad.notifyChan
        · rw [hcc, Function.update_same]
          rw [hcc] at hc
          exact hc
        · rw [Function.update_noteq hcc]
          exact hc
      split_ifs at h2 with hH
      · simp only [Option.some.injEq] at h2
        rw [← h2]
        exact key _ (hc2 _ cad hg)
      · exact key _ (hc2 H cad2 h2)

theorem step_cap {V : Type} (n : Int) (w w2 : FetcherWorld V) (a : FetchAction V)
    (hinv : FetcherInv w) (hcap : CapInv n w) (h : w.step a = .ok w2) : CapInv n w2 := by
  cases a with
  | fetch ctx req =>
    simp only [FetcherWorld.step] at h
    cases hF : DataFetcherImpl.Fetch w ctx req with
    | error f => rw [hF] at h; cases h
    | ok out =>
      rw [hF] at h
      simp only [Except.ok.injEq] at h
      obtain ⟨w3, o⟩ := out
      simp only at h
      subst h
      exact Fetch_cap n w w3 ctx req o hinv hcap hF
  | settle i =>
    simp only [FetcherWorld.step] at h
    cases ht : w.background[i]? with
    | none => rw [ht] at h; cases h
    | some task =>
      rw [ht] at h
      simp only at h
      have hc0 : CapInv n ({ w with background := w.background.eraseIdx i } :
          FetcherWorld V) := hcap
      exact backgroundFetch_cap n _ w2 task.1 task.2 hc0 h
  | recv c =>
    simp only [FetcherWorld.step] at h
    cases hqq : (w.chans c).queued with
    | nil => rw [hqq] at h; cases h
    | cons v rest =>
      rw [hqq] at h
      simp only [Except.ok.injEq] at h
      subst h
      refine ⟨hcap.1, ?_⟩
      intro H cad h2
      have h3 := hcap.2 H cad h2
      simp only at h2 ⊢
      by_cases hc : cad.notifyChan = c
      · rw [hc, Function.update_same]
        rw [hc] at h3
        exact h3
      · rw [Function.update_noteq hc]
        exact h3

theorem run_cap {V : Type} (n : Int) (actions : List (FetchAction V)) :
    ∀ (w0 w : FetcherWorld V), FetcherInv w0 → CapInv n w0 →
      FetcherWorld.run actions w0 = .ok w → CapInv n w := by
  induction actions with
  | nil =>
    intro w0 w _ hc h
    simp only [FetcherWorld.run, Except.ok.injEq] at h
    subst h; exact hc
  | cons a rest ih =>
    intro w0 w hinv hc h
    simp only [FetcherWorld.run] at h
    cases hs : w0.step a with
    | error f => rw [hs] at h; cases h
    | ok w1 =>
      rw [hs] at h
      exact ih w1 w (step_inv w0 w1 a hinv hs) (step_cap n w0 w1 a hinv hc hs) h

/-- The second branch of `Fetch` with the sender named: `Fetch` itself when the
channel has room, the goroutine it starts otherwise. -/
theorem Fetch_settled_sender {V : Type} (w : FetcherWorld V) (ctx : Context)
    (req : AsyncFetchReq V) (cad : cachedAsyncData V) (hf : req.Fetcher.isSome = true)
    (hg : w.df.data.get (effectiveReq req).Hash = some cad)
    (hp : ¬ cad.numPendingNotifications > 0) :
    DataFetcherImpl.Fetch w ctx req = .ok
      ({ w.send cad.notifyChan cad.fetchedData
            (if ((w.chans cad.notifyChan).queued.length : Int) < (w.chans cad.notifyChan).cap
              then Sender.fetch else Sender.fetchSpawned) with
          trace := w.trace ++ [FetchEvent.deliver cad.notifyChan cad.fetchedData
              (if ((w.chans cad.notifyChan).queued.length : Int) < (w.chans cad.notifyChan).cap
                then Sender.fetch else Sender.fetchSpawned),
            FetchEvent.call (effectiveReq req).Hash cad.notifyChan] },
        some cad.notifyChan, none) := by
  obtain ⟨f, hf⟩ := Option.isSome_iff_exists.mp hf
  simp only [DataFetcherImpl.Fetch, hf, hg, hp, if_false, FetcherWorld.send,
    List.append_assoc, List.singleton_append]

/-- As many receives in a row as values wait in a channel succeed and leave it
empty, and the next receive finds nothing. -/
theorem run_recv {V : Type} (c : Nat) :
    ∀ (k : Nat) (w : FetcherWorld V), (w.chans c).queued.length = k →
      ∃ w2, FetcherWorld.run (List.replicate k (FetchAction.recv c)) w = .ok w2 ∧
        (w2.chans c).queued = [] ∧
        w2.step (FetchAction.recv c) = .error Fault.blocked := by
  intro k
  induction k with
  | zero =>
    intro w h
    have h0 : (w.chans c).queued = [] := List.length_eq_zero.mp h
    exact ⟨w, rfl, h0, by simp only [FetcherWorld.step, h0]⟩
  | succ k ih =>
    intro w h
    cases hq : (w.chans c).queued with
    | nil => rw [hq] at h; cases h
    | cons v rest =>
      rw [hq] at h
      simp only [List.length_cons, Nat.add_right_cancel_iff] at h
      obtain ⟨w2, h1, h2, h3⟩ := ih
        ({ w with chans := Function.update w.chans c { w.chans c with queued := rest } } :
          FetcherWorld V) (by simp only [Function.update_same]; exact h)
      refine ⟨w2, ?_, h2, h3⟩
      simp only [List.replicate_succ, FetcherWorld.run, FetcherWorld.step, hq]
      exact h1

/-- C3. In every state a new fetcher reaches, take a `backgroundFetch`
goroutine that was started and has not run, for the request `req`. Then the
number `N` of calls of `Fetch` for `req.Hash` so far is at least one, every one
of them returned the channel of the cache entry, nothing was sent on that
channel yet and the channel is empty, with the capacity the fetcher was made
with. When the goroutine runs it calls the fetcher function and sends exactly
`N` times on that channel, each time the settled `AsyncFetchData` made of the
hash and of what the fetcher function returned; afterwards the channel holds
exactly these `N` equal values (the first ones, up to the capacity, in its
buffer, the goroutine waiting with the others), and no other channel has
changed. `N` receives from the channel then succeed, one for each of the calls,
and a further receive finds nothing. -/
theorem backgroundFetch_delivery_count {V : Type} (n : Int) (actions : List (FetchAction V))
    (w : FetcherWorld V) (hrun : FetcherWorld.run actions (FetcherWorld.new n) = .ok w)
    (i : Nat) (ctx : Context) (req : AsyncFetchReq V)
    (ht : w.background[i]? = some (ctx, req)) :
    ∃ f cad w2, req.Fetcher = some f ∧ w.df.data.get req.Hash = some cad ∧
      1 ≤ (calls w.trace).count req.Hash ∧
      (∀ c, FetchEvent.call req.Hash c ∈ w.trace → c = cad.notifyChan) ∧
      (∀ v s, FetchEvent.deliver cad.notifyChan v s ∉ w.trace) ∧
      (w.chans cad.notifyChan).queued = [] ∧
      (w.chans cad.notifyChan).cap = (if n ≤ 1 then 16 else n) ∧
      w.step (FetchAction.settle i) = .ok w2 ∧
      w2.trace = w.trace ++ FetchEvent.invoke req.Hash ::
        List.replicate ((calls w.trace).count req.Hash)
          (FetchEvent.deliver cad.notifyChan
            (some { Hash := req.Hash, Result := (f ctx).1, Err := (f ctx).2 })
            Sender.background) ∧
      (w2.chans cad.notifyChan).queued =
        List.replicate ((calls w.trace).count req.Hash)
          (some { Hash := req.Hash, Result := (f ctx).1, Err := (f ctx).2 }) ∧
      (w2.chans cad.notifyChan).cap = (w.chans cad.notifyChan).cap ∧
      (∀ c, c ≠ cad.notifyChan → w2.chans c = w.chans c) ∧
      (∃ w3, FetcherWorld.run
          (List.replicate ((calls w.trace).count req.Hash)
            (FetchAction.recv cad.notifyChan)) w2 = .ok w3 ∧
        (w3.chans cad.notifyChan).queued = [] ∧
        w3.step (FetchAction.recv cad.notifyChan) = .error Fault.blocked) := by
  have hinv := run_inv actions _ w (new_inv n) hrun
  have hq := run_queue actions _ w (new_inv n) (new_queue n) hrun
  have hcap := run_cap n actions _ w (new_inv n) (new_cap n) hrun
  have hmem : (ctx, req) ∈ w.background := mem_of_getElem_eq_some ht
  obtain ⟨f, hf⟩ := Option.isSome_iff_exists.mp (hinv.task_fetcher _ hmem)
  have hpend : req.Hash ∈ w.pending := by
    simp only [FetcherWorld.pending, List.mem_map]
    exact ⟨(ctx, req), hmem, rfl⟩
  have hs : (w.df.data.get req.Hash).isSome = true :=
    hinv.started_sub _ (List.mem_append_right _ hpend)
  obtain ⟨cad, hg⟩ := Option.isSome_iff_exists.mp hs
  have hcad : cad.fetchedData = none ∧
      cad.numPendingNotifications = (((calls w.trace).count req.Hash : Nat) : Int) ∧
      1 ≤ cad.numPendingNotifications := by
    rcases hinv.entry _ cad hg with h | h
    · exact ⟨h.1, h.2.2.1, h.2.2.2⟩
    · exact absurd hpend h.2.1
  have hnone : ∀ v s, FetchEvent.deliver cad.notifyChan v s ∉ w.trace := by
    intro v s hd
    obtain ⟨K, d, g, q1, q2, q3⟩ := hinv.deliver_data _ v s hd
    have hK : K = req.Hash := hinv.chan_inj K req.Hash d cad g hg q1
    subst hK
    rw [hg] at g
    cases g
    rw [hcad.1] at q2
    rw [← q2] at q3
    cases q3
  have hempty : (w.chans cad.notifyChan).queued = [] := by
    rw [List.eq_nil_iff_forall_not_mem]
    intro v hv
    obtain ⟨s, hs⟩ := hq _ v hv
    exact hnone v s hs
  obtain ⟨w3, e1, e2, e3, e4, e5⟩ := backgroundFetch_fields
    ({ w with background := w.background.eraseIdx i } : FetcherWorld V) ctx req f cad hf hg
  have hch := backgroundFetch_chans
    ({ w with background := w.background.eraseIdx i } : FetcherWorld V) w3 ctx req f cad hf hg e1
  simp only at hch
  have hN : cad.numPendingNotifications.toNat = (calls w.trace).count req.Hash := by
    rw [hcad.2.1]; rfl
  have hqueue : (w3.chans cad.notifyChan).queued =
      List.replicate ((calls w.trace).count req.Hash)
        (some { Hash := req.Hash, Result := (f ctx).1, Err := (f ctx).2 }) := by
    rw [hch, Function.update_same, hempty, hN]
    rfl
  refine ⟨f, cad, w3, hf, hg, by have := hcad.2.1; have := hcad.2.2; omega, ?_, hnone, hempty,
    ?_, ?_, ?_, hqueue, ?_, ?_, ?_⟩
  · intro c hc
    obtain ⟨d, g, q⟩ := hinv.call_chan _ c hc
    rw [hg] at g
    cases g
    exact q.symm
  · rw [hcap.2 _ cad hg, hcap.1]
  · simp only [FetcherWorld.step, ht]
    exact e1
  · rw [e5, hN]
  · rw [hch, Function.update_same]
  · intro c hc
    rw [hch, Function.update_noteq hc]
  · exact run_recv cad.notifyChan _ w3 (by rw [hqueue, List.length_replicate])

/-- Witness of `backgroundFetch_delivery_count`: after three calls of `Fetch`
for the hash `h`, the goroutine started by the first call sends the value 3
three times on channel 0, which then holds these three values. -/
theorem backgroundFetch_delivery_count_witness :
    ∃ w w2, FetcherWorld.run sampleCalls (FetcherWorld.new 0) = .ok w ∧
      (w.background[0]?).map (fun task => task.2.Hash) = some "h" ∧
      (calls w.trace).count "h" = 3 ∧
      (w.chans 0).queued = [] ∧ (w.chans 0).cap = 16 ∧
      w.step (FetchAction.settle 0) = .ok w2 ∧
      w2.trace.drop w.trace.length = FetchEvent.invoke "h" ::
        List.replicate 3 (FetchEvent.deliver 0
          (some { Hash := "h", Result := 3, Err := none }) Sender.background) ∧
      (w2.chans 0).queued =
        List.replicate 3 (some { Hash := "h", Result := 3, Err := none }) ∧
      (FetcherWorld.run (sampleCalls ++ [FetchAction.settle 0])
          (FetcherWorld.new 0)).toOption.map
        (fun w => (w.chans 0).queued.map (fun v => v.map (fun d => (d.Hash, d.Result)))) =
        some [some ("h", 3), some ("h", 3), some ("h", 3)] := by
  have hs : ((FetcherWorld.run sampleCalls (FetcherWorld.new 0)).toOption.map
      (fun w => (w.background.map (fun task => (task.1, task.2.Hash, task.2.addr,
        task.2.Fetcher.map (fun f => f task.1))),
        (calls w.trace).count "h",
        w.df.data.map (fun p => (p.1, p.2.notifyChan))))) =
      some ([(⟨none⟩, "h", 4096, some (3, none))], 3, [("h", 0)]) := by rfl
  cases hrun : FetcherWorld.run sampleCalls (FetcherWorld.new 0) with
  | error f => rw [hrun] at hs; cases hs
  | ok w =>
    rw [hrun] at hs
    simp only [Except.toOption, Option.map_some', Option.some.injEq, Prod.mk.injEq] at hs
    obtain ⟨hb, hc, hd⟩ := hs
    cases hbg : w.background with
    | nil => rw [hbg] at hb; cases hb
    | cons task rest =>
      obtain ⟨ctx, req⟩ := task
      rw [hbg] at hb
      simp only [List.map_cons, List.cons.injEq, Prod.mk.injEq] at hb
      obtain ⟨⟨hctx, hhash, _, hfun⟩, _⟩ := hb
      have ht : w.background[0]? = some (ctx, req) := by rw [hbg]; simp
      obtain ⟨f, cad, w2, h1, h2, h3, h4, h5, h5a, h5b, h6, h7, h8, _, _, _⟩ :=
        backgroundFetch_delivery_count 0 sampleCalls w hrun 0 ctx req ht
      have hchan : cad.notifyChan = 0 := by
        cases hdata : w.df.data with
        | nil => rw [hdata] at hd; cases hd
        | cons p tl =>
          rw [hdata] at hd h2
          simp only [List.map_cons, List.cons.injEq, Prod.mk.injEq] at hd
          obtain ⟨⟨hk, hn⟩, _⟩ := hd
          simp only [hhash, GoMap.get, hk, if_true, Option.some.injEq] at h2
          rw [← h2]; exact hn
      have hres : f ctx = (3, none) := by
        rw [h1] at hfun
        simpa using hfun
      rw [hchan] at h5a h5b h8
      refine ⟨w, w2, rfl, by rw [ht]; simp [hhash], hc, h5a, by rw [h5b]; rfl, h6, ?_, ?_,
        by rfl⟩
      · rw [h7, List.drop_left, hhash, hc, hchan, hres]
      · rw [h8, hhash, hc, hres]

/-- C4. In every state a new fetcher reaches, a call of `Fetch` (with a
non-nil fetcher function) for a hash whose cache entry holds the settled data
`d` returns the channel of the entry with a nil error, starts no
`backgroundFetch` and leaves the cache as it is, and sends exactly once, the
value `d`, on that channel: afterwards the channel holds what waited in it
before and, behind that, `d`; its capacity and the other channels are
unchanged. The send is made by `Fetch` itself when the channel has room and by
the goroutine `Fetch` starts for it otherwise. All earlier calls for the hash
returned that same channel, every earlier send on it was of `d` as well, and so
is every value that waits in it. -/
theorem Fetch_settled_entry {V : Type} (n : Int) (actions : List (FetchAction V))
    (w : FetcherWorld V) (hrun : FetcherWorld.run actions (FetcherWorld.new n) = .ok w)
    (ctx : Context) (req : AsyncFetchReq V) (cad : cachedAsyncData V) (d : AsyncFetchData V)
    (hf : req.Fetcher.isSome = true)
    (hg : w.df.data.get (effectiveReq req).Hash = some cad)
    (hd : cad.fetchedData = some d) :
    ∃ w2 s, DataFetcherImpl.Fetch w ctx req = .ok (w2, some cad.notifyChan, none) ∧
      w2.background = w.background ∧ w2.df = w.df ∧
      w2.trace = w.trace ++ [FetchEvent.deliver cad.notifyChan (some d) s,
        FetchEvent.call (effectiveReq req).Hash cad.notifyChan] ∧
      s = (if ((w.chans cad.notifyChan).queued.length : Int) < (w.chans cad.notifyChan).cap
        then Sender.fetch else Sender.fetchSpawned) ∧
      (w2.chans cad.notifyChan).queued = (w.chans cad.notifyChan).queued ++ [some d] ∧
      (w2.chans cad.notifyChan).cap = (w.chans cad.notifyChan).cap ∧
      (∀ c, c ≠ cad.notifyChan → w2.chans c = w.chans c) ∧
      (∀ v ∈ (w.chans cad.notifyChan).queued, v = some d) ∧
      (∀ c, FetchEvent.call (effectiveReq req).Hash c ∈ w.trace → c = cad.notifyChan) ∧
      (∀ v s2, FetchEvent.deliver cad.notifyChan v s2 ∈ w.trace → v = some d) := by
  have hinv := run_inv actions _ w (new_inv n) hrun
  have hq := run_queue actions _ w (new_inv n) (new_queue n) hrun
  have hp : ¬ cad.numPendingNotifications > 0 := by
    rcases hinv.entry _ cad hg with h | h
    · rw [h.1] at hd; cases hd
    · omega
  have hs := Fetch_settled_sender w ctx req cad hf hg hp
  have hdel : ∀ v s2, FetchEvent.deliver cad.notifyChan v s2 ∈ w.trace → v = some d := by
    intro v s2 hv
    obtain ⟨K, d2, g, q1, q2, q3⟩ := hinv.deliver_data _ v s2 hv
    have hK : K = (effectiveReq req).Hash := hinv.chan_inj K _ d2 cad g hg q1
    subst hK
    rw [hg] at g
    cases g
    rw [← q2, hd]
  refine ⟨_, _, hs, rfl, rfl, by rw [hd], rfl, ?_, ?_, ?_, ?_, ?_, hdel⟩
  · simp only [FetcherWorld.send, Function.update_same, hd]
  · simp only [FetcherWorld.send, Function.update_same]
  · intro c hc
    simp only [FetcherWorld.send, Function.update_noteq hc]
  · intro v hv
    obtain ⟨s2, hs2⟩ := hq _ v hv
    exact hdel v s2 hs2
  · intro c hc
    obtain ⟨d2, g, q⟩ := hinv.call_chan _ c hc
    rw [hg] at g
    cases g
    exact q.symm

/-- Witness of `Fetch_settled_entry`: after two calls for the hash `h` and the
settlement, channel 0 holds the settled value 3 twice; a third call returns
channel 0 and sends the settled value once more, so that the channel holds it
three times. -/
theorem Fetch_settled_entry_witness :
    ∃ w w2 s, FetcherWorld.run sampleSettled (FetcherWorld.new 0) = .ok w ∧
      (w.df.data.get "h").map (fun c => (c.notifyChan, c.fetchedData.map (fun d => d.Result))) =
        some (0, some 3) ∧
      DataFetcherImpl.Fetch w ⟨none⟩ (sampleReq 5) = .ok (w2, some 0, none) ∧
      w2.background = w.background ∧
      (w2.trace.drop w.trace.length).map
          (fun e => match e with
            | FetchEvent.deliver c v _ => some (c, v.map (fun d => d.Result))
            | _ => none) = [some (0, some 3), none] ∧
      w2.trace.drop w.trace.length =
        [FetchEvent.deliver 0 (w.df.data.get "h" >>= fun c => c.fetchedData) s,
         FetchEvent.call "h" 0] ∧
      (w.chans 0).queued.map (fun v => v.map (fun d => d.Result)) = [some 3, some 3] ∧
      (w2.chans 0).queued.map (fun v => v.map (fun d => d.Result)) =
        [some 3, some 3, some 3] := by
  have hs : ((FetcherWorld.run sampleSettled (FetcherWorld.new 0)).toOption.map
      (fun w => ((w.df.data.get "h").map
        (fun c => (c.notifyChan, c.fetchedData.map (fun d => d.Result))),
        (w.chans 0).queued.map (fun v => v.map (fun d => d.Result))))) =
      some (some (0, some 3), [some 3, some 3]) := by rfl
  cases hrun : FetcherWorld.run sampleSettled (FetcherWorld.new 0) with
  | error f => rw [hrun] at hs; cases hs
  | ok w =>
    rw [hrun] at hs
    simp only [Except.toOption, Option.map_some', Option.some.injEq, Prod.mk.injEq] at hs
    obtain ⟨hs, hqw⟩ := hs
    cases hg : w.df.data.get "h" with
    | none => rw [hg] at hs; cases hs
    | some cad =>
      rw [hg] at hs
      simp only [Option.map_some', Option.some.injEq, Prod.mk.injEq] at hs
      obtain ⟨hchan, hdata⟩ := hs
      cases hd : cad.fetchedData with
      | none => rw [hd] at hdata; cases hdata
      | some d =>
        rw [hd] at hdata
        simp only [Option.map_some', Option.some.injEq] at hdata
        have heff : (effectiveReq (sampleReq 5)).Hash = "h" := by decide
        obtain ⟨w2, s, h1, h2, h3, h4, _, h6, _⟩ :=
          Fetch_settled_entry 0 sampleSettled w hrun ⟨none⟩ (sampleReq 5) cad d rfl
            (by rw [heff]; exact hg) hd
        rw [hchan] at h6
        refine ⟨w, w2, s, rfl, by rw [hg]; simp [hchan, hd, hdata], by rw [h1, hchan], h2,
          ?_, ?_, hqw, ?_⟩
        · rw [h4, List.drop_left]
          simp [hchan, hdata]
        · rw [h4, List.drop_left, heff, hchan, hg]
          simp [hd]
        · rw [h6, List.map_append, hqw]
          simp [hdata]

end Datablocks
